import Mathlib

/-!
# tmplng: tree model, walker, validator, import extractor and import resolution

A shallow embedding of `src/ast.js` and `src/imports.js`.

* JavaScript values are the data values of `Val`; a tree node is an object whose
  `node` property holds its kind tag.
* A statement that may throw is a `Step σ`: it maps the state of the walker's
  callbacks to the new state together with the error thrown, if any.
* The walk functions recurse on the tree exactly as the source does; they are
  total because every recursive call is on a property of the current node.
-/

set_option autoImplicit false
set_option linter.unusedVariables false

namespace Tmplng

/-! ## JavaScript values -/

/-- Errors raised while the source runs: a `TypeError` of the runtime (a property
read on `undefined` or `null`, a call of something that is not a function) or an
`Error` object thrown by the source with the given message. The outcome
`unmodelled` is not an error of the source: it marks a run in which the source
compares a string, an array or an object with a number, a conversion this
embedding does not cover. -/
inductive JSError where
  | typeError
  | error (message : String)
  | unmodelled
  deriving DecidableEq, Repr

/-- The JavaScript values the source works on. An object is its list of own
properties, in the order in which they are enumerated; the first entry for a key
is the one that is read. Numbers are the integers. -/
inductive Val where
  | undefined
  | null
  | bool (b : Bool)
  | num (n : Int)
  | str (s : String)
  | arr (items : List Val)
  | obj (fields : List (String × Val))
  deriving Repr

mutual
/-- Structural size of a value, the measure under which the walks terminate. -/
def Val.size : Val → Nat
  | .undefined => 0
  | .null => 1
  | .bool _ => 1
  | .num _ => 1
  | .str _ => 1
  | .arr items => 1 + Val.sizeItems items
  | .obj fields => 1 + Val.sizeFields fields
/-- Size of the elements of an array. -/
def Val.sizeItems : List Val → Nat
  | [] => 0
  | x :: xs => 1 + x.size + Val.sizeItems xs
/-- Size of the properties of an object. -/
def Val.sizeFields : List (String × Val) → Nat
  | [] => 0
  | (_, v) :: fs => 1 + v.size + Val.sizeFields fs
end

/-- Property read `value.key`. Reading a property of `undefined` or `null` throws a
`TypeError`; a property that is absent reads as `undefined`. None of the property
names the source reads on a node is defined on a boolean, number or string, and
on an array none of them holds a data value. -/
def Val.get : Val → String → Except JSError Val
  | .undefined, _ => .error .typeError
  | .null, _ => .error .typeError
  | .obj fields, key => .ok ((fields.lookup key).getD .undefined)
  | _, _ => .ok .undefined

/-- The result of `typeof value`. -/
def Val.typeof : Val → String
  | .undefined => "undefined"
  | .null => "object"
  | .bool _ => "boolean"
  | .num _ => "number"
  | .str _ => "string"
  | .arr _ => "object"
  | .obj _ => "object"

/-- The result of `Array.isArray(value)`. -/
def Val.isArray : Val → Bool
  | .arr _ => true
  | _ => false

/-- Truthiness of a value, as tested by `if (value)`. -/
def Val.truthy : Val → Bool
  | .undefined => false
  | .null => false
  | .bool b => b
  | .num n => n != 0
  | .str s => s != ""
  | .arr _ => true
  | .obj _ => true

/-- The comparison `value === 'text'` against a string literal. -/
def Val.isStr : Val → String → Bool
  | .str s, text => s == text
  | _, _ => false

mutual
/-- Equality of values as used for the members of a `Set`. Primitive values are
compared by value. The embedding has no object identities, so two arrays or
objects count as the same reference exactly when they are structurally equal. -/
def Val.sameValueZero : Val → Val → Bool
  | .undefined, .undefined => true
  | .null, .null => true
  | .bool a, .bool b => a == b
  | .num a, .num b => a == b
  | .str a, .str b => a == b
  | .arr xs, .arr ys => Val.sameItems xs ys
  | .obj fs, .obj gs => Val.sameFields fs gs
  | _, _ => false
/-- Elementwise `sameValueZero` on arrays. -/
def Val.sameItems : List Val → List Val → Bool
  | [], [] => true
  | x :: xs, y :: ys => Val.sameValueZero x y && Val.sameItems xs ys
  | _, _ => false
/-- Propertywise `sameValueZero` on objects. -/
def Val.sameFields : List (String × Val) → List (String × Val) → Bool
  | [], [] => true
  | (k, x) :: fs, (l, y) :: gs => k == l && Val.sameValueZero x y && Val.sameFields fs gs
  | _, _ => false
end

/-- Short-circuit `a && b` of two boolean expressions that may throw. -/
def andE (a b : Except JSError Bool) : Except JSError Bool :=
  match a with
  | .error e => .error e
  | .ok false => .ok false
  | .ok true => b

/-- Short-circuit `a || b` of two boolean expressions that may throw. -/
def orE (a b : Except JSError Bool) : Except JSError Bool :=
  match a with
  | .error e => .error e
  | .ok true => .ok true
  | .ok false => b

/-- The test `typeof node.key === ty`. -/
def typeofIs (node : Val) (key ty : String) : Except JSError Bool :=
  match node.get key with
  | .error e => .error e
  | .ok v => .ok (v.typeof == ty)

/-- The test `Array.isArray(node.key)`. -/
def fieldIsArray (node : Val) (key : String) : Except JSError Bool :=
  match node.get key with
  | .error e => .error e
  | .ok v => .ok v.isArray

/-! ## Statements -/

/-- A statement run on a state of type `σ`: the state it leaves and the error it
raised, `none` when it completed normally. -/
structure Step (σ : Type) where
  run : σ → σ × Option JSError

/-- The empty statement. -/
def Step.skip {σ : Type} : Step σ := ⟨fun s => (s, none)⟩

/-- The statement `throw e`. -/
def Step.throw {σ : Type} (e : JSError) : Step σ := ⟨fun s => (s, some e)⟩

/-- Sequencing `a; b`: `b` runs only when `a` completed normally. -/
def Step.seq {σ : Type} (a b : Step σ) : Step σ := ⟨fun s =>
  match a.run s with
  | (s1, none) => b.run s1
  | (s1, some e) => (s1, some e)⟩

/-- Evaluate an expression that may throw and continue with its value. -/
def Step.bindE {σ α : Type} (value : Except JSError α) (next : α → Step σ) : Step σ :=
  match value with
  | .error e => Step.throw e
  | .ok a => next a

/-- The statement `if (cond) body` with no else branch and no return: control
falls through to whatever follows. -/
def Step.when {σ : Type} (cond : Except JSError Bool) (body : Step σ) : Step σ :=
  Step.bindE cond (fun b => if b then body else Step.skip)

/-- The statement `if (cond) return body;` followed by `rest`. -/
def Step.ifReturn {σ : Type} (cond : Except JSError Bool) (body rest : Step σ) : Step σ :=
  Step.bindE cond (fun b => if b then body else rest)

/-- Loop of `forEach` over the elements of an array; the callback receives each
element together with the fact that it is smaller than the array. -/
def forEachItems {σ : Type} :
    (items : List Val) → ((x : Val) → x.size < 1 + Val.sizeItems items → Step σ) → Step σ
  | [], _ => Step.skip
  | x :: xs, f =>
    (f x (by simp [Val.sizeItems]; omega)).seq
      (forEachItems xs (fun y h => f y (by simp [Val.sizeItems] at *; omega)))

/-- The call `value.forEach(f)`. On an array it runs `f` on the elements in
order; on `undefined` and `null` reading `forEach` throws, and on any other data
value `forEach` is not a function, so the call throws a `TypeError` as well. -/
def Val.forEach {σ : Type} (v : Val) (f : (x : Val) → x.size < v.size → Step σ) : Step σ :=
  match v with
  | .arr items => forEachItems items (fun x h => f x (by simpa [Val.size] using h))
  | _ => Step.throw .typeError

/-! ## Walkers -/

/-- The entry `walker[nodeName]` of a walker: an optional `pre` and an optional
`post` callback. -/
structure Hooks (σ : Type) where
  pre : Option (Val → Step σ)
  post : Option (Val → Step σ)

/-- A walker object: `walker[nodeName]` is `none` when the walker has no property
of that name, that is when it reads as `undefined`. -/
def Walker (σ : Type) := String → Option (Hooks σ)

/-- A callback slot read from a data value: a truthy data value is not callable. -/
def Hooks.slotOfVal {σ : Type} (slot : Val) : Option (Val → Step σ) :=
  if slot.truthy then some (fun _ => Step.throw .typeError) else none

/-- A data value standing where a walker is expected. -/
def Walker.ofVal {σ : Type} (v : Val) : Walker σ := fun nodeName =>
  match v.get nodeName with
  | .error _ => none
  | .ok entry =>
    match entry.get "pre", entry.get "post" with
    | .ok pre, .ok post => some ⟨Hooks.slotOfVal pre, Hooks.slotOfVal post⟩
    | _, _ => none

/-- `walkPre(nodeName)(walker, node)`: reads `walker[nodeName].pre`, which throws a
`TypeError` when `walker[nodeName]` is `undefined`, and calls it when present. -/
def walkPre {σ : Type} (nodeName : String) (walker : Walker σ) (node : Val) : Step σ :=
  match walker nodeName with
  | none => Step.throw .typeError
  | some hooks =>
    match hooks.pre with
    | some pre => pre node
    | none => Step.skip

/-- `walkPost(nodeName)(walker, node)`, the same for `walker[nodeName].post`. -/
def walkPost {σ : Type} (nodeName : String) (walker : Walker σ) (node : Val) : Step σ :=
  match walker nodeName with
  | none => Step.throw .typeError
  | some hooks =>
    match hooks.post with
    | some post => post node
    | none => Step.skip

/-! ## Node constructors and kind tests -/

/-- The comparison `node.node === kind`. -/
def hasKind (node : Val) (kind : String) : Except JSError Bool :=
  match node.get "node" with
  | .error e => .error e
  | .ok tag => .ok (tag.isStr kind)

def simpleIdentifier (name : Val) : Val :=
  .obj [("node", .str "simpleIdentifier"), ("name", name)]

def isSimpleIdentifier (node : Val) : Except JSError Bool := hasKind node "simpleIdentifier"

def qualifiedIdentifier (outer inner : Val) : Val :=
  .obj [("node", .str "qualifiedIdentifier"), ("outer", outer), ("inner", inner)]

def isQualifiedIdentifier (node : Val) : Except JSError Bool := hasKind node "qualifiedIdentifier"

def importt (uei : Val) : Val :=
  .obj [("node", .str "import"), ("uei", uei)]

def isImport (node : Val) : Except JSError Bool := hasKind node "import"

def isIdentifier (node : Val) : Except JSError Bool :=
  orE (isSimpleIdentifier node) (orE (isQualifiedIdentifier node) (isImport node))

def moduleLiteral (entries : Val) : Val :=
  .obj [("node", .str "moduleLiteral"), ("entries", entries)]

def isModuleLiteral (node : Val) : Except JSError Bool := hasKind node "moduleLiteral"

def isModule (node : Val) : Except JSError Bool :=
  orE (isModuleLiteral node) (isIdentifier node)

def moduleBinding (isPublic name module : Val) : Val :=
  .obj [("node", .str "moduleBinding"), ("isPublic", isPublic), ("name", name), ("module", module)]

def isModuleBinding (node : Val) : Except JSError Bool := hasKind node "moduleBinding"

def typeBinding (isPublic name type : Val) : Val :=
  .obj [("node", .str "typeBinding"), ("isPublic", isPublic), ("name", name), ("type", type)]

def isTypeBinding (node : Val) : Except JSError Bool := hasKind node "typeBinding"

def adt (summands : Val) : Val :=
  .obj [("node", .str "adt"), ("summands", summands)]

def isADT (node : Val) : Except JSError Bool := hasKind node "adt"

def summand (tag products : Val) : Val :=
  .obj [("node", .str "summand"), ("tag", tag), ("products", products)]

def isSummand (node : Val) : Except JSError Bool := hasKind node "summand"

def fnType (args out : Val) : Val :=
  .obj [("node", .str "fnType"), ("args", args), ("out", out)]

def isFnType (node : Val) : Except JSError Bool := hasKind node "fnType"

def isType (node : Val) : Except JSError Bool :=
  orE (isIdentifier node) (orE (isADT node) (isFnType node))

def expressionBinding (isPublic name expression : Val) : Val :=
  .obj [("node", .str "expressionBinding"), ("isPublic", isPublic), ("name", name),
    ("expression", expression)]

def isExpressionBinding (node : Val) : Except JSError Bool := hasKind node "expressionBinding"

def isEntry (node : Val) : Except JSError Bool :=
  orE (isModuleBinding node) (orE (isTypeBinding node) (isExpressionBinding node))

def projection (expression index : Val) : Val :=
  .obj [("node", .str "projection"), ("expression", expression), ("index", index)]

def isProjection (node : Val) : Except JSError Bool := hasKind node "projection"

def casee (branches : Val) : Val :=
  .obj [("node", .str "case"), ("branches", branches)]

def isCase (node : Val) : Except JSError Bool := hasKind node "case"

def branch (tag boundNames body : Val) : Val :=
  .obj [("node", .str "branch"), ("tag", tag), ("boundNames", boundNames), ("body", body)]

def isBranch (node : Val) : Except JSError Bool := hasKind node "branch"

def fnLiteral (args body : Val) : Val :=
  .obj [("node", .str "fnLiteral"), ("args", args), ("body", body)]

def isFnLiteral (node : Val) : Except JSError Bool := hasKind node "fnLiteral"

def application (fn args : Val) : Val :=
  .obj [("node", .str "application"), ("fn", fn), ("args", args)]

def isApplication (node : Val) : Except JSError Bool := hasKind node "application"

def isExpression (node : Val) : Except JSError Bool :=
  orE (isIdentifier node) (orE (isProjection node) (orE (isCase node)
    (orE (isFnLiteral node) (isApplication node))))

def isNode (node : Val) : Except JSError Bool :=
  orE (hasKind node "simpleIdentifier") (orE (hasKind node "qualifiedIdentifier")
  (orE (hasKind node "import") (orE (hasKind node "moduleLiteral")
  (orE (hasKind node "moduleBinding") (orE (hasKind node "typeBinding")
  (orE (hasKind node "adt") (orE (hasKind node "summand")
  (orE (hasKind node "fnType") (orE (hasKind node "expressionBinding")
  (orE (hasKind node "projection") (orE (hasKind node "case")
  (orE (hasKind node "branch") (orE (hasKind node "fnLiteral")
  (hasKind node "application"))))))))))))))

/-! ## The walk functions -/

/-- A property found by `lookup` is smaller than the property list. -/
theorem Val.lookup_size_lt (key : String) (fields : List (String × Val)) (v : Val)
    (h : fields.lookup key = some v) : v.size < Val.sizeFields fields := by
  induction fields with
  | nil => simp at h
  | cons p ps ih =>
    obtain ⟨k, x⟩ := p
    simp only [List.lookup] at h
    split at h
    · cases h; simp [Val.sizeFields]; omega
    · have := ih h; simp [Val.sizeFields]; omega

/-- A property that was read is smaller than the value it was read from. -/
theorem Val.get_size_lt {node child : Val} {key : String}
    (h : node.get key = .ok child) : child.size < node.size := by
  cases node with
  | undefined => simp [Val.get] at h
  | null => simp [Val.get] at h
  | bool b => simp [Val.get] at h; subst h; simp [Val.size]
  | num n => simp [Val.get] at h; subst h; simp [Val.size]
  | str s => simp [Val.get] at h; subst h; simp [Val.size]
  | arr items => simp [Val.get] at h; subst h; simp [Val.size]
  | obj fields =>
    simp only [Val.get, Except.ok.injEq] at h
    subst h
    cases hl : fields.lookup key with
    | none => simp [Val.size]
    | some v => have := Val.lookup_size_lt key fields v hl; simp [Val.size]; omega

def walkSimpleIdentifier {σ : Type} (walker : Walker σ) (node : Val) : Step σ :=
  (walkPre "simpleIdentifier" walker node).seq
    (walkPost "simpleIdentifier" walker node)

def walkImport {σ : Type} (walker : Walker σ) (node : Val) : Step σ :=
  (walkPre "import" walker node).seq
    (walkPost "import" walker node)

mutual
/-- `walkIdentifier`: none of the three `if` statements returns, so control always
reaches the final `throw`. -/
def walkIdentifier {σ : Type} (walker : Walker σ) (node : Val) : Step σ :=
  (Step.when (isSimpleIdentifier node) (walkSimpleIdentifier walker node)).seq <|
  (Step.when (isQualifiedIdentifier node) (walkQualifiedIdentifier walker node)).seq <|
  (Step.when (isImport node) (walkImport walker node)).seq <|
  Step.throw (.error "not an identifier")
termination_by (node.size, 1)
decreasing_by
  all_goals (apply Prod.Lex.right; decide)

/-- `walkQualifiedIdentifier`: the source calls `walkIdentifier(node.outer)` with one
argument, so inside that call `walker` is `node.outer` and `node` is `undefined`. -/
def walkQualifiedIdentifier {σ : Type} (walker : Walker σ) (node : Val) : Step σ :=
  (walkPre "qualifiedIdentifier" walker node).seq <|
  (match h : node.get "outer" with
    | .error e => Step.throw e
    | .ok outer => walkIdentifier (Walker.ofVal outer) Val.undefined).seq <|
  walkPost "qualifiedIdentifier" walker node
termination_by (node.size, 0)
decreasing_by
  all_goals (apply Prod.Lex.left; have := Val.get_size_lt h; simp [Val.size] at this ⊢; omega)

def walkModule {σ : Type} (walker : Walker σ) (node : Val) : Step σ :=
  (Step.when (isModuleLiteral node) (walkModuleLiteral walker node)).seq <|
  (Step.when (isIdentifier node) (walkIdentifier walker node)).seq <|
  Step.throw (.error "not a module")
termination_by (node.size, 2)
decreasing_by
  all_goals (apply Prod.Lex.right; decide)

def walkModuleLiteral {σ : Type} (walker : Walker σ) (node : Val) : Step σ :=
  (walkPre "moduleLiteral" walker node).seq <|
  (match h : node.get "entries" with
    | .error e => Step.throw e
    | .ok entries => entries.forEach (fun entry _ => walkEntry walker entry)).seq <|
  walkPost "moduleLiteral" walker node
termination_by (node.size, 0)
decreasing_by
  all_goals (apply Prod.Lex.left; have := Val.get_size_lt h; omega)

def walkEntry {σ : Type} (walker : Walker σ) (node : Val) : Step σ :=
  (Step.when (isModuleBinding node) (walkModuleBinding walker node)).seq <|
  (Step.when (isTypeBinding node) (walkTypeBinding walker node)).seq <|
  (Step.when (isExpressionBinding node) (walkExpressionBinding walker node)).seq <|
  Step.throw (.error "not an entry")
termination_by (node.size, 1)
decreasing_by
  all_goals (apply Prod.Lex.right; decide)

def walkModuleBinding {σ : Type} (walker : Walker σ) (node : Val) : Step σ :=
  (walkPre "moduleBinding" walker node).seq <|
  (match h : node.get "module" with
    | .error e => Step.throw e
    | .ok module => walkModule walker module).seq <|
  walkPost "moduleBinding" walker node
termination_by (node.size, 0)
decreasing_by
  all_goals (apply Prod.Lex.left; have := Val.get_size_lt h; omega)

def walkTypeBinding {σ : Type} (walker : Walker σ) (node : Val) : Step σ :=
  (walkPre "typeBinding" walker node).seq <|
  (match h : node.get "type" with
    | .error e => Step.throw e
    | .ok type => walkType walker type).seq <|
  walkPost "typeBinding" walker node

def walkType {σ : Type} (walker : Walker σ) (node : Val) : Step σ :=
  (Step.when (isIdentifier node) (walkIdentifier walker node)).seq <|
  (Step.when (isADT node) (walkADT walker node)).seq <|
  (Step.when (isFnType node) (walkFnType walker node)).seq <|
  Step.throw (.error "not a type")
termination_by (node.size, 2)
decreasing_by
  all_goals (apply Prod.Lex.right; decide)

def walkADT {σ : Type} (walker : Walker σ) (node : Val) : Step σ :=
  (walkPre "adt" walker node).seq <|
  (match h : node.get "summands" with
    | .error e => Step.throw e
    | .ok summands => summands.forEach (fun summand _ => walkSummand walker summand)).seq <|
  walkPost "adt" walker node
termination_by (node.size, 0)
decreasing_by
  all_goals (apply Prod.Lex.left; have := Val.get_size_lt h; omega)

def walkSummand {σ : Type} (walker : Walker σ) (node : Val) : Step σ :=
  (walkPre "summand" walker node).seq <|
  (match h : node.get "products" with
    | .error e => Step.throw e
    | .ok products => products.forEach (fun product _ => walkType walker product)).seq <|
  walkPost "summand" walker node
termination_by (node.size, 0)
decreasing_by
  all_goals (apply Prod.Lex.left; have := Val.get_size_lt h; omega)

def walkFnType {σ : Type} (walker : Walker σ) (node : Val) : Step σ :=
  (walkPre "fnType" walker node).seq <|
  (match h : node.get "args" with
    | .error e => Step.throw e
    | .ok args => args.forEach (fun arg _ => walkType walker arg)).seq <|
  (match h : node.get "out" with
    | .error e => Step.throw e
    | .ok out => walkType walker out).seq <|
  walkPost "fnType" walker node
termination_by (node.size, 0)
decreasing_by
  all_goals (apply Prod.Lex.left; have := Val.get_size_lt h; omega)

def walkExpressionBinding {σ : Type} (walker : Walker σ) (node : Val) : Step σ :=
  (walkPre "expressionBinding" walker node).seq <|
  (match h : node.get "expression" with
    | .error e => Step.throw e
    | .ok expression => walkExpression walker expression).seq <|
  walkPost "expressionBinding" walker node

def walkExpression {σ : Type} (walker : Walker σ) (node : Val) : Step σ :=
  (Step.when (isIdentifier node) (walkIdentifier walker node)).seq <|
  (Step.when (isProjection node) (walkProjection walker node)).seq <|
  (Step.when (isCase node) (walkCase walker node)).seq <|
  (Step.when (isFnLiteral node) (walkFnLiteral walker node)).seq <|
  (Step.when (isApplication node) (walkApplication walker node)).seq <|
  Step.throw (.error "not an expression")
termination_by (node.size, 2)
decreasing_by
  all_goals (apply Prod.Lex.right; decide)

def walkProjection {σ : Type} (walker : Walker σ) (node : Val) : Step σ :=
  (walkPre "projection" walker node).seq <|
  (match h : node.get "expression" with
    | .error e => Step.throw e
    | .ok expression => walkExpression walker expression).seq <|
  walkPost "projection" walker node
termination_by (node.size, 0)
decreasing_by
  all_goals (apply Prod.Lex.left; have := Val.get_size_lt h; omega)

def walkCase {σ : Type} (walker : Walker σ) (node : Val) : Step σ :=
  (walkPre "case" walker node).seq <|
  (match h : node.get "branches" with
    | .error e => Step.throw e
    | .ok branches => branches.forEach (fun branch _ => walkBranch walker branch)).seq <|
  walkPost "case" walker node
termination_by (node.size, 0)
decreasing_by
  all_goals (apply Prod.Lex.left; have := Val.get_size_lt h; omega)

def walkBranch {σ : Type} (walker : Walker σ) (node : Val) : Step σ :=
  (walkPre "branch" walker node).seq <|
  (match h : node.get "body" with
    | .error e => Step.throw e
    | .ok body => walkExpression walker body).seq <|
  walkPost "branch" walker node
termination_by (node.size, 0)
decreasing_by
  all_goals (apply Prod.Lex.left; have := Val.get_size_lt h; omega)

def walkFnLiteral {σ : Type} (walker : Walker σ) (node : Val) : Step σ :=
  (walkPre "fnLiteral" walker node).seq <|
  (match h : node.get "body" with
    | .error e => Step.throw e
    | .ok body => walkExpression walker body).seq <|
  walkPost "fnLiteral" walker node
termination_by (node.size, 0)
decreasing_by
  all_goals (apply Prod.Lex.left; have := Val.get_size_lt h; omega)

def walkApplication {σ : Type} (walker : Walker σ) (node : Val) : Step σ :=
  (walkPre "application" walker node).seq <|
  (match h : node.get "fn" with
    | .error e => Step.throw e
    | .ok fn => walkExpression walker fn).seq <|
  (match h : node.get "args" with
    | .error e => Step.throw e
    | .ok args => args.forEach (fun arg _ => walkExpression walker arg)).seq <|
  walkPost "application" walker node
termination_by (node.size, 0)
decreasing_by
  all_goals (apply Prod.Lex.left; have := Val.get_size_lt h; omega)
end

def walkNode {σ : Type} (walker : Walker σ) (node : Val) : Step σ :=
  Step.ifReturn (isSimpleIdentifier node) (walkSimpleIdentifier walker node) <|
  Step.ifReturn (isQualifiedIdentifier node) (walkQualifiedIdentifier walker node) <|
  Step.ifReturn (isImport node) (walkImport walker node) <|
  Step.ifReturn (isModuleLiteral node) (walkModuleLiteral walker node) <|
  Step.ifReturn (isModuleBinding node) (walkModuleBinding walker node) <|
  Step.ifReturn (isTypeBinding node) (walkTypeBinding walker node) <|
  Step.ifReturn (isADT node) (walkADT walker node) <|
  Step.ifReturn (isSummand node) (walkSummand walker node) <|
  Step.ifReturn (isFnType node) (walkFnType walker node) <|
  Step.ifReturn (isExpressionBinding node) (walkExpressionBinding walker node) <|
  Step.ifReturn (isProjection node) (walkProjection walker node) <|
  Step.ifReturn (isCase node) (walkCase walker node) <|
  Step.ifReturn (isBranch node) (walkBranch walker node) <|
  Step.ifReturn (isFnLiteral node) (walkFnLiteral walker node) <|
  Step.ifReturn (isApplication node) (walkApplication walker node) <|
  Step.throw (.error "invalid node")

/-! ## Validator -/

/-- `throwOnFalse(bool)`: throws `new Error()` when the argument is false. -/
def throwOnFalse {σ : Type} (bool : Bool) : Step σ :=
  if !bool then Step.throw (.error "") else Step.skip

/-- The `walker` object literal of `validateNode`: a `pre` callback for each of the
fifteen kinds and no `post` callback. -/
def validatorWalker : Walker Unit := fun nodeName =>
  if nodeName = "simpleIdentifier" then
    some ⟨some (fun node => Step.bindE
      (andE (isSimpleIdentifier node) (typeofIs node "name" "string")) throwOnFalse), none⟩
  else if nodeName = "qualifiedIdentifier" then
    some ⟨some (fun node => Step.bindE
      (andE (isQualifiedIdentifier node) (typeofIs node "inner" "string")) throwOnFalse), none⟩
  else if nodeName = "import" then
    some ⟨some (fun node => Step.bindE (isImport node) throwOnFalse), none⟩
  else if nodeName = "moduleLiteral" then
    some ⟨some (fun node => Step.bindE
      (andE (isModuleLiteral node) (fieldIsArray node "entries")) throwOnFalse), none⟩
  else if nodeName = "moduleBinding" then
    some ⟨some (fun node => Step.bindE
      (andE (andE (isModuleBinding node) (typeofIs node "isPublic" "boolean"))
        (typeofIs node "name" "string")) throwOnFalse), none⟩
  else if nodeName = "typeBinding" then
    some ⟨some (fun node => Step.bindE
      (andE (andE (isTypeBinding node) (typeofIs node "isPublic" "boolean"))
        (typeofIs node "name" "string")) throwOnFalse), none⟩
  else if nodeName = "adt" then
    some ⟨some (fun node => Step.bindE
      (andE (isADT node) (fieldIsArray node "summands")) throwOnFalse), none⟩
  else if nodeName = "summand" then
    some ⟨some (fun node => Step.bindE
      (andE (andE (isSummand node) (typeofIs node "tag" "string"))
        (fieldIsArray node "products")) throwOnFalse), none⟩
  else if nodeName = "fnType" then
    some ⟨some (fun node => Step.bindE
      (andE (isFnType node) (fieldIsArray node "args")) throwOnFalse), none⟩
  else if nodeName = "expressionBinding" then
    some ⟨some (fun node => Step.bindE
      (andE (andE (isExpressionBinding node) (typeofIs node "isPublic" "boolean"))
        (typeofIs node "name" "string")) throwOnFalse), none⟩
  else if nodeName = "projection" then
    some ⟨some (fun node => Step.bindE
      (andE (isProjection node) (typeofIs node "index" "number")) throwOnFalse), none⟩
  else if nodeName = "case" then
    some ⟨some (fun node => Step.bindE
      (andE (isCase node) (fieldIsArray node "branches")) throwOnFalse), none⟩
  else if nodeName = "branch" then
    some ⟨some (fun node => Step.bindE
      (andE (andE (isBranch node) (typeofIs node "tag" "string"))
        (fieldIsArray node "boundNames")) throwOnFalse), none⟩
  else if nodeName = "fnLiteral" then
    some ⟨some (fun node => Step.bindE
      (andE (isFnLiteral node) (fieldIsArray node "args")) throwOnFalse), none⟩
  else if nodeName = "application" then
    some ⟨some (fun node => Step.bindE
      (andE (isApplication node) (fieldIsArray node "args")) throwOnFalse), none⟩
  else none

/-- `validateNode(node)`. The kind test `isNode(node)` stands outside the `try`
block, so an error it raises leaves the function; every error raised by the walk
is caught and turned into `false`. -/
def validateNode (node : Val) : Except JSError Bool :=
  match isNode node with
  | .error e => .error e
  | .ok false => .ok false
  | .ok true =>
    match (walkNode validatorWalker node).run () with
    | (_, none) => .ok true
    | (_, some _) => .ok false

/-! ## Import extractor -/

/-- A `Set`: its members in insertion order, without duplicates. -/
structure JSSet where
  members : List Val
  deriving Repr

/-- The call `new Set()`. -/
def JSSet.empty : JSSet := ⟨[]⟩

/-- The call `set.has(value)`. -/
def JSSet.has (set : JSSet) (value : Val) : Bool :=
  set.members.any (fun member => member.sameValueZero value)

/-- The call `set.add(value)`. -/
def JSSet.add (set : JSSet) (value : Val) : JSSet :=
  if set.has value then set else ⟨set.members ++ [value]⟩

/-- The `walker` object literal of `allImportedUEIs`: its only property is
`import`, with a `pre` callback that adds `node.uei` to the set. -/
def importWalker : Walker JSSet := fun nodeName =>
  if nodeName = "import" then
    some ⟨some (fun node => Step.bindE (node.get "uei")
      (fun uei => ⟨fun ueis => (ueis.add uei, none)⟩)), none⟩
  else none

/-- `allImportedUEIs(node)`: an error raised by the walk leaves the function. -/
def allImportedUEIs (node : Val) : Except JSError JSSet :=
  match (walkNode importWalker node).run JSSet.empty with
  | (ueis, none) => .ok ueis
  | (_, some e) => .error e

/-! ## Caching resolver (`src/imports.js`) -/

/-- A `Map`: its entries in insertion order, at most one per key. -/
structure JSMap (κ ν : Type) where
  entries : List (κ × ν)

/-- The call `new Map()`. -/
def JSMap.empty {κ ν : Type} : JSMap κ ν := ⟨[]⟩

/-- Lookup of a key among the entries of a map. -/
def JSMap.find {κ ν : Type} [BEq κ] : List (κ × ν) → κ → Option ν
  | [], _ => none
  | (k, v) :: rest, key => if k == key then some v else JSMap.find rest key

/-- Replacement or insertion of a key among the entries of a map. -/
def JSMap.insert {κ ν : Type} [BEq κ] : List (κ × ν) → κ → ν → List (κ × ν)
  | [], key, value => [(key, value)]
  | (k, v) :: rest, key, value =>
    if k == key then (k, value) :: rest else (k, v) :: JSMap.insert rest key value

/-- The call `map.has(key)`. -/
def JSMap.has {κ ν : Type} [BEq κ] (map : JSMap κ ν) (key : κ) : Bool :=
  (JSMap.find map.entries key).isSome

/-- The call `map.set(key, value)`. -/
def JSMap.set {κ ν : Type} [BEq κ] (map : JSMap κ ν) (key : κ) (value : ν) : JSMap κ ν :=
  ⟨JSMap.insert map.entries key value⟩

/-- The call `map.get(key)` on a map of values: `undefined` when the key is absent. -/
def JSMap.get {κ : Type} [BEq κ] (map : JSMap κ Val) (key : κ) : Val :=
  (JSMap.find map.entries key).getD .undefined

/-- A resolver: called on a UEI in a state `ω` of the outside world, its promise
settles either fulfilled with an entity or rejected with a reason of type `ε`, and
leaves the world in a new state. Calls are sequential: a call is modelled up to
the point where its promise has settled. -/
def Resolver (κ ε ω : Type) := κ → ω → Except ε Val × ω

/-- The resolver returned by `newCachedResolver(resolver)`. Its world is the `cache`
of the closure paired with the world of the wrapped resolver; the cache starts as
`JSMap.empty`. -/
def newCachedResolver {κ ε ω : Type} [BEq κ] (resolver : Resolver κ ε ω) :
    Resolver κ ε (JSMap κ Val × ω) :=
  fun uei state =>
    let cache := state.1
    let cached := cache.get uei
    if cached.truthy then
      (.ok cached, state)
    else
      match resolver uei state.2 with
      | (.ok entity, world) => (.ok entity, (cache.set uei entity, world))
      | (.error err, world) => (.error err, (cache, world))

/-- The state of a resolver made by `newCachedResolver` before its first call. -/
def newCachedResolver.initial {κ ω : Type} (world : ω) : JSMap κ Val × ω :=
  (JSMap.empty, world)

/-- Instrumentation for counting: the resolver together with the log of the UEIs
it has been invoked on, oldest first. -/
def Resolver.logged {κ ε ω : Type} (resolver : Resolver κ ε ω) : Resolver κ ε (List κ × ω) :=
  fun uei state =>
    match resolver uei state.2 with
    | (result, world) => (result, (state.1 ++ [uei], world))

/-- A run of sequential calls of a resolver; the results are dropped. -/
def Resolver.callAll {κ ε ω : Type} (resolver : Resolver κ ε ω) : List κ → ω → ω
  | [], world => world
  | uei :: rest, world => Resolver.callAll resolver rest (resolver uei world).2

/-! ## Closure builder (`src/imports.js`) -/

instance : BEq Val := ⟨Val.sameValueZero⟩

/-- `addImports(importer, map, cu, currentUEI)`, giving the value returned or the
error thrown, the map and the world. After `map.set` and `allImportedUEIs(cu)`
the source evaluates `imports.map(...)`, where `imports` is the `Set` returned by
`allImportedUEIs`. A `Set` has no property `map`, so the call throws a `TypeError`
before the callback, and with it the importer, has run. -/
def addImports {ε ω : Type} (importer : Resolver Val ε ω) (map : JSMap Val Val)
    (cu currentUEI : Val) (world : ω) : Except JSError Val × JSMap Val Val × ω :=
  let map1 := map.set currentUEI cu
  match allImportedUEIs cu with
  | .error e => (.error e, map1, world)
  | .ok _ => (.error .typeError, map1, world)

/-- `resolveImportsRecursively(importer, cu, uei)`. The result `.ok cus` stands for
a returned promise that fulfils with the map `cus`, `.error e` for an error thrown
by the call itself. The source calls `.then` on what `addImports` returned, which
is a data value and so has no callable `then`. -/
def resolveImportsRecursively {ε ω : Type} (importer : Resolver Val ε ω) (cu uei : Val)
    (world : ω) : Except JSError (JSMap Val Val) × ω :=
  let cus : JSMap Val Val := JSMap.empty
  match addImports importer cus cu uei world with
  | (.error e, _, world1) => (.error e, world1)
  | (.ok returned, _, world1) =>
    match returned.get "then" with
    | .error e => (.error e, world1)
    | .ok _ => (.error .typeError, world1)

/-! ## Well-formed trees -/

/-- The fifteen node variants. -/
inductive Kind where
  | simpleIdentifier | qualifiedIdentifier | importt | moduleLiteral | moduleBinding
  | typeBinding | adt | summand | fnType | expressionBinding | projection | casee
  | branch | fnLiteral | application
  deriving DecidableEq, Repr

/-- The kind tag stored in the `node` property. -/
def Kind.tag : Kind → String
  | .simpleIdentifier => "simpleIdentifier"
  | .qualifiedIdentifier => "qualifiedIdentifier"
  | .importt => "import"
  | .moduleLiteral => "moduleLiteral"
  | .moduleBinding => "moduleBinding"
  | .typeBinding => "typeBinding"
  | .adt => "adt"
  | .summand => "summand"
  | .fnType => "fnType"
  | .expressionBinding => "expressionBinding"
  | .projection => "projection"
  | .casee => "case"
  | .branch => "branch"
  | .fnLiteral => "fnLiteral"
  | .application => "application"

/-- The grammars of the data model, with the two wrappers that occur only inside
an ADT or a case. -/
inductive Grammar where
  | identifier | module | entry | type | expression | summand | branch
  deriving DecidableEq, Repr

/-- The value `tree` is a well-formed member of a grammar: every node is built by
its constructor from fields of the declared kinds. -/
inductive WellFormed : Grammar → Val → Prop where
  | simpleIdentifier (name : String) :
      WellFormed .identifier (simpleIdentifier (.str name))
  | qualifiedIdentifier {outer : Val} (inner : String) :
      WellFormed .identifier outer →
      WellFormed .identifier (qualifiedIdentifier outer (.str inner))
  | importt (uei : Val) :
      WellFormed .identifier (importt uei)
  | moduleIdentifier {node : Val} :
      WellFormed .identifier node → WellFormed .module node
  | moduleLiteral {entries : List Val} :
      (∀ entry ∈ entries, WellFormed .entry entry) →
      WellFormed .module (moduleLiteral (.arr entries))
  | moduleBinding (isPublic : Bool) (name : String) {module : Val} :
      WellFormed .module module →
      WellFormed .entry (moduleBinding (.bool isPublic) (.str name) module)
  | typeBinding (isPublic : Bool) (name : String) {type : Val} :
      WellFormed .type type →
      WellFormed .entry (typeBinding (.bool isPublic) (.str name) type)
  | expressionBinding (isPublic : Bool) (name : String) {expression : Val} :
      WellFormed .expression expression →
      WellFormed .entry (expressionBinding (.bool isPublic) (.str name) expression)
  | typeIdentifier {node : Val} :
      WellFormed .identifier node → WellFormed .type node
  | adt {summands : List Val} :
      (∀ s ∈ summands, WellFormed .summand s) →
      (summands.map (fun s => s.get "tag")).Nodup →
      WellFormed .type (adt (.arr summands))
  | summand (tag : String) {products : List Val} :
      (∀ product ∈ products, WellFormed .type product) →
      WellFormed .summand (summand (.str tag) (.arr products))
  | fnType {args : List Val} {out : Val} :
      (∀ arg ∈ args, WellFormed .type arg) → WellFormed .type out →
      WellFormed .type (fnType (.arr args) out)
  | expressionIdentifier {node : Val} :
      WellFormed .identifier node → WellFormed .expression node
  | projection {expression : Val} (index : Nat) :
      WellFormed .expression expression →
      WellFormed .expression (projection expression (.num index))
  | casee {branches : List Val} :
      (∀ b ∈ branches, WellFormed .branch b) →
      WellFormed .expression (casee (.arr branches))
  | branch (tag : String) (boundNames : List String) {body : Val} :
      WellFormed .expression body →
      WellFormed .branch (branch (.str tag) (.arr (boundNames.map Val.str)) body)
  | fnLiteral (args : List String) {body : Val} :
      WellFormed .expression body →
      WellFormed .expression (fnLiteral (.arr (args.map Val.str)) body)
  | application {fn : Val} {args : List Val} :
      WellFormed .expression fn → (∀ arg ∈ args, WellFormed .expression arg) →
      WellFormed .expression (application fn (.arr args))

/-- A valid tree: a well-formed member of one of the grammars. -/
def ValidTree (tree : Val) : Prop := ∃ g, WellFormed g tree

/-! ## Mutating one field of one node -/

/-- Replacement or insertion of a property in a property list. -/
def Val.setField : List (String × Val) → String → Val → List (String × Val)
  | [], key, value => [(key, value)]
  | (k, v) :: rest, key, value =>
    if key == k then (k, value) :: rest else (k, v) :: Val.setField rest key value

/-- The object `node` with its property `key` replaced by `value`. -/
def Val.set (node : Val) (key : String) (value : Val) : Val :=
  match node with
  | .obj fields => .obj (Val.setField fields key value)
  | other => other

/-- The primitive kinds the validator checks fields against. -/
inductive FieldKind where
  | text | boolean | number | sequence
  deriving DecidableEq, Repr

/-- The value is not of the given primitive kind. -/
def FieldKind.wrong : FieldKind → Val → Bool
  | .text, v => v.typeof != "string"
  | .boolean, v => v.typeof != "boolean"
  | .number, v => v.typeof != "number"
  | .sequence, v => !v.isArray

/-- The shape-checked fields of each variant with their declared kinds. -/
def Kind.checkedFields : Kind → List (String × FieldKind)
  | .simpleIdentifier => [("name", .text)]
  | .qualifiedIdentifier => [("inner", .text)]
  | .importt => []
  | .moduleLiteral => [("entries", .sequence)]
  | .moduleBinding => [("isPublic", .boolean), ("name", .text)]
  | .typeBinding => [("isPublic", .boolean), ("name", .text)]
  | .adt => [("summands", .sequence)]
  | .summand => [("tag", .text), ("products", .sequence)]
  | .fnType => [("args", .sequence)]
  | .expressionBinding => [("isPublic", .boolean), ("name", .text)]
  | .projection => [("index", .number)]
  | .casee => [("branches", .sequence)]
  | .branch => [("tag", .text), ("boundNames", .sequence)]
  | .fnLiteral => [("args", .sequence)]
  | .application => [("args", .sequence)]

/-- The fields of each variant that hold one child node. -/
def Kind.nodeFields : Kind → List String
  | .qualifiedIdentifier => ["outer"]
  | .moduleBinding => ["module"]
  | .typeBinding => ["type"]
  | .fnType => ["out"]
  | .expressionBinding => ["expression"]
  | .projection => ["expression"]
  | .branch => ["body"]
  | .fnLiteral => ["body"]
  | .application => ["fn"]
  | _ => []

/-- The fields of each variant that hold a sequence of child nodes. -/
def Kind.sequenceFields : Kind → List String
  | .moduleLiteral => ["entries"]
  | .adt => ["summands"]
  | .summand => ["products"]
  | .fnType => ["args"]
  | .casee => ["branches"]
  | .application => ["args"]
  | _ => []

/-- `Mutation tree mutant`: `mutant` is `tree` with one shape-checked field of one
of its nodes replaced by a value of the wrong primitive kind. The node is the
root (`here`), or lies in a child (`inChild`) or in an element of a sequence of
children (`inItem`). -/
inductive Mutation : Val → Val → Prop where
  | here {node : Val} (kind : Kind) {field : String} {fieldKind : FieldKind} {wrong : Val} :
      node.get "node" = .ok (.str kind.tag) →
      (field, fieldKind) ∈ kind.checkedFields →
      fieldKind.wrong wrong = true →
      Mutation node (node.set field wrong)
  | inChild {node : Val} (kind : Kind) {field : String} {child mutant : Val} :
      node.get "node" = .ok (.str kind.tag) →
      field ∈ kind.nodeFields →
      node.get field = .ok child →
      Mutation child mutant →
      Mutation node (node.set field mutant)
  | inItem {node : Val} (kind : Kind) {field : String} {items : List Val} {mutant : Val}
      (i : Nat) (hi : i < items.length) :
      node.get "node" = .ok (.str kind.tag) →
      field ∈ kind.sequenceFields →
      node.get field = .ok (.arr items) →
      Mutation (items.get ⟨i, hi⟩) mutant →
      Mutation node (node.set field (.arr (items.set i mutant)))

/-! ## Observing a walk -/

/-- The statement raises an error when run from the state `s`. -/
def Step.Fails {σ : Type} (a : Step σ) (s : σ) : Prop := (a.run s).2 ≠ none

/-- One callback fired during a walk. -/
inductive Event where
  | pre (node : Val)
  | post (node : Val)
  deriving Repr

/-- A walker with a `pre` and a `post` callback for every kind; each callback
appends its event to the log. -/
def recordingWalker : Walker (List Event) := fun _ =>
  some ⟨some (fun node => ⟨fun log => (log ++ [Event.pre node], none)⟩),
    some (fun node => ⟨fun log => (log ++ [Event.post node], none)⟩)⟩

/-- The walker object with no property at all. -/
def emptyWalker {σ : Type} : Walker σ := fun _ => none

/-- The boolean expression checked by the `pre` callback of the validator for each kind. -/
def Kind.shapeCheck : Kind → Val → Except JSError Bool
  | .simpleIdentifier, node => andE (isSimpleIdentifier node) (typeofIs node "name" "string")
  | .qualifiedIdentifier, node =>
    andE (isQualifiedIdentifier node) (typeofIs node "inner" "string")
  | .importt, node => isImport node
  | .moduleLiteral, node => andE (isModuleLiteral node) (fieldIsArray node "entries")
  | .moduleBinding, node =>
    andE (andE (isModuleBinding node) (typeofIs node "isPublic" "boolean"))
      (typeofIs node "name" "string")
  | .typeBinding, node =>
    andE (andE (isTypeBinding node) (typeofIs node "isPublic" "boolean"))
      (typeofIs node "name" "string")
  | .adt, node => andE (isADT node) (fieldIsArray node "summands")
  | .summand, node =>
    andE (andE (isSummand node) (typeofIs node "tag" "string")) (fieldIsArray node "products")
  | .fnType, node => andE (isFnType node) (fieldIsArray node "args")
  | .expressionBinding, node =>
    andE (andE (isExpressionBinding node) (typeofIs node "isPublic" "boolean"))
      (typeofIs node "name" "string")
  | .projection, node => andE (isProjection node) (typeofIs node "index" "number")
  | .casee, node => andE (isCase node) (fieldIsArray node "branches")
  | .branch, node =>
    andE (andE (isBranch node) (typeofIs node "tag" "string")) (fieldIsArray node "boundNames")
  | .fnLiteral, node => andE (isFnLiteral node) (fieldIsArray node "args")
  | .application, node => andE (isApplication node) (fieldIsArray node "args")

/-- The walk function `walkNode` dispatches to for each kind. -/
def Kind.walk {σ : Type} : Kind → Walker σ → Val → Step σ
  | .simpleIdentifier => walkSimpleIdentifier
  | .qualifiedIdentifier => walkQualifiedIdentifier
  | .importt => walkImport
  | .moduleLiteral => walkModuleLiteral
  | .moduleBinding => walkModuleBinding
  | .typeBinding => walkTypeBinding
  | .adt => walkADT
  | .summand => walkSummand
  | .fnType => walkFnType
  | .expressionBinding => walkExpressionBinding
  | .projection => walkProjection
  | .casee => walkCase
  | .branch => walkBranch
  | .fnLiteral => walkFnLiteral
  | .application => walkApplication

/-- The nine kinds whose walk runs one of the grammar walks `walkIdentifier`,
`walkModule`, `walkType` or `walkExpression` on a child unconditionally. -/
def Kind.alwaysFails : Kind → Bool
  | .qualifiedIdentifier | .moduleBinding | .typeBinding | .fnType | .expressionBinding
  | .projection | .branch | .fnLiteral | .application => true
  | _ => false

/-- The statements of a list run in order. -/
def Step.seqAll {σ : Type} : List (Step σ) → Step σ
  | [] => Step.skip
  | a :: rest => a.seq (Step.seqAll rest)

/-- A sparse walker: its only property is `import`, whose callbacks record
their events. -/
def importOnlyWalker : Walker (List Event) := fun nodeName =>
  if nodeName = "import" then
    some ⟨some (fun node => ⟨fun log => (log ++ [Event.pre node], none)⟩),
      some (fun node => ⟨fun log => (log ++ [Event.post node], none)⟩)⟩
  else none

/-! ## Conversions to text -/

mutual
/-- Conversion of a value to a string, as applied to the substitutions of a
template literal and to an operand of `+` next to a string. An array is joined
with commas. An object comes out as `[object Object]`, unless it has an own
property `toString`, which is data and so not callable: the conversion throws. -/
def Val.toStr : Val → Except JSError String
  | .undefined => .ok "undefined"
  | .null => .ok "null"
  | .bool b => .ok (if b then "true" else "false")
  | .num n => .ok (toString n)
  | .str s => .ok s
  | .arr items => Val.joinWith "," items
  | .obj fields =>
    if (fields.lookup "toString").isSome then .error .typeError else .ok "[object Object]"
/-- The call `items.join(sep)`: `undefined` and `null` elements count as empty. -/
def Val.joinWith (sep : String) : List Val → Except JSError String
  | [] => .ok ""
  | [x] =>
    match x with
    | .undefined => .ok ""
    | .null => .ok ""
    | v => Val.toStr v
  | x :: y :: rest =>
    match ((match x with
      | .undefined => .ok ""
      | .null => .ok ""
      | v => Val.toStr v) : Except JSError String) with
    | .error e => .error e
    | .ok first =>
      match Val.joinWith sep (y :: rest) with
      | .error e => .error e
      | .ok others => .ok (first ++ sep ++ others)
end

/-- Number of UTF-16 code units of a string, its `length` in JavaScript. -/
def utf16Units (s : String) : Nat :=
  s.data.foldl (fun n c => n + (if c.toNat < 65536 then 1 else 2)) 0

/-- Property read `value.length`. -/
def Val.length : Val → Except JSError Val
  | .undefined => .error .typeError
  | .null => .error .typeError
  | .arr items => .ok (.num items.length)
  | .str s => .ok (.num (utf16Units s))
  | .obj fields => .ok ((fields.lookup "length").getD .undefined)
  | _ => .ok .undefined

/-- The comparison `value > 0`. `undefined` converts to `NaN`, `null` to 0 and a
boolean to 0 or 1; the numeric value of other operands is not modelled. -/
def Val.greaterThanZero : Val → Except JSError Bool
  | .num n => .ok (decide (0 < n))
  | .bool b => .ok b
  | .undefined => .ok false
  | .null => .ok false
  | _ => .error .unmodelled

/-- Lower-case hexadecimal digit. -/
def hexDigit (n : Nat) : Char :=
  if n < 10 then Char.ofNat (48 + n) else Char.ofNat (87 + n)

/-- The escape of one character inside a JSON string. -/
def jsonEscape (c : Char) : String :=
  if c.toNat = 34 then "\\\""
  else if c.toNat = 92 then "\\\\"
  else if c.toNat = 8 then "\\b"
  else if c.toNat = 12 then "\\f"
  else if c.toNat = 10 then "\\n"
  else if c.toNat = 13 then "\\r"
  else if c.toNat = 9 then "\\t"
  else if c.toNat < 32 then
    "\\u00" ++ String.mk [hexDigit (c.toNat / 16), hexDigit (c.toNat % 16)]
  else String.mk [c]

/-- The JSON text of a string. -/
def jsonQuote (s : String) : String :=
  "\"" ++ String.join (s.data.map jsonEscape) ++ "\""

mutual
/-- The call `JSON.stringify(value)` on a data value; `none` stands for the result
`undefined`. -/
def jsonStringify : Val → Option String
  | .undefined => none
  | .null => some "null"
  | .bool b => some (if b then "true" else "false")
  | .num n => some (toString n)
  | .str s => some (jsonQuote s)
  | .arr items => some ("[" ++ ",".intercalate (jsonItems items) ++ "]")
  | .obj fields => some ("\x7b" ++ ",".intercalate (jsonMembers fields) ++ "\x7d")
/-- The JSON texts of the elements of an array; `undefined` comes out as `null`. -/
def jsonItems : List Val → List String
  | [] => []
  | x :: rest => (jsonStringify x).getD "null" :: jsonItems rest
/-- The JSON texts of the properties of an object; a property whose value is
`undefined` is left out. -/
def jsonMembers : List (String × Val) → List String
  | [] => []
  | (key, x) :: rest =>
    match jsonStringify x with
    | none => jsonMembers rest
    | some text => (jsonQuote key ++ ":" ++ text) :: jsonMembers rest
end

/-- `indent(amount, content)`: `amount` spaces followed by the content as a string. -/
def indent (amount : Nat) (content : Val) : Except JSError String :=
  match content.toStr with
  | .error e => .error e
  | .ok text => .ok (String.mk (List.replicate amount (Char.ofNat 32)) ++ text)

/-- Loop of `map` over the elements of an array; the callback receives each
element together with the fact that it is smaller than the array. -/
def mapItems :
    (items : List Val) → ((x : Val) → x.size < 1 + Val.sizeItems items → Except JSError Val) →
      Except JSError (List Val)
  | [], _ => .ok []
  | x :: xs, f =>
    match f x (by simp [Val.sizeItems]; omega) with
    | .error e => .error e
    | .ok y =>
      match mapItems xs (fun z h => f z (by simp [Val.sizeItems] at *; omega)) with
      | .error e => .error e
      | .ok ys => .ok (y :: ys)

/-- The call `value.map(f)`. On an array it collects the results of `f` on the
elements in order and stops at the first error; on any other data value `map`
cannot be read or is not a function, and the call throws a `TypeError`. -/
def Val.map (v : Val) (f : (x : Val) → x.size < v.size → Except JSError Val) :
    Except JSError (List Val) :=
  match v with
  | .arr items => mapItems items (fun x h => f x (by simpa [Val.size] using h))
  | _ => .error .typeError

/-- The statement `if (cond) return body;` followed by `rest`, in a function that
returns a value. -/
def returnIf {α : Type} (cond : Except JSError Bool) (body rest : Except JSError α) :
    Except JSError α :=
  match cond with
  | .error e => .error e
  | .ok true => body
  | .ok false => rest

/-! ## Printer -/

def ppSimpleIdentifier (node : Val) : Except JSError Val :=
  node.get "name"

/-- `ppImport`: a renderer `node.uei.prettyPrint` found on a data value is not
callable, so the call of a truthy one throws. -/
def ppImport (node : Val) (indentation : Nat) : Except JSError Val :=
  (node.get "uei").bind fun uei =>
  (uei.get "prettyPrint").bind fun renderer =>
  if renderer.truthy then .error .typeError
  else
    (match jsonStringify uei with
      | none => Val.undefined.toStr
      | some text => .ok text).bind fun text =>
    .ok (.str ("import[" ++ text ++ "]"))

mutual
def prettyPrint (node : Val) (indentation : Nat) : Except JSError Val :=
  returnIf (isSimpleIdentifier node) (ppSimpleIdentifier node) <|
  returnIf (isQualifiedIdentifier node) (ppQualifiedIdentifier node indentation) <|
  returnIf (isImport node) (ppImport node indentation) <|
  returnIf (isModuleLiteral node) (ppModuleLiteral node indentation) <|
  returnIf (isModuleBinding node) (ppModuleBinding node indentation) <|
  returnIf (isTypeBinding node) (ppTypeBinding node indentation) <|
  returnIf (isADT node) (ppADT node indentation) <|
  returnIf (isSummand node) (ppSummand node indentation) <|
  returnIf (isFnType node) (ppFnType node indentation) <|
  returnIf (isExpressionBinding node) (ppExpressionBinding node indentation) <|
  returnIf (isProjection node) (ppProjection node indentation) <|
  returnIf (isCase node) (ppCase node indentation) <|
  returnIf (isBranch node) (ppBranch node indentation) <|
  returnIf (isFnLiteral node) (ppFnLiteral node indentation) <|
  returnIf (isApplication node) (ppApplication node indentation) <|
  .error (.error "invalid node")
termination_by (node.size, 1)
decreasing_by
  all_goals (apply Prod.Lex.right; decide)

def ppQualifiedIdentifier (node : Val) (indentation : Nat) : Except JSError Val :=
  match h : node.get "outer" with
  | .error e => .error e
  | .ok outer =>
    (prettyPrint outer indentation).bind fun outerText =>
    outerText.toStr.bind fun left =>
    (node.get "inner").bind fun inner =>
    inner.toStr.bind fun right =>
    .ok (.str (left ++ "::" ++ right))
termination_by (node.size, 0)
decreasing_by
  all_goals (apply Prod.Lex.left; have := Val.get_size_lt h; omega)

def ppModuleLiteral (node : Val) (indentation : Nat) : Except JSError Val :=
  match h : node.get "entries" with
  | .error e => .error e
  | .ok entries =>
    entries.length.bind fun len =>
    len.greaterThanZero.bind fun nonEmpty =>
    if nonEmpty then
      (entries.map fun entry _ =>
        (prettyPrint entry (indentation + 2)).bind fun text =>
        (indent (indentation + 2) text).bind fun line =>
        .ok (.str (line ++ ";\n"))).bind fun lines =>
      (Val.joinWith "\n" lines).bind fun body =>
      (indent indentation (.str "")).bind fun closing =>
      .ok (.str ("\x7b\n" ++ body ++ closing ++ "\x7d\n"))
    else .ok (.str "\x7b\n\x7d\n")
termination_by (node.size, 0)
decreasing_by
  all_goals (apply Prod.Lex.left; have := Val.get_size_lt h; omega)

def ppModuleBinding (node : Val) (indentation : Nat) : Except JSError Val :=
  (node.get "isPublic").bind fun isPublic =>
  (node.get "name").bind fun name =>
  name.toStr.bind fun nameText =>
  match h : node.get "module" with
  | .error e => .error e
  | .ok module =>
    (prettyPrint module indentation).bind fun value =>
    value.toStr.bind fun valueText =>
    .ok (.str ((if isPublic.truthy then "public " else "") ++ "module " ++ nameText ++ " = " ++
      valueText))
termination_by (node.size, 0)
decreasing_by
  all_goals (apply Prod.Lex.left; have := Val.get_size_lt h; omega)

def ppTypeBinding (node : Val) (indentation : Nat) : Except JSError Val :=
  (node.get "isPublic").bind fun isPublic =>
  (node.get "name").bind fun name =>
  name.toStr.bind fun nameText =>
  match h : node.get "type" with
  | .error e => .error e
  | .ok type =>
    (prettyPrint type indentation).bind fun value =>
    value.toStr.bind fun valueText =>
    .ok (.str ((if isPublic.truthy then "public " else "") ++ "type " ++ nameText ++ " = " ++
      valueText))
termination_by (node.size, 0)
decreasing_by
  all_goals (apply Prod.Lex.left; have := Val.get_size_lt h; omega)

def ppADT (node : Val) (indentation : Nat) : Except JSError Val :=
  match h : node.get "summands" with
  | .error e => .error e
  | .ok summands =>
    summands.length.bind fun len =>
    len.greaterThanZero.bind fun nonEmpty =>
    if nonEmpty then
      (summands.map fun summand _ =>
        (ppSummand summand (indentation + 2)).bind fun text =>
        (indent (indentation + 2) text).bind fun line =>
        .ok (.str (line ++ ",\n"))).bind fun lines =>
      (Val.joinWith "\n" lines).bind fun body =>
      (indent indentation (.str "")).bind fun closing =>
      .ok (.str ("\x7b\n" ++ body ++ closing ++ "\x7d\n"))
    else .ok (.str "\x7b\n\x7d\n")
termination_by (node.size, 0)
decreasing_by
  all_goals (apply Prod.Lex.left; have := Val.get_size_lt h; omega)

/-- `ppSummand`: the test reads `node.product`, not `node.products`. -/
def ppSummand (node : Val) (indentation : Nat) : Except JSError Val :=
  (node.get "tag").bind fun tag =>
  tag.toStr.bind fun tagText =>
  (node.get "product").bind fun product =>
  product.length.bind fun len =>
  len.greaterThanZero.bind fun nonEmpty =>
  if nonEmpty then
    match h : node.get "products" with
    | .error e => .error e
    | .ok products =>
      (products.map fun product _ => prettyPrint product indentation).bind fun texts =>
      (Val.joinWith ", " texts).bind fun joined =>
      .ok (.str (tagText ++ "(" ++ joined ++ ")"))
  else .ok (.str tagText)
termination_by (node.size, 0)
decreasing_by
  all_goals (apply Prod.Lex.left; have := Val.get_size_lt h; omega)

def ppFnType (node : Val) (indentation : Nat) : Except JSError Val :=
  match h : node.get "args" with
  | .error e => .error e
  | .ok args =>
    (args.map fun arg _ => prettyPrint arg indentation).bind fun texts =>
    (Val.joinWith ", " texts).bind fun joined =>
    match h : node.get "out" with
    | .error e => .error e
    | .ok out =>
      (prettyPrint out indentation).bind fun value =>
      value.toStr.bind fun valueText =>
      .ok (.str ("(" ++ joined ++ ") -> " ++ valueText))
termination_by (node.size, 0)
decreasing_by
  all_goals (apply Prod.Lex.left; have := Val.get_size_lt h; omega)

/-- `ppExpressionBinding`: the keyword written is `type`. -/
def ppExpressionBinding (node : Val) (indentation : Nat) : Except JSError Val :=
  (node.get "isPublic").bind fun isPublic =>
  (node.get "name").bind fun name =>
  name.toStr.bind fun nameText =>
  match h : node.get "expression" with
  | .error e => .error e
  | .ok expression =>
    (prettyPrint expression indentation).bind fun value =>
    value.toStr.bind fun valueText =>
    .ok (.str ((if isPublic.truthy then "public " else "") ++ "type " ++ nameText ++ " = " ++
      valueText))
termination_by (node.size, 0)
decreasing_by
  all_goals (apply Prod.Lex.left; have := Val.get_size_lt h; omega)

def ppProjection (node : Val) (indentation : Nat) : Except JSError Val :=
  match h : node.get "expression" with
  | .error e => .error e
  | .ok expression =>
    (prettyPrint expression indentation).bind fun value =>
    value.toStr.bind fun valueText =>
    (node.get "index").bind fun index =>
    index.toStr.bind fun indexText =>
    .ok (.str (valueText ++ "." ++ indexText))
termination_by (node.size, 0)
decreasing_by
  all_goals (apply Prod.Lex.left; have := Val.get_size_lt h; omega)

def ppCase (node : Val) (indentation : Nat) : Except JSError Val :=
  match h : node.get "branches" with
  | .error e => .error e
  | .ok branches =>
    branches.length.bind fun len =>
    len.greaterThanZero.bind fun nonEmpty =>
    if nonEmpty then
      (branches.map fun branch _ =>
        (ppBranch branch (indentation + 2)).bind fun text =>
        (indent (indentation + 2) text).bind fun line =>
        .ok (.str (line ++ ",\n"))).bind fun lines =>
      (Val.joinWith "\n" lines).bind fun body =>
      (indent indentation (.str "")).bind fun closing =>
      .ok (.str ("\x7b\n" ++ body ++ closing ++ "\x7d\n"))
    else .ok (.str "\x7b\n\x7d\n")
termination_by (node.size, 0)
decreasing_by
  all_goals (apply Prod.Lex.left; have := Val.get_size_lt h; omega)

/-- `ppBranch`: the bound names, which are strings, are passed to `prettyPrint`;
the body is not printed. Without bound names the tag is returned as it is. -/
def ppBranch (node : Val) (indentation : Nat) : Except JSError Val :=
  (node.get "tag").bind fun tag =>
  match h : node.get "boundNames" with
  | .error e => .error e
  | .ok boundNames =>
    boundNames.length.bind fun len =>
    len.greaterThanZero.bind fun nonEmpty =>
    if nonEmpty then
      tag.toStr.bind fun tagText =>
      (boundNames.map fun boundName _ => prettyPrint boundName indentation).bind fun texts =>
      (Val.joinWith ", " texts).bind fun joined =>
      .ok (.str (tagText ++ "(" ++ joined ++ ")"))
    else .ok tag
termination_by (node.size, 0)
decreasing_by
  all_goals (apply Prod.Lex.left; have := Val.get_size_lt h; omega)

/-- `ppFnLiteral`: the argument names, which are strings, are passed to
`prettyPrint`. -/
def ppFnLiteral (node : Val) (indentation : Nat) : Except JSError Val :=
  match h : node.get "args" with
  | .error e => .error e
  | .ok args =>
    (args.map fun arg _ => prettyPrint arg indentation).bind fun texts =>
    (Val.joinWith ", " texts).bind fun joined =>
    match h : node.get "body" with
    | .error e => .error e
    | .ok body =>
      (prettyPrint body (indentation + 2)).bind fun value =>
      (indent (indentation + 2) value).bind fun bodyText =>
      (indent indentation (.str "\x7d\n")).bind fun closing =>
      .ok (.str ("(" ++ joined ++ ") -> \x7b\n" ++ bodyText ++ closing))
termination_by (node.size, 0)
decreasing_by
  all_goals (apply Prod.Lex.left; have := Val.get_size_lt h; omega)

def ppApplication (node : Val) (indentation : Nat) : Except JSError Val :=
  match h : node.get "fn" with
  | .error e => .error e
  | .ok fn =>
    (prettyPrint fn indentation).bind fun value =>
    value.toStr.bind fun fnText =>
    match h : node.get "args" with
    | .error e => .error e
    | .ok args =>
      (args.map fun arg _ => prettyPrint arg indentation).bind fun texts =>
      (Val.joinWith ", " texts).bind fun joined =>
      .ok (.str (fnText ++ "(" ++ joined ++ ")"))
termination_by (node.size, 0)
decreasing_by
  all_goals (apply Prod.Lex.left; have := Val.get_size_lt h; omega)
end

/-! ## Further notions used in the statements -/

/-- The statement never raises the error `bad`. -/
def Step.Avoids {σ : Type} (a : Step σ) (bad : JSError) : Prop :=
  ∀ s, (a.run s).2 ≠ some bad

/-- None of the callbacks of the walker raises the error `bad`. -/
def Walker.NeverRaises {σ : Type} (walker : Walker σ) (bad : JSError) : Prop :=
  ∀ nodeName hooks, walker nodeName = some hooks →
    (∀ pre, hooks.pre = some pre → ∀ node, (pre node).Avoids bad) ∧
    (∀ post, hooks.post = some post → ∀ node, (post node).Avoids bad)

/-- The kind tag of a value is none of the fifteen known ones. -/
def UnknownKind (tag : Val) : Prop := ∀ k : Kind, tag ≠ .str k.tag

/-- A graph in which the unit `A` imports `B` and the loader fails for `B`. -/
def brokenLoader : Resolver Val String Unit := fun uei world =>
  match uei with
  | .str "A" => (.ok (importt (.str "B")), world)
  | _ => (.error "unit not found", world)

/-- Every walk function avoids the error `bad` on the node. -/
def WalksAvoid {σ : Type} (walker : Walker σ) (bad : JSError) (node : Val) : Prop :=
  (∀ k : Kind, (k.walk walker node).Avoids bad) ∧
  (walkIdentifier walker node).Avoids bad ∧
  (walkModule walker node).Avoids bad ∧
  (walkEntry walker node).Avoids bad ∧
  (walkType walker node).Avoids bad ∧
  (walkExpression walker node).Avoids bad

/-! ## Notions used in the statements on the printer -/

/-- The print function `prettyPrint` dispatches to for each kind. -/
def Kind.print : Kind → Val → Nat → Except JSError Val
  | .simpleIdentifier => fun node _ => ppSimpleIdentifier node
  | .qualifiedIdentifier => ppQualifiedIdentifier
  | .importt => ppImport
  | .moduleLiteral => ppModuleLiteral
  | .moduleBinding => ppModuleBinding
  | .typeBinding => ppTypeBinding
  | .adt => ppADT
  | .summand => ppSummand
  | .fnType => ppFnType
  | .expressionBinding => ppExpressionBinding
  | .projection => ppProjection
  | .casee => ppCase
  | .branch => ppBranch
  | .fnLiteral => ppFnLiteral
  | .application => ppApplication

/-- The results of a callback on the elements of a list, in order, up to the
first error. -/
def mapAll (g : Val → Except JSError Val) : List Val → Except JSError (List Val)
  | [] => .ok []
  | x :: xs =>
    match g x with
    | .error e => .error e
    | .ok y =>
      match mapAll g xs with
      | .error e => .error e
      | .ok ys => .ok (y :: ys)

/-- A string of `amount` spaces. -/
def spaces (amount : Nat) : String := String.mk (List.replicate amount (Char.ofNat 32))

/-- Number of line ends in a text. -/
def lineCount (text : String) : Nat := (text.data.filter (fun c => c.toNat = 10)).length

/-- The texts of a list joined by a separator. -/
def joinTexts (sep : String) : List String → String
  | [] => ""
  | [t] => t
  | t :: u :: rest => t ++ sep ++ joinTexts sep (u :: rest)

/-- The layout of a block, following the description of the printed form of a
module literal or a case at the given indentation: an opening line; for each
element a line of `indentation + 2` spaces, the rendering and the terminator, with
one empty line between two elements; and a closing line of `indentation` spaces
and the closing brace. -/
def blockText (indentation : Nat) (terminator : String) (texts : List String) : String :=
  "\x7b\n" ++
    joinTexts "\n"
      (texts.map fun text => spaces (indentation + 2) ++ text ++ terminator ++ "\n") ++
    spaces indentation ++ "\x7d\n"

/-! ## The fragment with a stable printed form -/

/-- A non-empty word of letters and digits. -/
def isWord (s : String) : Bool := !s.data.isEmpty && s.data.all Char.isAlphanum

/-- The identifiers of the fragment: simple and qualified identifiers whose names
are words. -/
inductive WordIdentifier : Val → Prop where
  | simple (name : String) :
      isWord name = true → WordIdentifier (simpleIdentifier (.str name))
  | qualified (outer : Val) (inner : String) :
      WordIdentifier outer → isWord inner = true →
      WordIdentifier (qualifiedIdentifier outer (.str inner))

/-- The expressions of the fragment: its identifiers, and the applications of an
expression of the fragment to expressions of the fragment. -/
inductive WordExpression : Val → Prop where
  | identifier (node : Val) : WordIdentifier node → WordExpression node
  | applied (fn : Val) (args : List Val) :
      WordExpression fn → (∀ arg ∈ args, WordExpression arg) →
      WordExpression (application fn (.arr args))

/-- The entries of the fragment: module bindings and type bindings whose
visibility is a boolean, whose name is a word, and which bind an identifier of
the fragment. -/
inductive WordEntry : Val → Prop where
  | ofModule (isPublic : Bool) (name : String) (module : Val) :
      isWord name = true → WordIdentifier module →
      WordEntry (moduleBinding (.bool isPublic) (.str name) module)
  | ofType (isPublic : Bool) (name : String) (type : Val) :
      isWord name = true → WordIdentifier type →
      WordEntry (typeBinding (.bool isPublic) (.str name) type)

/-- The trees of the fragment: its expressions, and the module literals all of
whose entries are entries of the fragment. -/
inductive StableTree : Val → Prop where
  | expression (node : Val) : WordExpression node → StableTree node
  | literal (entries : List Val) :
      (∀ entry ∈ entries, WordEntry entry) → StableTree (moduleLiteral (.arr entries))

/-- Trees built of word identifiers by qualification and application, whatever
the tree that is qualified: the trees whose text is a word followed by members
and argument lists. -/
inductive Spine : Val → Prop where
  | simple (name : String) :
      isWord name = true → Spine (simpleIdentifier (.str name))
  | qualified (outer : Val) (inner : String) :
      Spine outer → isWord inner = true → Spine (qualifiedIdentifier outer (.str inner))
  | applied (fn : Val) (args : List Val) :
      Spine fn → (∀ arg ∈ args, Spine arg) → Spine (application fn (.arr args))

/-- Each text after a separator. -/
def tailTexts (sep : List Char) : List (List Char) → List Char
  | [] => []
  | t :: rest => sep ++ t ++ tailTexts sep rest

/-- The first text, then each further text after a separator. -/
def headTexts (sep : List Char) : List (List Char) → List Char
  | [] => []
  | t :: rest => t ++ tailTexts sep rest

/-- What may stand before an expression inside the text of an expression, read
backwards from the expression: nothing, an opening parenthesis, or a space. -/
def Stop (l : List Char) : Prop := ∀ c, l.head? = some c → c = '(' ∨ c = ' '

/-- The text of an expression read backwards starts with a letter, a digit or a
closing parenthesis. -/
def RightEnd (r : List Char) : Prop :=
  ∃ c rest, r = c :: rest ∧ (c.isAlphanum = true ∨ c = ')')

/-- The tree `a`, printed at indentation `i`, is determined by its text among the
trees printed at indentation `j`, also when it is read backwards from the end of
a longer text. -/
def ReadsBack (i j : Nat) (a : Val) : Prop :=
  ∀ w, Spine w → ∀ (t u : String) (l k : List Char),
    prettyPrint a i = .ok (.str t) → prettyPrint w j = .ok (.str u) →
    Stop l → Stop k → t.data.reverse ++ l = u.data.reverse ++ k → a = w ∧ l = k

/-- The words that open the text of a binding: the visibility, and the keyword
`type` or `module`. -/
def bindingHead (isPublic isType : Bool) : String :=
  (if isPublic then "public " else "") ++ (if isType then "type " else "module ")

/-- The characters of a block after its first line: each further line after an
empty line, then the closing line. -/
def restLines (margin closing : List Char) : List String → List Char
  | [] => closing
  | text :: rest =>
    '\n' :: (margin ++ (text.data ++ ';' :: '\n' :: restLines margin closing rest))

/-! ## The nodes of a tree and the nodes that a walk reaches -/

/-- `Contains tree node`: the node is the tree itself, or lies in the child held
by one of the fields of the kind of the tree that hold a node, or in an element
of one of its fields that hold a sequence of nodes. -/
inductive Contains : Val → Val → Prop where
  | root (tree : Val) : Contains tree tree
  | inChild {tree child node : Val} (kind : Kind) {field : String} :
      tree.get "node" = .ok (.str kind.tag) → field ∈ kind.nodeFields →
      tree.get field = .ok child → Contains child node → Contains tree node
  | inItem {tree item node : Val} (kind : Kind) {field : String} {items : List Val} :
      tree.get "node" = .ok (.str kind.tag) → field ∈ kind.sequenceFields →
      tree.get field = .ok (.arr items) → item ∈ items → Contains item node →
      Contains tree node

/-- The variants that the walk of a grammar dispatches to: `walkIdentifier`,
`walkModule`, `walkEntry`, `walkType` and `walkExpression` test the tag of the
node; `walkSummand` and `walkBranch` are walk functions themselves. -/
def Grammar.variants : Grammar → List Kind
  | .identifier => [.simpleIdentifier, .qualifiedIdentifier, .importt]
  | .module => [.moduleLiteral, .simpleIdentifier, .qualifiedIdentifier, .importt]
  | .entry => [.moduleBinding, .typeBinding, .expressionBinding]
  | .type => [.simpleIdentifier, .qualifiedIdentifier, .importt, .adt, .fnType]
  | .expression =>
    [.simpleIdentifier, .qualifiedIdentifier, .importt, .projection, .casee, .fnLiteral,
      .application]
  | .summand => [.summand]
  | .branch => [.branch]

/-- The walk of the grammar, called on the node, runs the walk function of the
kind: `walkSummand` and `walkBranch` are called on the elements of an ADT and of
a case whatever their tag; the other grammar walks run the walk function of the
variant whose tag the node carries. -/
def Grammar.Runs (g : Grammar) (node : Val) (k : Kind) : Prop :=
  match g with
  | .summand => k = .summand
  | .branch => k = .branch
  | g => k ∈ g.variants ∧ node.get "node" = .ok (.str k.tag)

/-- The grammar walk that the walk function of each kind calls on the child held
by a field. `walkQualifiedIdentifier` calls `walkIdentifier(node.outer)` without
the walker, a call that throws before a walk function is run on a node. -/
def Kind.childWalks : Kind → List (String × Grammar)
  | .moduleBinding => [("module", .module)]
  | .typeBinding => [("type", .type)]
  | .fnType => [("out", .type)]
  | .expressionBinding => [("expression", .expression)]
  | .projection => [("expression", .expression)]
  | .branch => [("body", .expression)]
  | .fnLiteral => [("body", .expression)]
  | .application => [("fn", .expression)]
  | _ => []

/-- The walk that the walk function of each kind calls on every element of the
sequence held by a field. -/
def Kind.itemWalks : Kind → List (String × Grammar)
  | .moduleLiteral => [("entries", .entry)]
  | .adt => [("summands", .summand)]
  | .summand => [("products", .type)]
  | .fnType => [("args", .type)]
  | .casee => [("branches", .branch)]
  | .application => [("args", .expression)]
  | _ => []

/-- `Reaches k tree l node`: the walk function of kind `k`, run on `tree` to
completion, runs the walk function of kind `l` on `node`: on the tree itself,
or by a chain of the calls that the walk functions make on their children. -/
inductive Reaches : Kind → Val → Kind → Val → Prop where
  | root (k : Kind) (tree : Val) : Reaches k tree k tree
  | viaChild {k kc l : Kind} {tree child node : Val} {field : String} {g : Grammar} :
      (field, g) ∈ k.childWalks → tree.get field = .ok child → g.Runs child kc →
      Reaches kc child l node → Reaches k tree l node
  | viaItem {k kc l : Kind} {tree item node : Val} {field : String} {g : Grammar}
      {items : List Val} :
      (field, g) ∈ k.itemWalks → tree.get field = .ok (.arr items) → item ∈ items →
      g.Runs item kc → Reaches kc item l node → Reaches k tree l node

/-! ## Loaders used as test inputs -/

/-- A loader that fails on its first invocation and succeeds with the unit `x` on
every later one; its world counts its invocations. -/
def flakyLoader : Resolver String String Nat := fun _ count =>
  if count = 0 then (.error "offline", count + 1)
  else (.ok (simpleIdentifier (.str "x")), count + 1)

/-- A loader whose first result is the empty string and whose later results are
the string `second`; its world counts its invocations. -/
def fickleLoader : Resolver String String Nat := fun _ count =>
  (.ok (if count = 0 then .str "" else .str "second"), count + 1)

/-! ## Import graphs used as test inputs -/

/-- The units of the cyclic graph: `A` imports `B` and `B` imports `A`. Each unit
is a tree that consists of one import. -/
def cycleLoader : Resolver Val String Unit := fun uei world =>
  match uei with
  | .str "A" => (.ok (importt (.str "B")), world)
  | .str "B" => (.ok (importt (.str "A")), world)
  | _ => (.error "unknown unit", world)

/-- The root unit of the diamond graph: `A` imports `B` and `C`. -/
def diamondRoot : Val :=
  moduleLiteral (.arr [moduleBinding (.bool false) (.str "b") (importt (.str "B")),
    moduleBinding (.bool false) (.str "c") (importt (.str "C"))])

/-- The units of the diamond graph: `A` imports `B` and `C`, which both import `D`. -/
def diamondLoader : Resolver Val String Unit := fun uei world =>
  match uei with
  | .str "A" => (.ok diamondRoot, world)
  | .str "B" => (.ok (importt (.str "D")), world)
  | .str "C" => (.ok (importt (.str "D")), world)
  | .str "D" => (.ok (simpleIdentifier (.str "d")), world)
  | _ => (.error "unknown unit", world)

/-! ## Basic facts about statements -/

@[simp] theorem Step.run_skip {σ : Type} (s : σ) : (Step.skip : Step σ).run s = (s, none) := rfl

@[simp] theorem Step.run_throw {σ : Type} (e : JSError) (s : σ) :
    (Step.throw e : Step σ).run s = (s, some e) := rfl

theorem Step.run_seq {σ : Type} (a b : Step σ) (s : σ) :
    (a.seq b).run s =
      match a.run s with
      | (s1, none) => b.run s1
      | (s1, some e) => (s1, some e) := rfl

theorem Step.run_seq_of_ok {σ : Type} {a : Step σ} (b : Step σ) {s s1 : σ}
    (h : a.run s = (s1, none)) : (a.seq b).run s = b.run s1 := by
  simp [Step.run_seq, h]

theorem Step.run_seq_of_error {σ : Type} {a : Step σ} (b : Step σ) {s s1 : σ} {e : JSError}
    (h : a.run s = (s1, some e)) : (a.seq b).run s = (s1, some e) := by
  simp [Step.run_seq, h]

theorem Step.fails_throw {σ : Type} (e : JSError) (s : σ) : (Step.throw e : Step σ).Fails s := by
  simp [Step.Fails]

theorem Step.fails_seq_left {σ : Type} {a : Step σ} (b : Step σ) {s : σ}
    (h : a.Fails s) : (a.seq b).Fails s := by
  unfold Step.Fails at *
  rw [Step.run_seq]
  rcases hr : a.run s with ⟨s1, _ | e⟩
  · simp [hr] at h
  · simp

theorem Step.fails_seq_right {σ : Type} (a : Step σ) {b : Step σ} (s : σ)
    (h : ∀ t, b.Fails t) : (a.seq b).Fails s := by
  unfold Step.Fails
  rw [Step.run_seq]
  rcases hr : a.run s with ⟨s1, _ | e⟩
  · exact h s1
  · simp

/-- The statement `a; b; rest` fails whenever `b` fails from every state. -/
theorem Step.fails_seq_middle {σ : Type} (a : Step σ) {b : Step σ} (rest : Step σ) (s : σ)
    (h : ∀ t, b.Fails t) : (a.seq (b.seq rest)).Fails s :=
  Step.fails_seq_right a s (fun t => Step.fails_seq_left rest (h t))

/-! ## Facts about the walk functions -/

theorem walkIdentifier_fails {σ : Type} (w : Walker σ) (n : Val) (s : σ) :
    (walkIdentifier w n).Fails s := by
  rw [walkIdentifier]
  exact Step.fails_seq_right _ s (fun t => Step.fails_seq_right _ t
    (fun t => Step.fails_seq_right _ t (fun t => Step.fails_throw _ t)))

theorem walkModule_fails {σ : Type} (w : Walker σ) (n : Val) (s : σ) :
    (walkModule w n).Fails s := by
  rw [walkModule]
  exact Step.fails_seq_right _ s (fun t => Step.fails_seq_right _ t
    (fun t => Step.fails_throw _ t))

theorem walkEntry_fails {σ : Type} (w : Walker σ) (n : Val) (s : σ) :
    (walkEntry w n).Fails s := by
  rw [walkEntry]
  exact Step.fails_seq_right _ s (fun t => Step.fails_seq_right _ t
    (fun t => Step.fails_seq_right _ t (fun t => Step.fails_throw _ t)))

theorem walkType_fails {σ : Type} (w : Walker σ) (n : Val) (s : σ) :
    (walkType w n).Fails s := by
  rw [walkType]
  exact Step.fails_seq_right _ s (fun t => Step.fails_seq_right _ t
    (fun t => Step.fails_seq_right _ t (fun t => Step.fails_throw _ t)))

theorem walkExpression_fails {σ : Type} (w : Walker σ) (n : Val) (s : σ) :
    (walkExpression w n).Fails s := by
  rw [walkExpression]
  exact Step.fails_seq_right _ s (fun t => Step.fails_seq_right _ t
    (fun t => Step.fails_seq_right _ t (fun t => Step.fails_seq_right _ t
    (fun t => Step.fails_seq_right _ t (fun t => Step.fails_throw _ t)))))

theorem walkQualifiedIdentifier_fails {σ : Type} (w : Walker σ) (n : Val) (s : σ) :
    (walkQualifiedIdentifier w n).Fails s := by
  rw [walkQualifiedIdentifier]
  apply Step.fails_seq_middle
  intro t
  split
  · exact Step.fails_throw _ t
  · exact walkIdentifier_fails _ _ t

theorem walkModuleBinding_fails {σ : Type} (w : Walker σ) (n : Val) (s : σ) :
    (walkModuleBinding w n).Fails s := by
  rw [walkModuleBinding]
  apply Step.fails_seq_middle
  intro t
  split
  · exact Step.fails_throw _ t
  · exact walkModule_fails _ _ t

theorem walkTypeBinding_fails {σ : Type} (w : Walker σ) (n : Val) (s : σ) :
    (walkTypeBinding w n).Fails s := by
  rw [walkTypeBinding]
  apply Step.fails_seq_middle
  intro t
  split
  · exact Step.fails_throw _ t
  · exact walkType_fails _ _ t

theorem hasKind_of_tag {node : Val} {t : String} (h : node.get "node" = .ok (.str t))
    (kind : String) : hasKind node kind = .ok (t == kind) := by
  simp [hasKind, h, Val.isStr]

theorem walkNode_of_tag {σ : Type} (w : Walker σ) {node : Val} (k : Kind)
    (h : node.get "node" = .ok (.str k.tag)) : walkNode w node = k.walk w node := by
  cases k <;>
    simp [walkNode, isSimpleIdentifier, isQualifiedIdentifier, isImport, isModuleLiteral,
      isModuleBinding, isTypeBinding, isADT, isSummand, isFnType, isExpressionBinding,
      isProjection, isCase, isBranch, isFnLiteral, isApplication, hasKind_of_tag h,
      Kind.tag, Step.ifReturn, Step.bindE, Kind.walk]

theorem isNode_of_tag {node : Val} (k : Kind)
    (h : node.get "node" = .ok (.str k.tag)) : isNode node = .ok true := by
  cases k <;> simp [isNode, hasKind_of_tag h, Kind.tag, orE]

theorem walkFnType_fails {σ : Type} (w : Walker σ) (n : Val) (s : σ) :
    (walkFnType w n).Fails s := by
  rw [walkFnType]
  apply Step.fails_seq_right
  intro t
  apply Step.fails_seq_middle
  intro t
  split
  · exact Step.fails_throw _ t
  · exact walkType_fails _ _ t

theorem walkExpressionBinding_fails {σ : Type} (w : Walker σ) (n : Val) (s : σ) :
    (walkExpressionBinding w n).Fails s := by
  rw [walkExpressionBinding]
  apply Step.fails_seq_middle
  intro t
  split
  · exact Step.fails_throw _ t
  · exact walkExpression_fails _ _ t

theorem walkProjection_fails {σ : Type} (w : Walker σ) (n : Val) (s : σ) :
    (walkProjection w n).Fails s := by
  rw [walkProjection]
  apply Step.fails_seq_middle
  intro t
  split
  · exact Step.fails_throw _ t
  · exact walkExpression_fails _ _ t

theorem walkBranch_fails {σ : Type} (w : Walker σ) (n : Val) (s : σ) :
    (walkBranch w n).Fails s := by
  rw [walkBranch]
  apply Step.fails_seq_middle
  intro t
  split
  · exact Step.fails_throw _ t
  · exact walkExpression_fails _ _ t

theorem walkFnLiteral_fails {σ : Type} (w : Walker σ) (n : Val) (s : σ) :
    (walkFnLiteral w n).Fails s := by
  rw [walkFnLiteral]
  apply Step.fails_seq_middle
  intro t
  split
  · exact Step.fails_throw _ t
  · exact walkExpression_fails _ _ t

theorem walkApplication_fails {σ : Type} (w : Walker σ) (n : Val) (s : σ) :
    (walkApplication w n).Fails s := by
  rw [walkApplication]
  apply Step.fails_seq_middle
  intro t
  split
  · exact Step.fails_throw _ t
  · exact walkExpression_fails _ _ t

/-- The walk of a node of one of these nine kinds raises an error whatever the
walker and the fields of the node. -/
theorem Kind.walk_fails {σ : Type} (k : Kind) (hk : k.alwaysFails = true)
    (w : Walker σ) (n : Val) (s : σ) : (k.walk w n).Fails s := by
  cases k <;> simp [Kind.alwaysFails] at hk
  · exact walkQualifiedIdentifier_fails w n s
  · exact walkModuleBinding_fails w n s
  · exact walkTypeBinding_fails w n s
  · exact walkFnType_fails w n s
  · exact walkExpressionBinding_fails w n s
  · exact walkProjection_fails w n s
  · exact walkBranch_fails w n s
  · exact walkFnLiteral_fails w n s
  · exact walkApplication_fails w n s

theorem Kind.walk_fails_of_pre {σ : Type} (k : Kind) (w : Walker σ) (n : Val) (s : σ)
    (h : (walkPre k.tag w n).Fails s) : (k.walk w n).Fails s := by
  cases k <;> simp only [Kind.walk, Kind.tag] at h ⊢
  · unfold walkSimpleIdentifier; exact Step.fails_seq_left _ h
  · rw [walkQualifiedIdentifier]; exact Step.fails_seq_left _ h
  · unfold walkImport; exact Step.fails_seq_left _ h
  · rw [walkModuleLiteral]; exact Step.fails_seq_left _ h
  · rw [walkModuleBinding]; exact Step.fails_seq_left _ h
  · rw [walkTypeBinding]; exact Step.fails_seq_left _ h
  · rw [walkADT]; exact Step.fails_seq_left _ h
  · rw [walkSummand]; exact Step.fails_seq_left _ h
  · rw [walkFnType]; exact Step.fails_seq_left _ h
  · rw [walkExpressionBinding]; exact Step.fails_seq_left _ h
  · rw [walkProjection]; exact Step.fails_seq_left _ h
  · rw [walkCase]; exact Step.fails_seq_left _ h
  · rw [walkBranch]; exact Step.fails_seq_left _ h
  · rw [walkFnLiteral]; exact Step.fails_seq_left _ h
  · rw [walkApplication]; exact Step.fails_seq_left _ h

theorem walkPre_validatorWalker (k : Kind) (n : Val) :
    walkPre k.tag validatorWalker n = Step.bindE (k.shapeCheck n) throwOnFalse := by
  cases k <;> simp [walkPre, validatorWalker, Kind.tag, Kind.shapeCheck]

theorem walkPost_validatorWalker (k : Kind) (n : Val) :
    walkPost k.tag validatorWalker n = Step.skip := by
  cases k <;> simp [walkPost, validatorWalker, Kind.tag]

theorem validateNode_of_tag {node : Val} (k : Kind)
    (h : node.get "node" = .ok (.str k.tag)) :
    validateNode node =
      .ok (((k.walk validatorWalker node).run ()).2 == none) := by
  unfold validateNode
  rw [isNode_of_tag k h, walkNode_of_tag _ k h]
  rcases (k.walk validatorWalker node).run () with ⟨u, _ | e⟩ <;> simp

theorem validateNode_eq_false_of_fails {node : Val} (k : Kind)
    (h : node.get "node" = .ok (.str k.tag))
    (hf : (k.walk validatorWalker node).Fails ()) : validateNode node = .ok false := by
  rw [validateNode_of_tag k h]
  unfold Step.Fails at hf
  rcases hr : (k.walk validatorWalker node).run () with ⟨u, _ | e⟩
  · simp [hr] at hf
  · simp

/-! ## Facts about `forEach` -/

theorem forEachItems_eq_seqAll {σ : Type} (items : List Val) (g : Val → Step σ) :
    forEachItems items (fun x _ => g x) = Step.seqAll (items.map g) := by
  induction items with
  | nil => rfl
  | cons x xs ih => simp only [forEachItems, List.map, Step.seqAll, ih]

theorem Val.forEach_arr {σ : Type} (items : List Val) (g : Val → Step σ) :
    (Val.arr items).forEach (fun x _ => g x) = Step.seqAll (items.map g) := by
  simp only [Val.forEach]
  exact forEachItems_eq_seqAll items g

theorem Step.seqAll_fails {σ : Type} (steps : List (Step σ)) (i : Nat) (hi : i < steps.length)
    (h : ∀ t, (steps.get ⟨i, hi⟩).Fails t) (s : σ) : (Step.seqAll steps).Fails s := by
  induction steps generalizing i s with
  | nil => simp at hi
  | cons a rest ih =>
    cases i with
    | zero => exact Step.fails_seq_left _ (h s)
    | succ j =>
      apply Step.fails_seq_right
      intro t
      exact ih j (by simpa using hi) (by simpa using h) t

/-- A `forEach` loop raises an error when its callback does so on one element,
whatever happened on the elements before. -/
theorem Val.forEach_fails {σ : Type} (items : List Val) (g : Val → Step σ) (i : Nat)
    (hi : i < items.length) (h : ∀ t, (g (items.get ⟨i, hi⟩)).Fails t) (s : σ) :
    ((Val.arr items).forEach (fun x _ => g x)).Fails s := by
  rw [Val.forEach_arr]
  apply Step.seqAll_fails (items.map g) i (by simpa using hi)
  simpa using h

/-! ## Facts about reading and replacing properties -/

theorem Val.obj_of_get_str {node : Val} {key t : String} (h : node.get key = .ok (.str t)) :
    ∃ fields, node = .obj fields := by
  cases node <;> simp [Val.get] at h
  exact ⟨_, rfl⟩

theorem Val.lookup_setField_self (fields : List (String × Val)) (key : String) (v : Val) :
    (Val.setField fields key v).lookup key = some v := by
  induction fields with
  | nil => simp [Val.setField, List.lookup]
  | cons p rest ih =>
    obtain ⟨k, x⟩ := p
    by_cases hk : key = k
    · subst hk; simp [Val.setField, List.lookup]
    · have hb : (key == k) = false := by simpa using hk
      simp [Val.setField, List.lookup, hb, ih]

theorem Val.lookup_setField_ne (fields : List (String × Val)) {key other : String} (v : Val)
    (hne : other ≠ key) : (Val.setField fields key v).lookup other = fields.lookup other := by
  induction fields with
  | nil =>
    have hb : (other == key) = false := by simpa using hne
    simp [Val.setField, List.lookup, hb]
  | cons p rest ih =>
    obtain ⟨k, x⟩ := p
    by_cases hk : key = k
    · subst hk
      have hb : (other == key) = false := by simpa using hne
      simp [Val.setField, List.lookup, hb]
    · have hb : (key == k) = false := by simpa using hk
      by_cases ho : other = k
      · subst ho; simp [Val.setField, List.lookup, hb]
      · have hc : (other == k) = false := by simpa using ho
        simp [Val.setField, List.lookup, hb, hc, ih]

theorem Val.get_set_self (fields : List (String × Val)) (key : String) (v : Val) :
    ((Val.obj fields).set key v).get key = .ok v := by
  simp [Val.set, Val.get, Val.lookup_setField_self]

theorem Val.get_set_ne (fields : List (String × Val)) {key other : String} (v : Val)
    (hne : other ≠ key) : ((Val.obj fields).set key v).get other = (Val.obj fields).get other := by
  simp [Val.set, Val.get, Val.lookup_setField_ne fields v hne]

/-! ## The validator on a mutated node -/

theorem Kind.checkedField_ne_node (k : Kind) {field : String} {fk : FieldKind}
    (h : (field, fk) ∈ k.checkedFields) : "node" ≠ field := by
  cases k <;> simp [Kind.checkedFields] at h <;> rcases h with h | h <;>
    (try (obtain ⟨h1, _⟩ := h)) <;> subst_vars <;> decide

theorem typeofIs_of_get {node v : Val} {key : String} (h : node.get key = .ok v)
    (ty : String) : typeofIs node key ty = .ok (v.typeof == ty) := by
  simp [typeofIs, h]

theorem fieldIsArray_of_get {node v : Val} {key : String} (h : node.get key = .ok v) :
    fieldIsArray node key = .ok v.isArray := by
  simp [fieldIsArray, h]

theorem FieldKind.wrong_text {v : Val} (h : FieldKind.text.wrong v = true) :
    (v.typeof == "string") = false := by
  simpa [FieldKind.wrong] using h

theorem FieldKind.wrong_boolean {v : Val} (h : FieldKind.boolean.wrong v = true) :
    (v.typeof == "boolean") = false := by
  simpa [FieldKind.wrong] using h

theorem FieldKind.wrong_number {v : Val} (h : FieldKind.number.wrong v = true) :
    (v.typeof == "number") = false := by
  simpa [FieldKind.wrong] using h

theorem FieldKind.wrong_sequence {v : Val} (h : FieldKind.sequence.wrong v = true) :
    v.isArray = false := by
  simpa [FieldKind.wrong] using h

@[simp] theorem andE_ok_true (b : Except JSError Bool) : andE (.ok true) b = b := rfl

@[simp] theorem andE_ok_false (b : Except JSError Bool) : andE (.ok false) b = .ok false := rfl

theorem Kind.shapeCheck_of_wrong (k : Kind) (node : Val)
    {field : String} {fk : FieldKind} {wrong : Val}
    (hn : node.get "node" = .ok (.str k.tag))
    (hget : ∀ key, ∃ v, node.get key = .ok v)
    (hf : node.get field = .ok wrong)
    (hmem : (field, fk) ∈ k.checkedFields) (hw : fk.wrong wrong = true) :
    k.shapeCheck node = .ok false := by
  obtain ⟨vp, hp⟩ := hget "isPublic"
  obtain ⟨vn, hnm⟩ := hget "name"
  obtain ⟨vt, ht⟩ := hget "tag"
  obtain ⟨vs, hs⟩ := hget "products"
  obtain ⟨vb, hb⟩ := hget "boundNames"
  cases k <;> simp only [Kind.checkedFields, List.mem_cons, List.mem_singleton, Prod.mk.injEq,
      List.not_mem_nil, or_false] at hmem
  case moduleBinding | typeBinding | expressionBinding =>
    rcases hmem with ⟨rfl, rfl⟩ | ⟨rfl, rfl⟩
    · rw [hp] at hf; cases hf
      simp [Kind.shapeCheck, isModuleBinding, isTypeBinding, isExpressionBinding,
        hasKind_of_tag hn, typeofIs_of_get hp, typeofIs_of_get hnm, Kind.tag,
        FieldKind.wrong_boolean hw]
    · rw [hnm] at hf; cases hf
      simp only [Kind.shapeCheck, isModuleBinding, isTypeBinding, isExpressionBinding,
        hasKind_of_tag hn, typeofIs_of_get hp, typeofIs_of_get hnm, Kind.tag,
        FieldKind.wrong_text hw, beq_self_eq_true, andE_ok_true]
      cases (vp.typeof == "boolean") <;> rfl
  case summand =>
    rcases hmem with ⟨rfl, rfl⟩ | ⟨rfl, rfl⟩
    · rw [ht] at hf; cases hf
      simp [Kind.shapeCheck, isSummand, hasKind_of_tag hn, typeofIs_of_get ht,
        fieldIsArray_of_get hs, Kind.tag, FieldKind.wrong_text hw]
    · rw [hs] at hf; cases hf
      simp only [Kind.shapeCheck, isSummand, hasKind_of_tag hn, typeofIs_of_get ht,
        fieldIsArray_of_get hs, Kind.tag, FieldKind.wrong_sequence hw, beq_self_eq_true,
        andE_ok_true]
      cases (vt.typeof == "string") <;> rfl
  case branch =>
    rcases hmem with ⟨rfl, rfl⟩ | ⟨rfl, rfl⟩
    · rw [ht] at hf; cases hf
      simp [Kind.shapeCheck, isBranch, hasKind_of_tag hn, typeofIs_of_get ht,
        fieldIsArray_of_get hb, Kind.tag, FieldKind.wrong_text hw]
    · rw [hb] at hf; cases hf
      simp only [Kind.shapeCheck, isBranch, hasKind_of_tag hn, typeofIs_of_get ht,
        fieldIsArray_of_get hb, Kind.tag, FieldKind.wrong_sequence hw, beq_self_eq_true,
        andE_ok_true]
      cases (vt.typeof == "string") <;> rfl
  case simpleIdentifier | qualifiedIdentifier =>
    obtain ⟨rfl, rfl⟩ := hmem
    simp [Kind.shapeCheck, isSimpleIdentifier, isQualifiedIdentifier, hasKind_of_tag hn,
      typeofIs_of_get hf, Kind.tag, FieldKind.wrong_text hw]
  case projection =>
    obtain ⟨rfl, rfl⟩ := hmem
    simp [Kind.shapeCheck, isProjection, hasKind_of_tag hn,
      typeofIs_of_get hf, Kind.tag, FieldKind.wrong_number hw]
  all_goals
    obtain ⟨rfl, rfl⟩ := hmem
    simp [Kind.shapeCheck, isModuleLiteral, isADT,
      isFnType, isCase, isFnLiteral, isApplication, hasKind_of_tag hn,
      fieldIsArray_of_get hf, Kind.tag, FieldKind.wrong_sequence hw]

theorem Kind.shapeCheck_set_wrong (k : Kind) (fields : List (String × Val))
    {field : String} {fk : FieldKind} {wrong : Val}
    (htag : (Val.obj fields).get "node" = .ok (.str k.tag))
    (hmem : (field, fk) ∈ k.checkedFields) (hw : fk.wrong wrong = true) :
    k.shapeCheck ((Val.obj fields).set field wrong) = .ok false := by
  have hn : ((Val.obj fields).set field wrong).get "node" = .ok (.str k.tag) := by
    rw [Val.get_set_ne fields wrong (k.checkedField_ne_node hmem), htag]
  exact k.shapeCheck_of_wrong ((Val.obj fields).set field wrong) hn (fun key => ⟨_, rfl⟩)
    (Val.get_set_self fields field wrong) hmem hw

theorem walkPre_validatorWalker_fails {k : Kind} {node : Val}
    (h : k.shapeCheck node = .ok false) (s : Unit) :
    (walkPre k.tag validatorWalker node).Fails s := by
  rw [walkPre_validatorWalker, h]
  simp [Step.bindE, throwOnFalse, Step.Fails]

/-! ## Walks over a sequence with a failing element -/

theorem walkModuleLiteral_fails_of_item {σ : Type} (w : Walker σ) {node : Val}
    {items : List Val} (hget : node.get "entries" = .ok (.arr items))
    (hpos : 0 < items.length) (s : σ) : (walkModuleLiteral w node).Fails s := by
  rw [walkModuleLiteral]
  apply Step.fails_seq_middle
  intro t
  split
  · rename_i e heq; rw [hget] at heq; cases heq
  · rename_i entries heq
    rw [hget] at heq; cases heq
    exact Val.forEach_fails items (walkEntry w) 0 hpos (fun u => walkEntry_fails w _ u) t

theorem walkSummand_fails_of_item {σ : Type} (w : Walker σ) {node : Val}
    {items : List Val} (hget : node.get "products" = .ok (.arr items))
    (hpos : 0 < items.length) (s : σ) : (walkSummand w node).Fails s := by
  rw [walkSummand]
  apply Step.fails_seq_middle
  intro t
  split
  · rename_i e heq; rw [hget] at heq; cases heq
  · rename_i products heq
    rw [hget] at heq; cases heq
    exact Val.forEach_fails items (walkType w) 0 hpos (fun u => walkType_fails w _ u) t

theorem walkCase_fails_of_item {σ : Type} (w : Walker σ) {node : Val}
    {items : List Val} (hget : node.get "branches" = .ok (.arr items))
    (hpos : 0 < items.length) (s : σ) : (walkCase w node).Fails s := by
  rw [walkCase]
  apply Step.fails_seq_middle
  intro t
  split
  · rename_i e heq; rw [hget] at heq; cases heq
  · rename_i branches heq
    rw [hget] at heq; cases heq
    exact Val.forEach_fails items (walkBranch w) 0 hpos (fun u => walkBranch_fails w _ u) t

theorem walkADT_fails_of_item {σ : Type} (w : Walker σ) {node : Val}
    {items : List Val} (hget : node.get "summands" = .ok (.arr items))
    (i : Nat) (hi : i < items.length)
    (hfail : ∀ t, (walkSummand w (items.get ⟨i, hi⟩)).Fails t) (s : σ) :
    (walkADT w node).Fails s := by
  rw [walkADT]
  apply Step.fails_seq_middle
  intro t
  split
  · rename_i e heq; rw [hget] at heq; cases heq
  · rename_i summands heq
    rw [hget] at heq; cases heq
    exact Val.forEach_fails items (walkSummand w) i hi hfail t

/-! ## The validator rejects every mutated tree -/

theorem Kind.nodeField_ne_node (k : Kind) {field : String} (h : field ∈ k.nodeFields) :
    "node" ≠ field := by
  cases k <;> simp [Kind.nodeFields] at h <;> subst h <;> decide

theorem Kind.sequenceField_ne_node (k : Kind) {field : String}
    (h : field ∈ k.sequenceFields) : "node" ≠ field := by
  cases k <;> simp [Kind.sequenceFields] at h <;> subst h <;> decide

theorem Kind.alwaysFails_of_nodeField (k : Kind) {field : String}
    (h : field ∈ k.nodeFields) : k.alwaysFails = true := by
  cases k <;> simp [Kind.nodeFields] at h <;> rfl

theorem Kind.tag_injective {k l : Kind} (h : k.tag = l.tag) : k = l := by
  cases k <;> cases l <;> first | rfl | (exact absurd h (by decide))

/-- The `pre` callback of the validator for `summand` throws on a node of any other kind. -/
theorem walkPre_summand_fails_of_tag {node : Val} {k : Kind}
    (hn : node.get "node" = .ok (.str k.tag)) (hk : k ≠ .summand) (s : Unit) :
    (walkPre "summand" validatorWalker node).Fails s := by
  have h := walkPre_validatorWalker .summand node
  simp only [Kind.tag] at h
  rw [h]
  have : (k.tag == "summand") = false := by
    cases k <;> first | rfl | exact absurd rfl hk
  simp [Kind.shapeCheck, isSummand, hasKind_of_tag hn, this, Step.bindE, throwOnFalse,
    Step.Fails]

theorem Val.get_set_node {node : Val} {t field : String}
    (hn : node.get "node" = .ok (.str t)) (hne : "node" ≠ field) (v : Val) :
    (node.set field v).get "node" = .ok (.str t) := by
  obtain ⟨fields, rfl⟩ := Val.obj_of_get_str hn
  rw [Val.get_set_ne fields v hne, hn]

theorem Val.get_set_same {node : Val} {t field : String}
    (hn : node.get "node" = .ok (.str t)) (v : Val) :
    (node.set field v).get field = .ok v := by
  obtain ⟨fields, rfl⟩ := Val.obj_of_get_str hn
  exact Val.get_set_self fields field v

/-- The walk of a mutated node as a summand raises an error under the validator. -/
theorem walkSummand_fails_of_mutation {node mutant : Val} (h : Mutation node mutant)
    (s : Unit) : (walkSummand validatorWalker mutant).Fails s := by
  cases h with
  | @here _ k field fk wrong hn hmem hw =>
    have hn2 := Val.get_set_node hn (k.checkedField_ne_node hmem) wrong
    by_cases hk : k = .summand
    · subst hk
      obtain ⟨fields, rfl⟩ := Val.obj_of_get_str hn
      exact Kind.walk_fails_of_pre .summand _ _ s
        (walkPre_validatorWalker_fails (Kind.shapeCheck_set_wrong _ fields hn hmem hw) s)
    · exact Kind.walk_fails_of_pre .summand _ _ s (walkPre_summand_fails_of_tag hn2 hk s)
  | @inChild _ k field child m hn hmem hget hm =>
    have hn2 := Val.get_set_node hn (k.nodeField_ne_node hmem) m
    have hk : k ≠ .summand := by
      intro hk; subst hk; simp [Kind.nodeFields] at hmem
    exact Kind.walk_fails_of_pre .summand _ _ s (walkPre_summand_fails_of_tag hn2 hk s)
  | @inItem _ k field items m i hi hn hmem hget hm =>
    have hn2 := Val.get_set_node hn (k.sequenceField_ne_node hmem) (.arr (items.set i m))
    by_cases hk : k = .summand
    · subst hk
      simp [Kind.sequenceFields] at hmem
      subst hmem
      exact walkSummand_fails_of_item _ (Val.get_set_same hn _)
        (by simpa using Nat.lt_of_le_of_lt (Nat.zero_le i) hi) s
    · exact Kind.walk_fails_of_pre .summand _ _ s (walkPre_summand_fails_of_tag hn2 hk s)

/-- The validator returns `false` on every mutated tree. -/
theorem validateNode_of_mutation {tree mutant : Val} (h : Mutation tree mutant) :
    validateNode mutant = .ok false := by
  cases h with
  | @here _ k field fk wrong hn hmem hw =>
    have hn2 := Val.get_set_node hn (k.checkedField_ne_node hmem) wrong
    obtain ⟨fields, rfl⟩ := Val.obj_of_get_str hn
    exact validateNode_eq_false_of_fails k hn2 (Kind.walk_fails_of_pre k _ _ ()
      (walkPre_validatorWalker_fails (Kind.shapeCheck_set_wrong _ fields hn hmem hw) ()))
  | @inChild _ k field child m hn hmem hget hm =>
    have hn2 := Val.get_set_node hn (k.nodeField_ne_node hmem) m
    exact validateNode_eq_false_of_fails k hn2
      (Kind.walk_fails k (k.alwaysFails_of_nodeField hmem) _ _ ())
  | @inItem _ k field items m i hi hn hmem hget hm =>
    have hn2 := Val.get_set_node hn (k.sequenceField_ne_node hmem) (.arr (items.set i m))
    have hf : (tree.set field (.arr (items.set i m))).get field = .ok (.arr (items.set i m)) :=
      Val.get_set_same hn (.arr (items.set i m))
    have hpos : 0 < (items.set i m).length := by
      simpa using Nat.lt_of_le_of_lt (Nat.zero_le i) hi
    apply validateNode_eq_false_of_fails k hn2
    cases k <;> simp [Kind.sequenceFields] at hmem <;> subst hmem
    · exact walkModuleLiteral_fails_of_item _ hf hpos ()
    · refine walkADT_fails_of_item _ hf i (by simpa using hi) ?_ ()
      intro t
      have : (items.set i m).get ⟨i, by simpa using hi⟩ = m := by simp
      rw [this]
      exact walkSummand_fails_of_mutation hm t
    · exact walkSummand_fails_of_item _ hf hpos ()
    · exact walkFnType_fails _ _ ()
    · exact walkCase_fails_of_item _ hf hpos ()
    · exact walkApplication_fails _ _ ()

/-- Called without a node, as `walkQualifiedIdentifier` does, `walkIdentifier` throws
a `TypeError` at its first kind test, before it reads the walker. -/
theorem walkIdentifier_undefined {σ : Type} (w : Walker σ) (s : σ) :
    (walkIdentifier w Val.undefined).run s = (s, some .typeError) := by
  rw [walkIdentifier]
  simp [Step.run_seq, Step.when, Step.bindE, isSimpleIdentifier, hasKind, Val.get]

/-! ## Claims on the validator, the import extractor and the walker -/

/-- C1 (the source departs from the claim): four valid trees with children, a
qualified identifier over a simple identifier, a module literal with one binding,
a function type and an application, on each of which `validateNode` returns
`false`, where the claim has `true`. -/
theorem validateNode_false_on_valid_trees :
    (ValidTree (qualifiedIdentifier (simpleIdentifier (.str "a")) (.str "b")) ∧
      validateNode (qualifiedIdentifier (simpleIdentifier (.str "a")) (.str "b")) = .ok false) ∧
    (ValidTree (moduleLiteral (.arr
        [moduleBinding (.bool true) (.str "m") (simpleIdentifier (.str "x"))])) ∧
      validateNode (moduleLiteral (.arr
        [moduleBinding (.bool true) (.str "m") (simpleIdentifier (.str "x"))])) = .ok false) ∧
    (ValidTree (fnType (.arr []) (simpleIdentifier (.str "t"))) ∧
      validateNode (fnType (.arr []) (simpleIdentifier (.str "t"))) = .ok false) ∧
    (ValidTree (application (simpleIdentifier (.str "f")) (.arr [])) ∧
      validateNode (application (simpleIdentifier (.str "f")) (.arr [])) = .ok false) := by
  refine ⟨⟨⟨.identifier, ?_⟩, ?_⟩, ⟨⟨.module, ?_⟩, ?_⟩, ⟨⟨.type, ?_⟩, ?_⟩,
    ⟨⟨.expression, ?_⟩, ?_⟩⟩
  · exact WellFormed.qualifiedIdentifier "b" (WellFormed.simpleIdentifier "a")
  · exact validateNode_eq_false_of_fails .qualifiedIdentifier rfl
      (walkQualifiedIdentifier_fails _ _ ())
  · refine WellFormed.moduleLiteral ?_
    intro entry hentry
    simp only [List.mem_singleton] at hentry
    subst hentry
    exact WellFormed.moduleBinding true "m"
      (WellFormed.moduleIdentifier (WellFormed.simpleIdentifier "x"))
  · have hget : (moduleLiteral (.arr
        [moduleBinding (.bool true) (.str "m") (simpleIdentifier (.str "x"))])).get "entries" =
        .ok (.arr [moduleBinding (.bool true) (.str "m") (simpleIdentifier (.str "x"))]) := rfl
    exact validateNode_eq_false_of_fails .moduleLiteral rfl
      (walkModuleLiteral_fails_of_item _ hget (by decide) ())
  · refine WellFormed.fnType ?_ (WellFormed.typeIdentifier (WellFormed.simpleIdentifier "t"))
    intro arg harg
    simp at harg
  · exact validateNode_eq_false_of_fails .fnType rfl (walkFnType_fails _ _ ())
  · refine WellFormed.application
      (WellFormed.expressionIdentifier (WellFormed.simpleIdentifier "f")) ?_
    intro arg harg
    simp at harg
  · exact validateNode_eq_false_of_fails .application rfl (walkApplication_fails _ _ ())

/-- C2: for every valid tree and every mutant obtained from it by replacing one
shape-checked field of one of its nodes, at any depth, by a value of the wrong
primitive kind, `validateNode` returns `false` on the mutant. -/
theorem validateNode_rejects_mutant (tree mutant : Val) (hvalid : ValidTree tree)
    (hmut : Mutation tree mutant) : validateNode mutant = .ok false :=
  validateNode_of_mutation hmut

/-- Witness for C2: in the ADT with the one summand `A`, the tag of the summand
is replaced by the number 1. -/
theorem validateNode_rejects_mutant_witness :
    ValidTree (adt (.arr [summand (.str "A") (.arr [])])) ∧
    Mutation (adt (.arr [summand (.str "A") (.arr [])]))
      (adt (.arr [summand (.num 1) (.arr [])])) ∧
    validateNode (adt (.arr [summand (.num 1) (.arr [])])) = .ok false := by
  have hvalid : ValidTree (adt (.arr [summand (.str "A") (.arr [])])) := by
    refine ⟨.type, WellFormed.adt ?_ (by simp)⟩
    intro s hs
    simp only [List.mem_singleton] at hs
    subst hs
    exact WellFormed.summand "A" (by intro p hp; simp at hp)
  have hmut : Mutation (adt (.arr [summand (.str "A") (.arr [])]))
      (adt (.arr [summand (.num 1) (.arr [])])) :=
    @Mutation.inItem (adt (.arr [summand (.str "A") (.arr [])])) .adt "summands"
      [summand (.str "A") (.arr [])] (summand (.num 1) (.arr [])) 0 (by decide) rfl
      (by decide) rfl
      (@Mutation.here (summand (.str "A") (.arr [])) .summand "tag" .text (.num 1)
        rfl (by decide) rfl)
  exact ⟨hvalid, hmut, validateNode_rejects_mutant _ _ hvalid hmut⟩

/-- C3 (the source departs from the claim): on the valid tree that is the simple
identifier `x`, which `validateNode` accepts and which holds no import,
`allImportedUEIs` throws a `TypeError`, where the claim has the empty set. -/
theorem allImportedUEIs_throws_on_simpleIdentifier :
    validateNode (simpleIdentifier (.str "x")) = .ok true ∧
    allImportedUEIs (simpleIdentifier (.str "x")) = .error .typeError := by
  have htag : (simpleIdentifier (.str "x")).get "node" =
      .ok (.str Kind.simpleIdentifier.tag) := rfl
  constructor
  · rw [validateNode_of_tag .simpleIdentifier htag]
    simp [Kind.walk, walkSimpleIdentifier, Step.run_seq, walkPre, walkPost, validatorWalker,
      isSimpleIdentifier, hasKind, typeofIs, simpleIdentifier, Val.get,
      List.lookup, Val.isStr, Val.typeof, Step.bindE, throwOnFalse]
  · unfold allImportedUEIs
    rw [walkNode_of_tag _ .simpleIdentifier htag]
    simp [Kind.walk, walkSimpleIdentifier, Step.run_seq, walkPre, importWalker]

/-- C4 (the source departs from the claim): on the qualified identifier `a::b`,
with a walker that has a `pre` and a `post` callback for every kind, the walk
fires `pre` on the root and then throws a `TypeError`; neither callback is
fired on the child and `post` is never fired on the root. -/
theorem walkNode_recording_qualifiedIdentifier :
    (walkNode recordingWalker
        (qualifiedIdentifier (simpleIdentifier (.str "a")) (.str "b"))).run [] =
      ([Event.pre (qualifiedIdentifier (simpleIdentifier (.str "a")) (.str "b"))],
        some .typeError) := by
  have htag : (qualifiedIdentifier (simpleIdentifier (.str "a")) (.str "b")).get "node" =
      .ok (.str Kind.qualifiedIdentifier.tag) := rfl
  rw [walkNode_of_tag _ .qualifiedIdentifier htag]
  simp only [Kind.walk]
  rw [walkQualifiedIdentifier]
  simp [Step.run_seq, walkPre, recordingWalker, qualifiedIdentifier, Val.get, List.lookup,
    walkIdentifier_undefined]

/-- C5 (the source departs from the claim): with the sparse walker whose only
entry is for `import`, the walk of the simple identifier `x` throws a
`TypeError` instead of skipping the node. -/
theorem walkNode_sparse_walker_throws :
    (walkNode importOnlyWalker (simpleIdentifier (.str "x"))).run [] =
      ([], some .typeError) := by
  have htag : (simpleIdentifier (.str "x")).get "node" =
      .ok (.str Kind.simpleIdentifier.tag) := rfl
  rw [walkNode_of_tag _ .simpleIdentifier htag]
  simp [Kind.walk, walkSimpleIdentifier, Step.run_seq, walkPre, importOnlyWalker]

/-! ## Facts about maps and the caching resolver -/

theorem JSMap.find_insert_self {κ ν : Type} [BEq κ] [LawfulBEq κ] (entries : List (κ × ν))
    (key : κ) (value : ν) : JSMap.find (JSMap.insert entries key value) key = some value := by
  induction entries with
  | nil => simp [JSMap.insert, JSMap.find]
  | cons p rest ih =>
    obtain ⟨k, v⟩ := p
    by_cases hk : (k == key) = true
    · simp [JSMap.insert, JSMap.find, hk]
    · simp [JSMap.insert, JSMap.find, hk, ih]

theorem JSMap.find_insert_ne {κ ν : Type} [BEq κ] [LawfulBEq κ] (entries : List (κ × ν))
    {key other : κ} (value : ν) (hne : key ≠ other) :
    JSMap.find (JSMap.insert entries key value) other = JSMap.find entries other := by
  induction entries with
  | nil =>
    have : (key == other) = false := by simpa using hne
    simp [JSMap.insert, JSMap.find, this]
  | cons p rest ih =>
    obtain ⟨k, v⟩ := p
    by_cases hk : (k == key) = true
    · have hkk : k = key := by simpa using hk
      subst hkk
      have : (k == other) = false := by simpa using hne
      simp [JSMap.insert, JSMap.find, this]
    · by_cases ho : (k == other) = true
      · simp [JSMap.insert, JSMap.find, hk, ho]
      · simp [JSMap.insert, JSMap.find, hk, ho, ih]

theorem JSMap.get_of_set {κ : Type} [BEq κ] [LawfulBEq κ] (map : JSMap κ Val)
    (key : κ) (value : Val) : (map.set key value).get key = value := by
  simp [JSMap.get, JSMap.set, JSMap.find_insert_self]

theorem JSMap.get_of_set_other {κ : Type} [BEq κ] [LawfulBEq κ] (map : JSMap κ Val)
    {key other : κ} (value : Val) (hne : key ≠ other) :
    (map.set key value).get other = map.get other := by
  simp [JSMap.get, JSMap.set, JSMap.find_insert_ne _ value hne]

/-- Every tree node is an object and so is truthy. -/
theorem Val.truthy_of_isNode {node : Val} (h : isNode node = .ok true) :
    node.truthy = true := by
  cases node <;> simp [isNode, hasKind, Val.get, orE, Val.isStr] at h
  rfl

/-- A call for a UEI whose cache entry is missing invokes the wrapped resolver. -/
theorem newCachedResolver_miss {κ ε ω : Type} [BEq κ] (resolver : Resolver κ ε ω) (u : κ)
    (cache : JSMap κ Val) (world : ω) (hmiss : (cache.get u).truthy = false) :
    newCachedResolver resolver u (cache, world) =
      match resolver u world with
      | (.ok entity, world1) => (.ok entity, (cache.set u entity, world1))
      | (.error err, world1) => (.error err, (cache, world1)) := by
  simp [newCachedResolver, hmiss]

/-- A call for a UEI whose cache entry is present returns it and changes nothing. -/
theorem newCachedResolver_hit {κ ε ω : Type} [BEq κ] (resolver : Resolver κ ε ω) (u : κ)
    (cache : JSMap κ Val) (world : ω) (hhit : (cache.get u).truthy = true) :
    newCachedResolver resolver u (cache, world) = (.ok (cache.get u), (cache, world)) := by
  simp [newCachedResolver, hhit]

/-- A call for another UEI leaves the cache entry of `u` as it is. -/
theorem newCachedResolver_get_other {κ ε ω : Type} [BEq κ] [LawfulBEq κ]
    (resolver : Resolver κ ε ω) {u v : κ} (hne : v ≠ u) (state : JSMap κ Val × ω) :
    (newCachedResolver resolver v state).2.1.get u = state.1.get u := by
  obtain ⟨cache, world⟩ := state
  simp only [newCachedResolver]
  split
  · rfl
  · rcases hr : resolver v world with ⟨_ | entity, world1⟩
    · simp
    · simp [JSMap.get_of_set_other cache entity hne]

theorem newCachedResolver_callAll_get {κ ε ω : Type} [BEq κ] [LawfulBEq κ]
    (resolver : Resolver κ ε ω) (u : κ) (vs : List κ) (hvs : u ∉ vs)
    (state : JSMap κ Val × ω) :
    (Resolver.callAll (newCachedResolver resolver) vs state).1.get u = state.1.get u := by
  induction vs generalizing state with
  | nil => rfl
  | cons v rest ih =>
    simp only [List.mem_cons, not_or] at hvs
    simp only [Resolver.callAll]
    rw [ih hvs.2, newCachedResolver_get_other resolver (Ne.symm hvs.1)]

/-! ## Claims on the caching resolver -/

/-- C6: let the loader succeed for `u` with the entity `c`, a CU and so truthy,
on a resolver that has not cached `u` yet (a new resolver in particular). Then
the first call `resolver(u)` returns `c` and invokes the loader once, and the
second call returns the recorded `c` and leaves cache, log and world as they
are: the loader is invoked exactly once in the two calls. -/
theorem newCachedResolver_two_calls_invoke_once {κ ε ω : Type} [BEq κ] [LawfulBEq κ]
    (loader : Resolver κ ε ω) (u : κ) (c : Val) (cache : JSMap κ Val) (log : List κ)
    (world world1 : ω)
    (hsucc : loader u world = (.ok c, world1))
    (hcu : c.truthy = true)
    (hnew : (cache.get u).truthy = false) :
    (newCachedResolver loader.logged u (cache, (log, world))).1 = .ok c ∧
    (newCachedResolver loader.logged u (cache, (log, world))).2.2 = (log ++ [u], world1) ∧
    newCachedResolver loader.logged u
        (newCachedResolver loader.logged u (cache, (log, world))).2 =
      (.ok c, (newCachedResolver loader.logged u (cache, (log, world))).2) := by
  have hfirst : newCachedResolver loader.logged u (cache, (log, world)) =
      (.ok c, (cache.set u c, (log ++ [u], world1))) := by
    rw [newCachedResolver_miss _ _ _ _ hnew]
    simp [Resolver.logged, hsucc]
  rw [hfirst]
  refine ⟨rfl, rfl, ?_⟩
  have hhit : ((cache.set u c).get u).truthy = true := by
    rw [JSMap.get_of_set]; exact hcu
  rw [newCachedResolver_hit _ _ _ _ hhit, JSMap.get_of_set]

/-- Witness for C6: a new resolver around a loader that knows the unit `u`. -/
theorem newCachedResolver_two_calls_invoke_once_witness :
    ((fun (uei : String) (w : Unit) =>
        if uei = "u" then ((.ok (simpleIdentifier (.str "x")) : Except String Val), w)
        else (.error "unknown unit", w)) : Resolver String String Unit) "u" () =
      (.ok (simpleIdentifier (.str "x")), ()) ∧
    (simpleIdentifier (.str "x")).truthy = true ∧
    (((newCachedResolver.initial ()).1 : JSMap String Val).get "u").truthy = false ∧
    ((newCachedResolver (Resolver.logged (fun (uei : String) (w : Unit) =>
        if uei = "u" then ((.ok (simpleIdentifier (.str "x")) : Except String Val), w)
        else (.error "unknown unit", w))) "u" (JSMap.empty, ([], ()))).1 =
        .ok (simpleIdentifier (.str "x")) ∧
      (newCachedResolver (Resolver.logged (fun (uei : String) (w : Unit) =>
        if uei = "u" then ((.ok (simpleIdentifier (.str "x")) : Except String Val), w)
        else (.error "unknown unit", w))) "u" (JSMap.empty, ([], ()))).2.2 = ([] ++ ["u"], ()) ∧
      newCachedResolver (Resolver.logged (fun (uei : String) (w : Unit) =>
        if uei = "u" then ((.ok (simpleIdentifier (.str "x")) : Except String Val), w)
        else (.error "unknown unit", w))) "u"
          (newCachedResolver (Resolver.logged (fun (uei : String) (w : Unit) =>
            if uei = "u" then ((.ok (simpleIdentifier (.str "x")) : Except String Val), w)
            else (.error "unknown unit", w))) "u" (JSMap.empty, ([], ()))).2 =
        (.ok (simpleIdentifier (.str "x")),
          (newCachedResolver (Resolver.logged (fun (uei : String) (w : Unit) =>
            if uei = "u" then ((.ok (simpleIdentifier (.str "x")) : Except String Val), w)
            else (.error "unknown unit", w))) "u" (JSMap.empty, ([], ()))).2)) :=
  ⟨rfl, rfl, rfl,
    newCachedResolver_two_calls_invoke_once _ "u" (simpleIdentifier (.str "x")) JSMap.empty []
      () () rfl rfl rfl⟩

/-- C7: let the loader fail for `u` with `e`, on a resolver that has not cached
`u` (a new resolver in particular), so that the call `resolver(u)` invokes the
loader. Then the call fails with `e`, the failure of the loader, leaves the
cache as it was and has invoked the loader once; and the next call
`resolver(u)`, after any calls for other UEIs, invokes the loader again. -/
theorem newCachedResolver_failure_not_cached {κ ε ω : Type} [BEq κ] [LawfulBEq κ]
    (loader : Resolver κ ε ω) (u : κ) (e : ε) (cache : JSMap κ Val) (log : List κ)
    (world world1 : ω)
    (hfail : loader u world = (.error e, world1))
    (hnew : (cache.get u).truthy = false) :
    newCachedResolver loader.logged u (cache, (log, world)) =
      (.error e, (cache, (log ++ [u], world1))) ∧
    ∀ others : List κ, u ∉ others →
      (newCachedResolver loader.logged u
          (Resolver.callAll (newCachedResolver loader.logged) others
            (cache, (log ++ [u], world1)))).2.2.1 =
        (Resolver.callAll (newCachedResolver loader.logged) others
          (cache, (log ++ [u], world1))).2.1 ++ [u] := by
  have hfirst : newCachedResolver loader.logged u (cache, (log, world)) =
      (.error e, (cache, (log ++ [u], world1))) := by
    rw [newCachedResolver_miss _ _ _ _ hnew]
    simp [Resolver.logged, hfail]
  refine ⟨hfirst, ?_⟩
  intro others hothers
  have hget := newCachedResolver_callAll_get loader.logged u others hothers
    (cache, (log ++ [u], world1))
  generalize Resolver.callAll (newCachedResolver loader.logged) others
    (cache, (log ++ [u], world1)) = later at hget
  obtain ⟨cache2, log2, world2⟩ := later
  have hmiss2 : (cache2.get u).truthy = false := by
    rw [show cache2.get u = cache.get u from hget]; exact hnew
  rw [newCachedResolver_miss _ _ _ _ hmiss2]
  rcases hr2 : loader u world2 with ⟨_ | entity2, world3⟩ <;> simp [Resolver.logged, hr2]

/-- Witness for C7: a new resolver around a loader that fails on its first
invocation and succeeds on the second; the second call `resolver(u)` invokes the
loader again and returns its unit. -/
theorem newCachedResolver_failure_not_cached_witness :
    flakyLoader "u" 0 = (.error "offline", 1) ∧
    (((newCachedResolver.initial (([] : List String), 0)).1 : JSMap String Val).get
      "u").truthy = false ∧
    (newCachedResolver flakyLoader.logged "u" (newCachedResolver.initial ([], 0)) =
        (.error "offline", (JSMap.empty, ([] ++ ["u"], 1))) ∧
      ∀ others : List String, "u" ∉ others →
        (newCachedResolver flakyLoader.logged "u"
            (Resolver.callAll (newCachedResolver flakyLoader.logged) others
              (JSMap.empty, ([] ++ ["u"], 1)))).2.2.1 =
          (Resolver.callAll (newCachedResolver flakyLoader.logged) others
            (JSMap.empty, ([] ++ ["u"], 1))).2.1 ++ ["u"]) ∧
    (newCachedResolver flakyLoader.logged "u" (JSMap.empty, (["u"], 1))).1 =
      .ok (simpleIdentifier (.str "x")) ∧
    (newCachedResolver flakyLoader.logged "u" (JSMap.empty, (["u"], 1))).2.2 =
      (["u", "u"], 2) :=
  ⟨rfl, rfl, newCachedResolver_failure_not_cached flakyLoader "u" "offline" JSMap.empty [] 0 1
    rfl rfl, rfl, rfl⟩

/-! ## Claims on the closure builder -/

/-- The closure builder never returns a promise: whatever the importer, the unit
and its UEI, the call throws, and the world of the importer is untouched. -/
theorem resolveImportsRecursively_throws {ε ω : Type} (importer : Resolver Val ε ω)
    (cu uei : Val) (world : ω) :
    ∃ e, resolveImportsRecursively importer cu uei world = (.error e, world) := by
  unfold resolveImportsRecursively addImports
  cases allImportedUEIs cu with
  | error e => exact ⟨e, rfl⟩
  | ok imports => exact ⟨.typeError, rfl⟩

/-- On a tree that consists of one import the extractor returns the set of its UEI. -/
theorem allImportedUEIs_importt (uei : Val) :
    allImportedUEIs (importt uei) = .ok ⟨[uei]⟩ := by
  have htag : (importt uei).get "node" = .ok (.str Kind.importt.tag) := rfl
  unfold allImportedUEIs
  rw [walkNode_of_tag _ .importt htag]
  simp [Kind.walk, walkImport, Step.run_seq, walkPre, walkPost, importWalker, importt, Val.get,
    List.lookup, Step.bindE, JSSet.add, JSSet.has, JSSet.empty]

/-- C8 (the source departs from the claim): for the root unit `moduleLiteral([])`,
which has no import, the call throws a `TypeError` where the claim has a map
with the one key `root`. -/
theorem resolveImportsRecursively_no_imports_throws :
    resolveImportsRecursively cycleLoader (moduleLiteral (.arr [])) (.str "root") () =
      (.error .typeError, ()) := by
  have htag : (moduleLiteral (.arr [])).get "node" = .ok (.str Kind.moduleLiteral.tag) := rfl
  have hwalk : allImportedUEIs (moduleLiteral (.arr [])) = .error .typeError := by
    unfold allImportedUEIs
    rw [walkNode_of_tag _ .moduleLiteral htag]
    simp only [Kind.walk]
    rw [walkModuleLiteral]
    simp [Step.run_seq, walkPre, importWalker]
  simp [resolveImportsRecursively, addImports, hwalk]

/-- C9 (the source departs from the claim): on the cyclic graph, where `A` is the
one import of `B` and `B` the one import of `A`, the extractor returns the set
with `B`, and the call then throws a `TypeError` where the claim has the map of
`A` and `B`. -/
theorem resolveImportsRecursively_cycle_throws :
    cycleLoader (.str "A") () = (.ok (importt (.str "B")), ()) ∧
    cycleLoader (.str "B") () = (.ok (importt (.str "A")), ()) ∧
    allImportedUEIs (importt (.str "B")) = .ok ⟨[.str "B"]⟩ ∧
    resolveImportsRecursively cycleLoader (importt (.str "B")) (.str "A") () =
      (.error .typeError, ()) := by
  refine ⟨rfl, rfl, allImportedUEIs_importt _, ?_⟩
  simp [resolveImportsRecursively, addImports, allImportedUEIs_importt]

/-- C10 (the source departs from the claim): on the diamond graph, with a new
cached resolver around the loader, the call throws a `TypeError` where the
claim has a map of four entries, and the loader has not been invoked at all,
for `D` or any other unit. -/
theorem resolveImportsRecursively_diamond_throws :
    resolveImportsRecursively (newCachedResolver diamondLoader.logged) diamondRoot (.str "A")
        (newCachedResolver.initial ([], ())) =
      (.error .typeError, (JSMap.empty, ([], ()))) := by
  have htag : diamondRoot.get "node" = .ok (.str Kind.moduleLiteral.tag) := rfl
  have hwalk : allImportedUEIs diamondRoot = .error .typeError := by
    unfold allImportedUEIs
    rw [walkNode_of_tag _ .moduleLiteral htag]
    simp only [Kind.walk]
    rw [walkModuleLiteral]
    simp [Step.run_seq, walkPre, importWalker]
  simp [resolveImportsRecursively, addImports, hwalk, newCachedResolver.initial]

/-! ## Further claims on the closure builder and the caching resolver -/

/-- C11 (the source departs from the claim): the unit `A` imports `B`, and the
loader fails for `B` with the cause `unit not found`. The call throws a
`TypeError`, which names neither `B` nor `A` nor the cause, and the loader has
not been invoked. -/
theorem resolveImportsRecursively_failure_unreported :
    brokenLoader (.str "B") () = (.error "unit not found", ()) ∧
    resolveImportsRecursively brokenLoader.logged (importt (.str "B")) (.str "A") ([], ()) =
      (.error .typeError, ([], ())) := by
  refine ⟨rfl, ?_⟩
  simp [resolveImportsRecursively, addImports, allImportedUEIs_importt]

theorem JSMap.find_insert_isSome {κ ν : Type} [BEq κ] (entries : List (κ × ν))
    (key other : κ) (value : ν) (h : (JSMap.find entries other).isSome = true) :
    (JSMap.find (JSMap.insert entries key value) other).isSome = true := by
  induction entries with
  | nil => simp [JSMap.find] at h
  | cons p rest ih =>
    obtain ⟨k, v⟩ := p
    by_cases hk : (k == key) = true
    · by_cases ho : (k == other) = true
      · simp [JSMap.insert, JSMap.find, hk, ho]
      · simp only [JSMap.find, ho] at h
        simpa [JSMap.insert, JSMap.find, hk, ho] using h
    · by_cases ho : (k == other) = true
      · simp [JSMap.insert, JSMap.find, hk, ho]
      · simp only [JSMap.find, ho] at h
        simpa [JSMap.insert, JSMap.find, hk, ho] using ih h

/-- One call keeps every key of the cache. -/
theorem newCachedResolver_has_mono {κ ε ω : Type} [BEq κ] (resolver : Resolver κ ε ω)
    (v k : κ) (state : JSMap κ Val × ω) (h : state.1.has k = true) :
    (newCachedResolver resolver v state).2.1.has k = true := by
  obtain ⟨cache, world⟩ := state
  simp only [newCachedResolver]
  split
  · exact h
  · rcases hr : resolver v world with ⟨_ | entity, world1⟩
    · simpa using h
    · simpa [JSMap.has, JSMap.set] using JSMap.find_insert_isSome cache.entries v k entity h

/-- One call keeps a truthy entry of the cache. -/
theorem newCachedResolver_keeps_entry {κ ε ω : Type} [BEq κ] [LawfulBEq κ]
    (resolver : Resolver κ ε ω) (u v : κ) (state : JSMap κ Val × ω)
    (h : (state.1.get u).truthy = true) :
    (newCachedResolver resolver v state).2.1.get u = state.1.get u := by
  by_cases hv : v = u
  · subst hv
    obtain ⟨cache, world⟩ := state
    rw [newCachedResolver_hit _ _ _ _ h]
  · exact newCachedResolver_get_other resolver hv state

/-- A truthy entry of the cache is written once: when the cache holds the truthy
entity `e` for `u`, it holds `e` for `u` after every run of later calls, and
every key it holds stays in it; and a call for another UEI `v` leaves the entry
of `u` as it is, whatever that entry. -/
theorem newCachedResolver_truthy_entry_kept {κ ε ω : Type} [BEq κ] [LawfulBEq κ]
    (loader : Resolver κ ε ω) (u : κ) (e : Val) (state : JSMap κ Val × ω)
    (hrecorded : state.1.get u = e) (hcu : e.truthy = true) :
    (∀ calls : List κ,
      (Resolver.callAll (newCachedResolver loader) calls state).1.get u = e ∧
      ∀ k, state.1.has k = true →
        (Resolver.callAll (newCachedResolver loader) calls state).1.has k = true) ∧
    (∀ (v : κ) (other : JSMap κ Val × ω), v ≠ u →
      (newCachedResolver loader v other).2.1.get u = other.1.get u) := by
  refine ⟨?_, fun v other hv => newCachedResolver_get_other loader hv other⟩
  intro calls
  induction calls generalizing state with
  | nil => exact ⟨hrecorded, fun k hk => hk⟩
  | cons v rest ih =>
    have hkeep := newCachedResolver_keeps_entry loader u v state (by rw [hrecorded]; exact hcu)
    obtain ⟨h1, h2⟩ := ih (newCachedResolver loader v state).2 (by rw [hkeep, hrecorded])
    exact ⟨h1, fun k hk => h2 k (newCachedResolver_has_mono loader v k state hk)⟩

/-- C12 (the source departs from the claim): the first call `resolver(u)` on a
new resolver records the entity that the loader returns, the empty string, for
`u`. The second call `resolver(u)` finds that entry, reads it as a miss because
the empty string is falsy, invokes the loader again and overwrites the entry
with the new result `second`: the entry of `u` has changed and the loader has
been invoked twice. -/
theorem newCachedResolver_overwrites_falsy_entry :
    (Resolver.callAll (newCachedResolver fickleLoader.logged) ["u"]
        (newCachedResolver.initial ([], 0))).1.has "u" = true ∧
    (Resolver.callAll (newCachedResolver fickleLoader.logged) ["u"]
        (newCachedResolver.initial ([], 0))).1.get "u" = .str "" ∧
    newCachedResolver fickleLoader.logged "u"
        (Resolver.callAll (newCachedResolver fickleLoader.logged) ["u"]
          (newCachedResolver.initial ([], 0))) =
      (.ok (.str "second"), (JSMap.empty.set "u" (.str "second"), (["u", "u"], 2))) ∧
    (JSMap.empty.set "u" (.str "second") : JSMap String Val).get "u" = .str "second" :=
  ⟨rfl, rfl, rfl, rfl⟩

/-! ## Further claims on the walker, the validator and the import extractor -/

/-- C13 (the source departs from the claim): on the simple identifier `x`, a
member of the grammar Identifier, `walkIdentifier` fires both callbacks of the
node and then raises `not an identifier`; on the empty module literal, a member
of the grammar Module, `walkModule` likewise ends in `not a module`. -/
theorem walkIdentifier_raises_on_member :
    (walkIdentifier recordingWalker (simpleIdentifier (.str "x"))).run [] =
      ([Event.pre (simpleIdentifier (.str "x")), Event.post (simpleIdentifier (.str "x"))],
        some (.error "not an identifier")) ∧
    (walkModule recordingWalker (moduleLiteral (.arr []))).run [] =
      ([Event.pre (moduleLiteral (.arr [])), Event.post (moduleLiteral (.arr []))],
        some (.error "not a module")) := by
  constructor
  · rw [walkIdentifier]
    simp [Step.run_seq, Step.when, Step.bindE, isSimpleIdentifier, isQualifiedIdentifier,
      isImport, hasKind, simpleIdentifier, Val.get, List.lookup, Val.isStr,
      walkSimpleIdentifier, walkPre, walkPost, recordingWalker]
  · rw [walkModule, walkModuleLiteral]
    simp [Step.run_seq, Step.when, Step.bindE, isModuleLiteral, isIdentifier,
      isSimpleIdentifier, isQualifiedIdentifier, isImport, orE, hasKind, moduleLiteral, Val.get,
      List.lookup, Val.isStr, walkPre, walkPost, recordingWalker, Val.forEach_arr, Step.seqAll]

theorem Val.isStr_eq_false {tag : Val} {text : String} (h : tag ≠ .str text) :
    tag.isStr text = false := by
  cases tag <;> simp [Val.isStr]
  rename_i s
  intro hs
  exact h (by rw [hs])

theorem hasKind_of_unknown {node tag : Val} (hget : node.get "node" = .ok tag)
    (hunknown : UnknownKind tag) (k : Kind) : hasKind node k.tag = .ok false := by
  simp [hasKind, hget, Val.isStr_eq_false (hunknown k)]

theorem isNode_of_unknown {node tag : Val} (hget : node.get "node" = .ok tag)
    (hunknown : UnknownKind tag) : isNode node = .ok false := by
  have h := fun k => hasKind_of_unknown hget hunknown k
  have h1 := h .simpleIdentifier
  have h2 := h .qualifiedIdentifier
  have h3 := h .importt
  have h4 := h .moduleLiteral
  have h5 := h .moduleBinding
  have h6 := h .typeBinding
  have h7 := h .adt
  have h8 := h .summand
  have h9 := h .fnType
  have h10 := h .expressionBinding
  have h11 := h .projection
  have h12 := h .casee
  have h13 := h .branch
  have h14 := h .fnLiteral
  have h15 := h .application
  simp only [Kind.tag] at h1 h2 h3 h4 h5 h6 h7 h8 h9 h10 h11 h12 h13 h14 h15
  simp [isNode, orE, h1, h2, h3, h4, h5, h6, h7, h8, h9, h10, h11, h12, h13, h14, h15]

/-- C14, counterexample: on `undefined` and on `null`, whose kind tag cannot be
read, `validateNode` raises a `TypeError` instead of returning `false`. -/
theorem validateNode_raises_on_undefined :
    validateNode .undefined = .error .typeError ∧ validateNode .null = .error .typeError := by
  constructor <;> simp [validateNode, isNode, hasKind, Val.get, orE]

/-- C14, amended: for every value whose kind tag can be read, that is every
value but `undefined` and `null`, and is none of the fifteen known kinds, the
kind test `isNode` is false and `validateNode` returns `false` at its guard,
before the walker is built and any callback fired. -/
theorem validateNode_unknown_kind (node tag : Val) (hget : node.get "node" = .ok tag)
    (hunknown : UnknownKind tag) : isNode node = .ok false ∧ validateNode node = .ok false := by
  have h := isNode_of_unknown hget hunknown
  exact ⟨h, by simp [validateNode, h]⟩

/-- Witness for C14: an object with the kind tag `lambda`. -/
theorem validateNode_unknown_kind_witness :
    (Val.obj [("node", .str "lambda")]).get "node" = .ok (.str "lambda") ∧
    UnknownKind (.str "lambda") ∧
    (isNode (Val.obj [("node", .str "lambda")]) = .ok false ∧
      validateNode (Val.obj [("node", .str "lambda")]) = .ok false) := by
  have hunknown : UnknownKind (.str "lambda") := by
    intro k; cases k <;> simp [Kind.tag]
  exact ⟨rfl, hunknown, validateNode_unknown_kind _ _ rfl hunknown⟩

/-- C20 (the source departs from the claim): on the valid module literal with
the imports `B` and `C`, and on the one with its two entries swapped,
`allImportedUEIs` throws a `TypeError`, where the claim has the same set of two
UEIs for both. -/
theorem allImportedUEIs_throws_on_permuted_entries :
    allImportedUEIs (moduleLiteral (.arr
        [moduleBinding (.bool false) (.str "b") (importt (.str "B")),
          moduleBinding (.bool false) (.str "c") (importt (.str "C"))])) = .error .typeError ∧
    allImportedUEIs (moduleLiteral (.arr
        [moduleBinding (.bool false) (.str "c") (importt (.str "C")),
          moduleBinding (.bool false) (.str "b") (importt (.str "B"))])) = .error .typeError := by
  constructor
  · have htag : (moduleLiteral (.arr
        [moduleBinding (.bool false) (.str "b") (importt (.str "B")),
          moduleBinding (.bool false) (.str "c") (importt (.str "C"))])).get "node" =
        .ok (.str Kind.moduleLiteral.tag) := rfl
    unfold allImportedUEIs
    rw [walkNode_of_tag _ .moduleLiteral htag]
    simp only [Kind.walk]
    rw [walkModuleLiteral]
    simp [Step.run_seq, walkPre, importWalker]
  · have htag : (moduleLiteral (.arr
        [moduleBinding (.bool false) (.str "c") (importt (.str "C")),
          moduleBinding (.bool false) (.str "b") (importt (.str "B"))])).get "node" =
        .ok (.str Kind.moduleLiteral.tag) := rfl
    unfold allImportedUEIs
    rw [walkNode_of_tag _ .moduleLiteral htag]
    simp only [Kind.walk]
    rw [walkModuleLiteral]
    simp [Step.run_seq, walkPre, importWalker]

/-! ## Which errors a walk can raise -/

theorem Step.avoids_skip {σ : Type} (bad : JSError) : (Step.skip : Step σ).Avoids bad := by
  intro s; simp

theorem Step.avoids_throw {σ : Type} {e bad : JSError} (h : e ≠ bad) :
    (Step.throw e : Step σ).Avoids bad := by
  intro s; simpa using h

theorem Step.avoids_seq {σ : Type} {a b : Step σ} {bad : JSError}
    (ha : a.Avoids bad) (hb : b.Avoids bad) : (a.seq b).Avoids bad := by
  intro s
  rw [Step.run_seq]
  rcases hr : a.run s with ⟨s1, _ | e⟩
  · exact hb s1
  · have := ha s
    rw [hr] at this
    simpa using this

theorem Step.avoids_bindE {σ α : Type} {value : Except JSError α} {next : α → Step σ}
    {bad : JSError} (herr : ∀ e, value = .error e → e ≠ bad)
    (hok : ∀ a, value = .ok a → (next a).Avoids bad) : (Step.bindE value next).Avoids bad := by
  cases value with
  | error e => exact Step.avoids_throw (herr e rfl)
  | ok a => exact hok a rfl

theorem Step.avoids_when {σ : Type} {cond : Except JSError Bool} {body : Step σ}
    {bad : JSError} (herr : ∀ e, cond = .error e → e ≠ bad) (hbody : body.Avoids bad) :
    (Step.when cond body).Avoids bad := by
  apply Step.avoids_bindE herr
  intro b _
  cases b
  · exact Step.avoids_skip bad
  · exact hbody

theorem Step.avoids_seqAll {σ : Type} {steps : List (Step σ)} {bad : JSError}
    (h : ∀ a ∈ steps, a.Avoids bad) : (Step.seqAll steps).Avoids bad := by
  induction steps with
  | nil => exact Step.avoids_skip bad
  | cons a rest ih =>
    exact Step.avoids_seq (h a (List.mem_cons_self a rest))
      (ih (fun b hb => h b (List.mem_cons_of_mem a hb)))

theorem Val.get_error {node : Val} {key : String} {e : JSError}
    (h : node.get key = .error e) : e = .typeError := by
  cases node <;> simp [Val.get] at h <;> exact h.symm

theorem hasKind_error {node : Val} {kind : String} {e : JSError}
    (h : hasKind node kind = .error e) : e = .typeError := by
  unfold hasKind at h
  split at h
  · rename_i e2 hget
    cases h
    exact Val.get_error hget
  · cases h

theorem orE_error {a b : Except JSError Bool} {e : JSError} (h : orE a b = .error e)
    (ha : ∀ e, a = .error e → e = .typeError) (hb : ∀ e, b = .error e → e = .typeError) :
    e = .typeError := by
  unfold orE at h
  split at h
  · cases h; exact ha _ rfl
  · cases h
  · exact hb _ h

theorem isIdentifier_error {node : Val} {e : JSError} (h : isIdentifier node = .error e) :
    e = .typeError :=
  orE_error h (fun _ h1 => hasKind_error h1)
    (fun _ h2 => orE_error h2 (fun _ h3 => hasKind_error h3) (fun _ h4 => hasKind_error h4))

theorem Val.size_lt_of_mem {x : Val} {items : List Val} (h : x ∈ items) :
    x.size < (Val.arr items).size := by
  induction items with
  | nil => simp at h
  | cons y rest ih =>
    simp only [Val.size, Val.sizeItems] at ih ⊢
    rcases List.mem_cons.mp h with rfl | hmem
    · omega
    · have := ih hmem; omega

theorem Val.forEach_avoids {σ : Type} (v : Val) (g : Val → Step σ) {bad : JSError}
    (hbad : JSError.typeError ≠ bad) (h : ∀ x, x.size < v.size → (g x).Avoids bad) :
    (v.forEach (fun x _ => g x)).Avoids bad := by
  cases v with
  | arr items =>
    rw [Val.forEach_arr]
    apply Step.avoids_seqAll
    intro a ha
    obtain ⟨x, hx, rfl⟩ := List.mem_map.mp ha
    exact h x (Val.size_lt_of_mem hx)
  | _ => exact Step.avoids_throw hbad

theorem walkPre_avoids {σ : Type} {walker : Walker σ} {bad : JSError}
    (hquiet : walker.NeverRaises bad) (hbad : JSError.typeError ≠ bad) (nodeName : String)
    (node : Val) : (walkPre nodeName walker node).Avoids bad := by
  unfold walkPre
  split
  · exact Step.avoids_throw hbad
  · rename_i hooks hw
    split
    · rename_i pre hpre
      exact (hquiet nodeName hooks hw).1 pre hpre node
    · exact Step.avoids_skip bad

theorem walkPost_avoids {σ : Type} {walker : Walker σ} {bad : JSError}
    (hquiet : walker.NeverRaises bad) (hbad : JSError.typeError ≠ bad) (nodeName : String)
    (node : Val) : (walkPost nodeName walker node).Avoids bad := by
  unfold walkPost
  split
  · exact Step.avoids_throw hbad
  · rename_i hooks hw
    split
    · rename_i post hpost
      exact (hquiet nodeName hooks hw).2 post hpost node
    · exact Step.avoids_skip bad

theorem walksAvoid_of_size {σ : Type} {walker : Walker σ}
    (hquiet : walker.NeverRaises (.error "invalid node")) (n : Nat) :
    ∀ node : Val, node.size < n → WalksAvoid walker (.error "invalid node") node := by
  have hbad : JSError.typeError ≠ JSError.error "invalid node" := by simp
  induction n with
  | zero => intro node h; omega
  | succ n ih =>
    intro node hsize
    have hchild : ∀ key c, node.get key = .ok c →
        WalksAvoid walker (.error "invalid node") c := by
      intro key c hget
      exact ih c (by have := Val.get_size_lt hget; omega)
    have hitem : ∀ key v x, node.get key = .ok v → x.size < v.size →
        WalksAvoid walker (.error "invalid node") x := by
      intro key v x hget hx
      exact ih x (by have := Val.get_size_lt hget; omega)
    have hpre := fun name => walkPre_avoids hquiet hbad name node
    have hpost := fun name => walkPost_avoids hquiet hbad name node
    have hSI : (walkSimpleIdentifier walker node).Avoids (.error "invalid node") :=
      Step.avoids_seq (hpre _) (hpost _)
    have hImport : (walkImport walker node).Avoids (.error "invalid node") :=
      Step.avoids_seq (hpre _) (hpost _)
    have hQI : (walkQualifiedIdentifier walker node).Avoids (.error "invalid node") := by
      rw [walkQualifiedIdentifier]
      refine Step.avoids_seq (hpre _) (Step.avoids_seq ?_ (hpost _))
      split
      · rename_i e heq
        rw [Val.get_error heq]; exact Step.avoids_throw hbad
      · intro s
        rw [walkIdentifier_undefined]
        simp
    have hIdent : (walkIdentifier walker node).Avoids (.error "invalid node") := by
      rw [walkIdentifier]
      refine Step.avoids_seq (Step.avoids_when ?_ hSI) (Step.avoids_seq
        (Step.avoids_when ?_ hQI) (Step.avoids_seq (Step.avoids_when ?_ hImport)
        (Step.avoids_throw (by simp))))
      all_goals (intro e he; rw [hasKind_error he]; exact hbad)
    have hML : (walkModuleLiteral walker node).Avoids (.error "invalid node") := by
      rw [walkModuleLiteral]
      refine Step.avoids_seq (hpre _) (Step.avoids_seq ?_ (hpost _))
      split
      · rename_i e heq
        rw [Val.get_error heq]; exact Step.avoids_throw hbad
      · rename_i entries heq
        exact Val.forEach_avoids entries (walkEntry walker) hbad
          (fun x hx => (hitem _ _ x heq hx).2.2.2.1)
    have hModule : (walkModule walker node).Avoids (.error "invalid node") := by
      rw [walkModule]
      refine Step.avoids_seq (Step.avoids_when ?_ hML) (Step.avoids_seq
        (Step.avoids_when ?_ hIdent) (Step.avoids_throw (by simp)))
      · intro e he; rw [hasKind_error he]; exact hbad
      · intro e he; rw [isIdentifier_error he]; exact hbad
    have hMB : (walkModuleBinding walker node).Avoids (.error "invalid node") := by
      rw [walkModuleBinding]
      refine Step.avoids_seq (hpre _) (Step.avoids_seq ?_ (hpost _))
      split
      · rename_i e heq
        rw [Val.get_error heq]; exact Step.avoids_throw hbad
      · rename_i c heq
        exact (hchild _ c heq).2.2.1
    have hTB : (walkTypeBinding walker node).Avoids (.error "invalid node") := by
      rw [walkTypeBinding]
      refine Step.avoids_seq (hpre _) (Step.avoids_seq ?_ (hpost _))
      split
      · rename_i e heq
        rw [Val.get_error heq]; exact Step.avoids_throw hbad
      · rename_i c heq
        exact (hchild _ c heq).2.2.2.2.1
    have hEB : (walkExpressionBinding walker node).Avoids (.error "invalid node") := by
      rw [walkExpressionBinding]
      refine Step.avoids_seq (hpre _) (Step.avoids_seq ?_ (hpost _))
      split
      · rename_i e heq
        rw [Val.get_error heq]; exact Step.avoids_throw hbad
      · rename_i c heq
        exact (hchild _ c heq).2.2.2.2.2
    have hEntry : (walkEntry walker node).Avoids (.error "invalid node") := by
      rw [walkEntry]
      refine Step.avoids_seq (Step.avoids_when ?_ hMB) (Step.avoids_seq
        (Step.avoids_when ?_ hTB) (Step.avoids_seq (Step.avoids_when ?_ hEB)
        (Step.avoids_throw (by simp))))
      all_goals (intro e he; rw [hasKind_error he]; exact hbad)
    have hADT : (walkADT walker node).Avoids (.error "invalid node") := by
      rw [walkADT]
      refine Step.avoids_seq (hpre _) (Step.avoids_seq ?_ (hpost _))
      split
      · rename_i e heq
        rw [Val.get_error heq]; exact Step.avoids_throw hbad
      · rename_i summands heq
        exact Val.forEach_avoids summands (walkSummand walker) hbad
          (fun x hx => (hitem _ _ x heq hx).1 .summand)
    have hSummand : (walkSummand walker node).Avoids (.error "invalid node") := by
      rw [walkSummand]
      refine Step.avoids_seq (hpre _) (Step.avoids_seq ?_ (hpost _))
      split
      · rename_i e heq
        rw [Val.get_error heq]; exact Step.avoids_throw hbad
      · rename_i products heq
        exact Val.forEach_avoids products (walkType walker) hbad
          (fun x hx => (hitem _ _ x heq hx).2.2.2.2.1)
    have hFnType : (walkFnType walker node).Avoids (.error "invalid node") := by
      rw [walkFnType]
      refine Step.avoids_seq (hpre _) (Step.avoids_seq ?_ (Step.avoids_seq ?_ (hpost _)))
      · split
        · rename_i e heq
          rw [Val.get_error heq]; exact Step.avoids_throw hbad
        · rename_i args heq
          exact Val.forEach_avoids args (walkType walker) hbad
            (fun x hx => (hitem _ _ x heq hx).2.2.2.2.1)
      · split
        · rename_i e heq
          rw [Val.get_error heq]; exact Step.avoids_throw hbad
        · rename_i c heq
          exact (hchild _ c heq).2.2.2.2.1
    have hType : (walkType walker node).Avoids (.error "invalid node") := by
      rw [walkType]
      refine Step.avoids_seq (Step.avoids_when ?_ hIdent) (Step.avoids_seq
        (Step.avoids_when ?_ hADT) (Step.avoids_seq (Step.avoids_when ?_ hFnType)
        (Step.avoids_throw (by simp))))
      · intro e he; rw [isIdentifier_error he]; exact hbad
      · intro e he; rw [hasKind_error he]; exact hbad
      · intro e he; rw [hasKind_error he]; exact hbad
    have hProjection : (walkProjection walker node).Avoids (.error "invalid node") := by
      rw [walkProjection]
      refine Step.avoids_seq (hpre _) (Step.avoids_seq ?_ (hpost _))
      split
      · rename_i e heq
        rw [Val.get_error heq]; exact Step.avoids_throw hbad
      · rename_i c heq
        exact (hchild _ c heq).2.2.2.2.2
    have hBranch : (walkBranch walker node).Avoids (.error "invalid node") := by
      rw [walkBranch]
      refine Step.avoids_seq (hpre _) (Step.avoids_seq ?_ (hpost _))
      split
      · rename_i e heq
        rw [Val.get_error heq]; exact Step.avoids_throw hbad
      · rename_i c heq
        exact (hchild _ c heq).2.2.2.2.2
    have hFnLiteral : (walkFnLiteral walker node).Avoids (.error "invalid node") := by
      rw [walkFnLiteral]
      refine Step.avoids_seq (hpre _) (Step.avoids_seq ?_ (hpost _))
      split
      · rename_i e heq
        rw [Val.get_error heq]; exact Step.avoids_throw hbad
      · rename_i c heq
        exact (hchild _ c heq).2.2.2.2.2
    have hCase : (walkCase walker node).Avoids (.error "invalid node") := by
      rw [walkCase]
      refine Step.avoids_seq (hpre _) (Step.avoids_seq ?_ (hpost _))
      split
      · rename_i e heq
        rw [Val.get_error heq]; exact Step.avoids_throw hbad
      · rename_i branches heq
        exact Val.forEach_avoids branches (walkBranch walker) hbad
          (fun x hx => (hitem _ _ x heq hx).1 .branch)
    have hApplication : (walkApplication walker node).Avoids (.error "invalid node") := by
      rw [walkApplication]
      refine Step.avoids_seq (hpre _) (Step.avoids_seq ?_ (Step.avoids_seq ?_ (hpost _)))
      · split
        · rename_i e heq
          rw [Val.get_error heq]; exact Step.avoids_throw hbad
        · rename_i c heq
          exact (hchild _ c heq).2.2.2.2.2
      · split
        · rename_i e heq
          rw [Val.get_error heq]; exact Step.avoids_throw hbad
        · rename_i args heq
          exact Val.forEach_avoids args (walkExpression walker) hbad
            (fun x hx => (hitem _ _ x heq hx).2.2.2.2.2)
    have hExpression : (walkExpression walker node).Avoids (.error "invalid node") := by
      rw [walkExpression]
      refine Step.avoids_seq (Step.avoids_when ?_ hIdent) (Step.avoids_seq
        (Step.avoids_when ?_ hProjection) (Step.avoids_seq (Step.avoids_when ?_ hCase)
        (Step.avoids_seq (Step.avoids_when ?_ hFnLiteral)
        (Step.avoids_seq (Step.avoids_when ?_ hApplication) (Step.avoids_throw (by simp))))))
      · intro e he; rw [isIdentifier_error he]; exact hbad
      all_goals (intro e he; rw [hasKind_error he]; exact hbad)
    refine ⟨?_, hIdent, hModule, hEntry, hType, hExpression⟩
    intro k
    cases k <;> simp only [Kind.walk] <;> assumption

/-- With callbacks that do not raise `invalid node` themselves, no walk function
raises it on any value. -/
theorem walksAvoid_invalid_node {σ : Type} {walker : Walker σ}
    (hquiet : walker.NeverRaises (.error "invalid node")) (node : Val) :
    WalksAvoid walker (.error "invalid node") node :=
  walksAvoid_of_size hquiet (node.size + 1) node (Nat.lt_succ_self _)

theorem walkNode_of_unknown {σ : Type} (walker : Walker σ) {node tag : Val}
    (hget : node.get "node" = .ok tag) (hunknown : UnknownKind tag) :
    walkNode walker node = Step.throw (.error "invalid node") := by
  have h := fun k => hasKind_of_unknown hget hunknown k
  have h1 := h .simpleIdentifier
  have h2 := h .qualifiedIdentifier
  have h3 := h .importt
  have h4 := h .moduleLiteral
  have h5 := h .moduleBinding
  have h6 := h .typeBinding
  have h7 := h .adt
  have h8 := h .summand
  have h9 := h .fnType
  have h10 := h .expressionBinding
  have h11 := h .projection
  have h12 := h .casee
  have h13 := h .branch
  have h14 := h .fnLiteral
  have h15 := h .application
  simp only [Kind.tag] at h1 h2 h3 h4 h5 h6 h7 h8 h9 h10 h11 h12 h13 h14 h15
  simp [walkNode, isSimpleIdentifier, isQualifiedIdentifier, isImport, isModuleLiteral,
    isModuleBinding, isTypeBinding, isADT, isSummand, isFnType, isExpressionBinding,
    isProjection, isCase, isBranch, isFnLiteral, isApplication, Step.ifReturn, Step.bindE,
    h1, h2, h3, h4, h5, h6, h7, h8, h9, h10, h11, h12, h13, h14, h15]

theorem walkNode_of_get_error {σ : Type} (walker : Walker σ) {node : Val} {e : JSError}
    (hget : node.get "node" = .error e) : walkNode walker node = Step.throw .typeError := by
  have he := Val.get_error hget
  subst he
  simp [walkNode, isSimpleIdentifier, hasKind, hget, Step.ifReturn, Step.bindE]

theorem recordingWalker_neverRaises (bad : JSError) : recordingWalker.NeverRaises bad := by
  intro nodeName hooks hw
  simp only [recordingWalker, Option.some.injEq] at hw
  subst hw
  constructor
  · intro pre hpre node s
    simp only [Option.some.injEq] at hpre
    subst hpre
    simp
  · intro post hpost node s
    simp only [Option.some.injEq] at hpost
    subst hpost
    simp

/-- C15, counterexample: on `undefined` and on `null`, whose kind tag cannot be
read, `walkNode` raises a `TypeError`, not the error `invalid node`. -/
theorem walkNode_typeError_on_undefined :
    (walkNode recordingWalker .undefined).run [] = ([], some .typeError) ∧
    (walkNode recordingWalker .null).run [] = ([], some .typeError) := by
  constructor
  · have h : Val.undefined.get "node" = .error .typeError := rfl
    rw [walkNode_of_get_error _ h]; rfl
  · have h : Val.null.get "node" = .error .typeError := rfl
    rw [walkNode_of_get_error _ h]; rfl

/-- C15, amended: for every walker and every value whose kind tag can be read,
that is every value but `undefined` and `null`, and is none of the fifteen known
kinds, `walkNode` is the statement that throws `invalid node`: no callback is
fired. And when the callbacks of the walker do not raise that error
themselves, `walkNode` raises `invalid node` only on such a value. -/
theorem walkNode_invalid_node {σ : Type} (walker : Walker σ) (node : Val) :
    (∀ tag, node.get "node" = .ok tag → UnknownKind tag →
      walkNode walker node = Step.throw (.error "invalid node")) ∧
    (walker.NeverRaises (.error "invalid node") →
      ∀ s, ((walkNode walker node).run s).2 = some (.error "invalid node") →
        ∃ tag, node.get "node" = .ok tag ∧ UnknownKind tag) := by
  refine ⟨fun tag hget hunknown => walkNode_of_unknown walker hget hunknown, ?_⟩
  intro hquiet s hrun
  cases hget : node.get "node" with
  | error e =>
    rw [walkNode_of_get_error walker hget] at hrun
    simp at hrun
  | ok tag =>
    refine ⟨tag, rfl, ?_⟩
    intro k hk
    subst hk
    rw [walkNode_of_tag walker k hget] at hrun
    exact (walksAvoid_invalid_node hquiet node).1 k s hrun

/-- Witness for C15: the recording walker on an object with the kind tag `lambda`. -/
theorem walkNode_invalid_node_witness :
    (Val.obj [("node", .str "lambda")]).get "node" = .ok (.str "lambda") ∧
    UnknownKind (.str "lambda") ∧
    walkNode recordingWalker (Val.obj [("node", .str "lambda")]) =
      Step.throw (.error "invalid node") ∧
    recordingWalker.NeverRaises (.error "invalid node") ∧
    ((walkNode recordingWalker (Val.obj [("node", .str "lambda")])).run []).2 =
      some (.error "invalid node") ∧
    ∃ tag, (Val.obj [("node", .str "lambda")]).get "node" = .ok tag ∧ UnknownKind tag := by
  have hunknown : UnknownKind (.str "lambda") := by
    intro k; cases k <;> simp [Kind.tag]
  have hthrow := (walkNode_invalid_node recordingWalker (Val.obj [("node", .str "lambda")])).1
    (.str "lambda") rfl hunknown
  have hrun : ((walkNode recordingWalker (Val.obj [("node", .str "lambda")])).run []).2 =
      some (.error "invalid node") := by rw [hthrow]; rfl
  exact ⟨rfl, hunknown, hthrow, recordingWalker_neverRaises _, hrun,
    (walkNode_invalid_node recordingWalker (Val.obj [("node", .str "lambda")])).2
      (recordingWalker_neverRaises _) [] hrun⟩

/-! ## Facts about the printer -/

theorem prettyPrint_of_tag {node : Val} (k : Kind) (h : node.get "node" = .ok (.str k.tag))
    (indentation : Nat) : prettyPrint node indentation = k.print node indentation := by
  rw [prettyPrint]
  cases k <;>
    simp [returnIf, isSimpleIdentifier, isQualifiedIdentifier, isImport, isModuleLiteral,
      isModuleBinding, isTypeBinding, isADT, isSummand, isFnType, isExpressionBinding,
      isProjection, isCase, isBranch, isFnLiteral, isApplication, hasKind_of_tag h,
      Kind.tag, Kind.print]

theorem prettyPrint_of_unknown {node tag : Val} (hget : node.get "node" = .ok tag)
    (hunknown : UnknownKind tag) (indentation : Nat) :
    prettyPrint node indentation = .error (.error "invalid node") := by
  have h := fun k => hasKind_of_unknown hget hunknown k
  have h1 := h .simpleIdentifier
  have h2 := h .qualifiedIdentifier
  have h3 := h .importt
  have h4 := h .moduleLiteral
  have h5 := h .moduleBinding
  have h6 := h .typeBinding
  have h7 := h .adt
  have h8 := h .summand
  have h9 := h .fnType
  have h10 := h .expressionBinding
  have h11 := h .projection
  have h12 := h .casee
  have h13 := h .branch
  have h14 := h .fnLiteral
  have h15 := h .application
  simp only [Kind.tag] at h1 h2 h3 h4 h5 h6 h7 h8 h9 h10 h11 h12 h13 h14 h15
  rw [prettyPrint]
  simp [returnIf, isSimpleIdentifier, isQualifiedIdentifier, isImport, isModuleLiteral,
    isModuleBinding, isTypeBinding, isADT, isSummand, isFnType, isExpressionBinding,
    isProjection, isCase, isBranch, isFnLiteral, isApplication,
    h1, h2, h3, h4, h5, h6, h7, h8, h9, h10, h11, h12, h13, h14, h15]

/-- A string passed to `prettyPrint` is not a node: the call raises `invalid node`. -/
theorem prettyPrint_str (s : String) (indentation : Nat) :
    prettyPrint (.str s) indentation = .error (.error "invalid node") := by
  have hget : (Val.str s).get "node" = .ok .undefined := rfl
  exact prettyPrint_of_unknown hget (by intro k; simp) indentation

theorem mapItems_eq_mapAll (items : List Val) (g : Val → Except JSError Val) :
    mapItems items (fun x _ => g x) = mapAll g items := by
  induction items with
  | nil => rfl
  | cons x xs ih => simp only [mapItems, mapAll, ih]

theorem Val.map_arr (items : List Val) (g : Val → Except JSError Val) :
    (Val.arr items).map (fun x _ => g x) = mapAll g items := by
  simp only [Val.map]
  exact mapItems_eq_mapAll items g

@[simp] theorem Except.bind_ok_eq {α β : Type} (a : α) (f : α → Except JSError β) :
    (Except.ok a : Except JSError α).bind f = f a := rfl

@[simp] theorem Except.bind_error_eq {α β : Type} (e : JSError) (f : α → Except JSError β) :
    (Except.error e : Except JSError α).bind f = .error e := rfl

theorem prettyPrint_simpleIdentifier (name : Val) (indentation : Nat) :
    prettyPrint (simpleIdentifier name) indentation = .ok name := by
  have htag : (simpleIdentifier name).get "node" = .ok (.str Kind.simpleIdentifier.tag) := rfl
  rw [prettyPrint_of_tag .simpleIdentifier htag]
  rfl

theorem prettyPrint_qualifiedIdentifier (outer inner : Val) (indentation : Nat) :
    prettyPrint (qualifiedIdentifier outer inner) indentation =
      (prettyPrint outer indentation).bind fun outerText =>
      outerText.toStr.bind fun left =>
      inner.toStr.bind fun right =>
      .ok (.str (left ++ "::" ++ right)) := by
  have htag : (qualifiedIdentifier outer inner).get "node" =
      .ok (.str Kind.qualifiedIdentifier.tag) := rfl
  rw [prettyPrint_of_tag .qualifiedIdentifier htag]
  simp only [Kind.print]
  rw [ppQualifiedIdentifier]
  simp [qualifiedIdentifier, Val.get, List.lookup]

theorem prettyPrint_moduleBinding (isPublic name module : Val) (indentation : Nat) :
    prettyPrint (moduleBinding isPublic name module) indentation =
      name.toStr.bind fun nameText =>
      (prettyPrint module indentation).bind fun value =>
      value.toStr.bind fun valueText =>
      .ok (.str ((if isPublic.truthy then "public " else "") ++ "module " ++ nameText ++
        " = " ++ valueText)) := by
  have htag : (moduleBinding isPublic name module).get "node" =
      .ok (.str Kind.moduleBinding.tag) := rfl
  rw [prettyPrint_of_tag .moduleBinding htag]
  simp only [Kind.print]
  rw [ppModuleBinding]
  simp [moduleBinding, Val.get, List.lookup]

theorem prettyPrint_typeBinding (isPublic name type : Val) (indentation : Nat) :
    prettyPrint (typeBinding isPublic name type) indentation =
      name.toStr.bind fun nameText =>
      (prettyPrint type indentation).bind fun value =>
      value.toStr.bind fun valueText =>
      .ok (.str ((if isPublic.truthy then "public " else "") ++ "type " ++ nameText ++
        " = " ++ valueText)) := by
  have htag : (typeBinding isPublic name type).get "node" =
      .ok (.str Kind.typeBinding.tag) := rfl
  rw [prettyPrint_of_tag .typeBinding htag]
  simp only [Kind.print]
  rw [ppTypeBinding]
  simp [typeBinding, Val.get, List.lookup]

theorem prettyPrint_expressionBinding (isPublic name expression : Val) (indentation : Nat) :
    prettyPrint (expressionBinding isPublic name expression) indentation =
      name.toStr.bind fun nameText =>
      (prettyPrint expression indentation).bind fun value =>
      value.toStr.bind fun valueText =>
      .ok (.str ((if isPublic.truthy then "public " else "") ++ "type " ++ nameText ++
        " = " ++ valueText)) := by
  have htag : (expressionBinding isPublic name expression).get "node" =
      .ok (.str Kind.expressionBinding.tag) := rfl
  rw [prettyPrint_of_tag .expressionBinding htag]
  simp only [Kind.print]
  rw [ppExpressionBinding]
  simp [expressionBinding, Val.get, List.lookup]

theorem Val.greaterThanZero_length (items : List Val) :
    (Val.num (items.length : Nat)).greaterThanZero = .ok (decide (0 < items.length)) := by
  simp [Val.greaterThanZero]

theorem indent_str (amount : Nat) (text : String) :
    indent amount (.str text) = .ok (spaces amount ++ text) := rfl

theorem indent_empty (amount : Nat) : indent amount (.str "") = .ok (spaces amount) := by
  rw [indent_str]; simp

theorem prettyPrint_moduleLiteral (entries : List Val) (indentation : Nat) :
    prettyPrint (moduleLiteral (.arr entries)) indentation =
      if 0 < entries.length then
        (mapAll (fun entry =>
          (prettyPrint entry (indentation + 2)).bind fun text =>
          (indent (indentation + 2) text).bind fun line =>
          .ok (.str (line ++ ";\n"))) entries).bind fun lines =>
        (Val.joinWith "\n" lines).bind fun body =>
        .ok (.str ("\x7b\n" ++ body ++ spaces indentation ++ "\x7d\n"))
      else .ok (.str "\x7b\n\x7d\n") := by
  have htag : (moduleLiteral (.arr entries)).get "node" =
      .ok (.str Kind.moduleLiteral.tag) := rfl
  rw [prettyPrint_of_tag .moduleLiteral htag]
  simp only [Kind.print]
  rw [ppModuleLiteral]
  simp only [moduleLiteral, Val.get, List.lookup]
  simp [Val.length, Val.greaterThanZero, Val.map_arr, indent_empty]

theorem prettyPrint_adt (summands : List Val) (indentation : Nat) :
    prettyPrint (adt (.arr summands)) indentation =
      if 0 < summands.length then
        (mapAll (fun summand =>
          (ppSummand summand (indentation + 2)).bind fun text =>
          (indent (indentation + 2) text).bind fun line =>
          .ok (.str (line ++ ",\n"))) summands).bind fun lines =>
        (Val.joinWith "\n" lines).bind fun body =>
        .ok (.str ("\x7b\n" ++ body ++ spaces indentation ++ "\x7d\n"))
      else .ok (.str "\x7b\n\x7d\n") := by
  have htag : (adt (.arr summands)).get "node" = .ok (.str Kind.adt.tag) := rfl
  rw [prettyPrint_of_tag .adt htag]
  simp only [Kind.print]
  rw [ppADT]
  simp only [adt, Val.get, List.lookup]
  simp [Val.length, Val.greaterThanZero, Val.map_arr, indent_empty]

theorem prettyPrint_casee (branches : List Val) (indentation : Nat) :
    prettyPrint (casee (.arr branches)) indentation =
      if 0 < branches.length then
        (mapAll (fun branch =>
          (ppBranch branch (indentation + 2)).bind fun text =>
          (indent (indentation + 2) text).bind fun line =>
          .ok (.str (line ++ ",\n"))) branches).bind fun lines =>
        (Val.joinWith "\n" lines).bind fun body =>
        .ok (.str ("\x7b\n" ++ body ++ spaces indentation ++ "\x7d\n"))
      else .ok (.str "\x7b\n\x7d\n") := by
  have htag : (casee (.arr branches)).get "node" = .ok (.str Kind.casee.tag) := rfl
  rw [prettyPrint_of_tag .casee htag]
  simp only [Kind.print]
  rw [ppCase]
  simp only [casee, Val.get, List.lookup]
  simp [Val.length, Val.greaterThanZero, Val.map_arr, indent_empty]

/-- A summand built by `summand` has no property `product`, so `ppSummand` throws
as soon as it has converted the tag. -/
theorem ppSummand_summand (tag products : Val) (indentation : Nat) :
    ppSummand (summand tag products) indentation =
      tag.toStr.bind fun _ => .error .typeError := by
  rw [ppSummand]
  simp [summand, Val.get, List.lookup, Val.length]

theorem ppBranch_branch (tag body : Val) (boundNames : List Val) (indentation : Nat) :
    ppBranch (branch tag (.arr boundNames) body) indentation =
      if 0 < boundNames.length then
        tag.toStr.bind fun tagText =>
        (mapAll (fun boundName => prettyPrint boundName indentation) boundNames).bind
          fun texts =>
        (Val.joinWith ", " texts).bind fun joined =>
        .ok (.str (tagText ++ "(" ++ joined ++ ")"))
      else .ok tag := by
  rw [ppBranch]
  simp only [branch, Val.get, List.lookup]
  simp [Val.length, Val.greaterThanZero, Val.map_arr]

theorem prettyPrint_fnLiteral (args : List Val) (body : Val) (indentation : Nat) :
    prettyPrint (fnLiteral (.arr args) body) indentation =
      (mapAll (fun arg => prettyPrint arg indentation) args).bind fun texts =>
      (Val.joinWith ", " texts).bind fun joined =>
      (prettyPrint body (indentation + 2)).bind fun value =>
      (indent (indentation + 2) value).bind fun bodyText =>
      .ok (.str ("(" ++ joined ++ ") -> \x7b\n" ++ bodyText ++
        (spaces indentation ++ "\x7d\n"))) := by
  have htag : (fnLiteral (.arr args) body).get "node" = .ok (.str Kind.fnLiteral.tag) := rfl
  rw [prettyPrint_of_tag .fnLiteral htag]
  simp only [Kind.print]
  rw [ppFnLiteral]
  simp only [fnLiteral, Val.get, List.lookup]
  simp [Val.map_arr, indent_str]

theorem prettyPrint_application (fn : Val) (args : List Val) (indentation : Nat) :
    prettyPrint (application fn (.arr args)) indentation =
      (prettyPrint fn indentation).bind fun value =>
      value.toStr.bind fun fnText =>
      (mapAll (fun arg => prettyPrint arg indentation) args).bind fun texts =>
      (Val.joinWith ", " texts).bind fun joined =>
      .ok (.str (fnText ++ "(" ++ joined ++ ")")) := by
  have htag : (application fn (.arr args)).get "node" = .ok (.str Kind.application.tag) := rfl
  rw [prettyPrint_of_tag .application htag]
  simp only [Kind.print]
  rw [ppApplication]
  simp only [application, Val.get, List.lookup]
  simp [Val.map_arr]

theorem Val.joinWith_strs (sep : String) (texts : List String) :
    Val.joinWith sep (texts.map Val.str) = .ok (joinTexts sep texts) := by
  induction texts with
  | nil => rfl
  | cons t rest ih =>
    cases rest with
    | nil => simp [Val.joinWith, joinTexts, Val.toStr]
    | cons u rest2 =>
      simp only [List.map] at ih ⊢
      simp [Val.joinWith, joinTexts, Val.toStr, ih]

theorem mapAll_of_forall₂ {g : Val → Except JSError Val} {items results : List Val}
    (h : List.Forall₂ (fun x y => g x = .ok y) items results) :
    mapAll g items = .ok results := by
  induction h with
  | nil => rfl
  | cons hx _ ih => simp [mapAll, hx, ih]

theorem mapAll_error_of_head {g : Val → Except JSError Val} {x : Val} {e : JSError}
    (items : List Val) (h : g x = .error e) : mapAll g (x :: items) = .error e := by
  simp [mapAll, h]

/-! ## Claims on the printer -/

/-- C16 (the source departs from the claim): on three valid trees `prettyPrint`
raises an error instead of returning a text. On the ADT with the one summand `A`
it throws a `TypeError`, because `ppSummand` reads `node.product`; on a case
whose branch binds the name `x` and on a function literal with the argument `x`
it raises `invalid node`, because the name is passed to `prettyPrint`. -/
theorem prettyPrint_raises_on_valid_trees :
    (ValidTree (adt (.arr [summand (.str "A") (.arr [])])) ∧
      prettyPrint (adt (.arr [summand (.str "A") (.arr [])])) 0 = .error .typeError) ∧
    (ValidTree (casee (.arr [branch (.str "A") (.arr [.str "x"])
        (simpleIdentifier (.str "y"))])) ∧
      prettyPrint (casee (.arr [branch (.str "A") (.arr [.str "x"])
        (simpleIdentifier (.str "y"))])) 0 = .error (.error "invalid node")) ∧
    (ValidTree (fnLiteral (.arr [.str "x"]) (simpleIdentifier (.str "y"))) ∧
      prettyPrint (fnLiteral (.arr [.str "x"]) (simpleIdentifier (.str "y"))) 0 =
        .error (.error "invalid node")) := by
  refine ⟨⟨⟨.type, ?_⟩, ?_⟩, ⟨⟨.expression, ?_⟩, ?_⟩, ⟨⟨.expression, ?_⟩, ?_⟩⟩
  · refine WellFormed.adt ?_ (by simp)
    intro s hs
    simp only [List.mem_singleton] at hs
    subst hs
    exact WellFormed.summand "A" (by intro p hp; simp at hp)
  · rw [prettyPrint_adt]
    simp [mapAll, ppSummand_summand, Val.toStr]
  · refine WellFormed.casee ?_
    intro b hb
    simp only [List.mem_singleton] at hb
    subst hb
    exact WellFormed.branch "A" ["x"]
      (WellFormed.expressionIdentifier (WellFormed.simpleIdentifier "y"))
  · rw [prettyPrint_casee]
    simp [mapAll, ppBranch_branch, Val.toStr, prettyPrint_str]
  · exact WellFormed.fnLiteral ["x"]
      (WellFormed.expressionIdentifier (WellFormed.simpleIdentifier "y"))
  · rw [prettyPrint_fnLiteral]
    simp [mapAll, prettyPrint_str]

/-- C17 (the source departs from the claim): the expression binding and the type
binding of the name `x` to the identifier `y` print the same text `type x = y`:
`ppExpressionBinding` writes the keyword `type`. -/
theorem prettyPrint_expressionBinding_keyword :
    prettyPrint (expressionBinding (.bool false) (.str "x") (simpleIdentifier (.str "y"))) 0 =
      .ok (.str "type x = y") ∧
    prettyPrint (typeBinding (.bool false) (.str "x") (simpleIdentifier (.str "y"))) 0 =
      .ok (.str "type x = y") := by
  constructor
  · rw [prettyPrint_expressionBinding, prettyPrint_simpleIdentifier]
    simp [Val.toStr, Val.truthy]
  · rw [prettyPrint_typeBinding, prettyPrint_simpleIdentifier]
    simp [Val.toStr, Val.truthy]

theorem mapAll_lines {g : Val → Except JSError Val} {items : List Val} {texts : List String}
    (indentation : Nat) (terminator : String)
    (h : List.Forall₂ (fun x t => g x = .ok (.str t)) items texts) :
    mapAll (fun x =>
        (g x).bind fun text =>
        (indent indentation text).bind fun line =>
        .ok (.str (line ++ terminator))) items =
      .ok ((texts.map fun t => spaces indentation ++ t ++ terminator).map Val.str) := by
  apply mapAll_of_forall₂
  induction h with
  | nil => exact List.Forall₂.nil
  | cons hx _ ih =>
    refine List.Forall₂.cons ?_ ih
    simp [hx, indent_str]

/-- C18, counterexample: the module literal with the two entries `module a = x`
and `module b = y`, each of which renders as one line, prints at indentation 0
as a text of five lines, not four, with an empty line between the entries. -/
theorem prettyPrint_moduleLiteral_blank_line :
    prettyPrint (moduleBinding (.bool false) (.str "a") (simpleIdentifier (.str "x"))) 2 =
      .ok (.str "module a = x") ∧
    prettyPrint (moduleBinding (.bool false) (.str "b") (simpleIdentifier (.str "y"))) 2 =
      .ok (.str "module b = y") ∧
    prettyPrint (moduleLiteral (.arr
        [moduleBinding (.bool false) (.str "a") (simpleIdentifier (.str "x")),
          moduleBinding (.bool false) (.str "b") (simpleIdentifier (.str "y"))])) 0 =
      .ok (.str "\x7b\n  module a = x;\n\n  module b = y;\n\x7d\n") ∧
    lineCount "\x7b\n  module a = x;\n\n  module b = y;\n\x7d\n" = 5 := by
  have ha : prettyPrint (moduleBinding (.bool false) (.str "a")
      (simpleIdentifier (.str "x"))) 2 = .ok (.str "module a = x") := by
    rw [prettyPrint_moduleBinding, prettyPrint_simpleIdentifier]
    simp [Val.toStr, Val.truthy]
  have hb : prettyPrint (moduleBinding (.bool false) (.str "b")
      (simpleIdentifier (.str "y"))) 2 = .ok (.str "module b = y") := by
    rw [prettyPrint_moduleBinding, prettyPrint_simpleIdentifier]
    simp [Val.toStr, Val.truthy]
  refine ⟨ha, hb, ?_, by decide⟩
  rw [prettyPrint_moduleLiteral]
  simp [mapAll, ha, hb, indent_str, Val.joinWith, Val.toStr, spaces]

/-- C18, amended: when the entries of a module literal with at least one entry
render at indentation `i + 2` as the texts `t₁ … tₙ`, the module literal prints
at indentation `i` as the block `blockText i ";"` of these texts: the line of the
opening brace; for each entry, in the order of the entries, one line of `i + 2`
spaces, the rendering and `;`, with one empty line between two entries; and the
line of `i` spaces and the closing brace. The branches of a case that render
print as the same block with `,` in place of `;`. -/
theorem prettyPrint_block_layout (indentation : Nat) (items : List Val)
    (texts : List String) (hne : items ≠ []) :
    (List.Forall₂ (fun entry t => prettyPrint entry (indentation + 2) = .ok (.str t))
        items texts →
      prettyPrint (moduleLiteral (.arr items)) indentation =
        .ok (.str (blockText indentation ";" texts))) ∧
    (List.Forall₂ (fun branch t => ppBranch branch (indentation + 2) = .ok (.str t))
        items texts →
      prettyPrint (casee (.arr items)) indentation =
        .ok (.str (blockText indentation "," texts))) := by
  constructor
  · intro h
    rw [prettyPrint_moduleLiteral]
    cases h with
    | nil => exact absurd rfl hne
    | @cons x t xs ts hx hrest =>
      have hall := mapAll_lines (indentation + 2) ";\n" (List.Forall₂.cons hx hrest)
      simp only [List.length_cons, Nat.zero_lt_succ, if_true]
      rw [hall, Except.bind_ok_eq, Val.joinWith_strs, Except.bind_ok_eq]
      simp [blockText, String.append_assoc]
  · intro h
    rw [prettyPrint_casee]
    cases h with
    | nil => exact absurd rfl hne
    | @cons x t xs ts hx hrest =>
      have hall := mapAll_lines (indentation + 2) ",\n" (List.Forall₂.cons hx hrest)
      simp only [List.length_cons, Nat.zero_lt_succ, if_true]
      rw [hall, Except.bind_ok_eq, Val.joinWith_strs, Except.bind_ok_eq]
      simp [blockText, String.append_assoc]

/-- Witness for C18: a module literal with a module binding and a public type
binding at indentation 1, and a case with the two branches `A` and `B`. -/
theorem prettyPrint_block_layout_witness :
    prettyPrint (moduleLiteral (.arr
        [moduleBinding (.bool false) (.str "a") (simpleIdentifier (.str "x")),
          typeBinding (.bool true) (.str "t") (simpleIdentifier (.str "y"))])) 1 =
      .ok (.str "\x7b\n   module a = x;\n\n   public type t = y;\n \x7d\n") ∧
    prettyPrint (casee (.arr
        [branch (.str "A") (.arr []) (simpleIdentifier (.str "x")),
          branch (.str "B") (.arr []) (simpleIdentifier (.str "y"))])) 0 =
      .ok (.str "\x7b\n  A,\n\n  B,\n\x7d\n") :=
  ⟨(prettyPrint_block_layout 1 _ ["module a = x", "public type t = y"] (by simp)).1
      (List.Forall₂.cons
        (by rw [prettyPrint_moduleBinding, prettyPrint_simpleIdentifier]
            simp [Val.toStr, Val.truthy])
        (List.Forall₂.cons
          (by rw [prettyPrint_typeBinding, prettyPrint_simpleIdentifier]
              simp [Val.toStr, Val.truthy])
          List.Forall₂.nil)),
    (prettyPrint_block_layout 0 _ ["A", "B"] (by simp)).2
      (List.Forall₂.cons (by rw [ppBranch_branch]; simp)
        (List.Forall₂.cons (by rw [ppBranch_branch]; simp) List.Forall₂.nil))⟩

/-! ## Texts as lists of characters -/

theorem split_at_stop {p : Char → Bool} {a b x y : List Char}
    (ha : ∀ c ∈ a, p c = true) (hb : ∀ c ∈ b, p c = true)
    (hx : ∀ c, x.head? = some c → p c = false) (hy : ∀ c, y.head? = some c → p c = false)
    (h : a ++ x = b ++ y) : a = b ∧ x = y := by
  induction a generalizing b with
  | nil =>
    cases b with
    | nil => exact ⟨rfl, by simpa using h⟩
    | cons c b =>
      exfalso
      simp only [List.nil_append, List.cons_append] at h
      have h1 := hx c (by rw [h]; rfl)
      have h2 := hb c (by simp)
      rw [h1] at h2
      exact Bool.noConfusion h2
  | cons c a ih =>
    cases b with
    | nil =>
      exfalso
      simp only [List.nil_append, List.cons_append] at h
      have h1 := hy c (by rw [← h]; rfl)
      have h2 := ha c (by simp)
      rw [h1] at h2
      exact Bool.noConfusion h2
    | cons d b =>
      simp only [List.cons_append, List.cons.injEq] at h
      obtain ⟨hcd, hrest⟩ := h
      obtain ⟨h1, h2⟩ :=
        ih (fun c hc => ha c (by simp [hc])) (fun c hc => hb c (by simp [hc])) hrest
      exact ⟨by rw [hcd, h1], h2⟩

theorem joinTexts_cons (sep t : String) (rest : List String) :
    (joinTexts sep (t :: rest)).data =
      t.data ++ (rest.map fun u => sep.data ++ u.data).flatten := by
  induction rest generalizing t with
  | nil => simp [joinTexts]
  | cons u rest ih => simp [joinTexts, ih]

theorem headTexts_snoc (sep t : List Char) (xs : List (List Char)) :
    headTexts sep (xs ++ [t]) = (xs.map fun x => x ++ sep).flatten ++ t := by
  induction xs with
  | nil => simp [headTexts, tailTexts]
  | cons x xs ih =>
    have htail : tailTexts sep (xs ++ [t]) = sep ++ headTexts sep (xs ++ [t]) := by
      cases xs with
      | nil => simp [headTexts, tailTexts]
      | cons y ys => simp [headTexts, tailTexts]
    show x ++ tailTexts sep (xs ++ [t]) = _
    rw [htail, ih]
    simp

theorem joinTexts_reverse (sep : String) (texts : List String) :
    (joinTexts sep texts).data.reverse =
      headTexts sep.data.reverse (texts.reverse.map fun t => t.data.reverse) := by
  cases texts with
  | nil => rfl
  | cons t rest =>
    rw [joinTexts_cons, List.reverse_cons, List.map_append, List.map_cons, List.map_nil,
      headTexts_snoc, List.reverse_append, List.reverse_flatten]
    congr 2
    simp [List.map_reverse, Function.comp_def]

theorem isWord_data {s : String} (h : isWord s = true) :
    s.data ≠ [] ∧ ∀ c ∈ s.data, c.isAlphanum = true := by
  simp only [isWord, Bool.and_eq_true, Bool.not_eq_true', List.all_eq_true] at h
  refine ⟨?_, h.2⟩
  intro hnil
  rw [hnil] at h
  simp at h

theorem isWord_reverse {s : String} (h : isWord s = true) :
    ∀ c ∈ s.data.reverse, c.isAlphanum = true := by
  intro c hc
  exact (isWord_data h).2 c (List.mem_reverse.mp hc)

theorem rightEnd_of_word {s : String} (h : isWord s = true) (x : List Char) :
    RightEnd (s.data.reverse ++ x) := by
  obtain ⟨hne, hall⟩ := isWord_data h
  cases hr : s.data.reverse with
  | nil => exact absurd (List.reverse_eq_nil_iff.mp hr) hne
  | cons c rest =>
    refine ⟨c, rest ++ x, rfl, Or.inl ?_⟩
    exact hall c (List.mem_reverse.mp (by rw [hr]; simp))

theorem stop_not_alnum {l : List Char} (h : Stop l) :
    ∀ c, l.head? = some c → c.isAlphanum = false := by
  intro c hc
  rcases h c hc with rfl | rfl <;> decide

theorem stop_not_rightEnd {l : List Char} (h : Stop l) (hr : RightEnd l) : False := by
  obtain ⟨c, rest, rfl, hc⟩ := hr
  rcases h c rfl with h1 | h1 <;> subst h1 <;> rcases hc with h2 | h2 <;>
    revert h2 <;> decide

theorem stop_paren (x : List Char) : Stop ('(' :: x) := by
  intro c hc
  simp only [List.head?_cons, Option.some.injEq] at hc
  exact Or.inl hc.symm

theorem stop_nil : Stop [] := by
  intro c hc
  simp at hc

theorem stop_tailTexts (texts : List (List Char)) (x : List Char) :
    Stop (tailTexts [' ', ','] texts ++ '(' :: x) := by
  cases texts with
  | nil => exact stop_paren x
  | cons t rest =>
    intro c hc
    simp only [tailTexts, List.cons_append, List.head?_cons, Option.some.injEq] at hc
    exact Or.inr hc.symm

/-! ## The printed form of the fragment -/

theorem forall₂_of_forall_exists {α β : Type} {R : α → β → Prop} (xs : List α)
    (h : ∀ x ∈ xs, ∃ y, R x y) : ∃ ys, List.Forall₂ R xs ys := by
  induction xs with
  | nil => exact ⟨[], List.Forall₂.nil⟩
  | cons x xs ih =>
    obtain ⟨y, hy⟩ := h x (by simp)
    obtain ⟨ys, hys⟩ := ih (fun z hz => h z (by simp [hz]))
    exact ⟨y :: ys, List.Forall₂.cons hy hys⟩

theorem mapAll_texts {g : Val → Except JSError Val} {items : List Val} {texts : List String}
    (h : List.Forall₂ (fun x t => g x = .ok (.str t)) items texts) :
    mapAll g items = .ok (texts.map Val.str) := by
  apply mapAll_of_forall₂
  induction h with
  | nil => exact List.Forall₂.nil
  | cons hx _ ih => exact List.Forall₂.cons hx ih

theorem prettyPrint_qualified_text {outer : Val} {left : String} (inner : String)
    (indentation : Nat) (h : prettyPrint outer indentation = .ok (.str left)) :
    prettyPrint (qualifiedIdentifier outer (.str inner)) indentation =
      .ok (.str (left ++ "::" ++ inner)) := by
  rw [prettyPrint_qualifiedIdentifier, h]
  simp [Val.toStr]

theorem prettyPrint_application_text {fn : Val} {args : List Val} {fnText : String}
    {texts : List String} (indentation : Nat)
    (hfn : prettyPrint fn indentation = .ok (.str fnText))
    (hargs : List.Forall₂ (fun arg t => prettyPrint arg indentation = .ok (.str t)) args texts) :
    prettyPrint (application fn (.arr args)) indentation =
      .ok (.str (fnText ++ "(" ++ joinTexts ", " texts ++ ")")) := by
  rw [prettyPrint_application, hfn, mapAll_texts hargs]
  simp [Val.toStr, Val.joinWith_strs]

theorem spine_of_identifier {v : Val} (h : WordIdentifier v) : Spine v := by
  induction h with
  | simple name hname => exact Spine.simple name hname
  | qualified outer inner _ hinner ih => exact Spine.qualified outer inner ih hinner

theorem spine_of_expression {v : Val} (h : WordExpression v) : Spine v := by
  induction h with
  | identifier node hnode => exact spine_of_identifier hnode
  | applied fn args _ _ ihfn ihargs => exact Spine.applied fn args ihfn ihargs

theorem spine_total {v : Val} (h : Spine v) (i : Nat) :
    ∃ t : String, prettyPrint v i = .ok (.str t) ∧ RightEnd t.data.reverse := by
  induction h with
  | simple name hname =>
    refine ⟨name, prettyPrint_simpleIdentifier _ _, ?_⟩
    simpa using rightEnd_of_word hname []
  | qualified outer inner _ hinner ih =>
    obtain ⟨left, hleft, _⟩ := ih
    refine ⟨left ++ "::" ++ inner, prettyPrint_qualified_text inner i hleft, ?_⟩
    simp only [String.data_append, List.reverse_append]
    exact rightEnd_of_word hinner _
  | applied fn args _ _ ihfn ihargs =>
    obtain ⟨fnText, hfn, _⟩ := ihfn
    obtain ⟨texts, htexts⟩ := forall₂_of_forall_exists args ihargs
    refine ⟨fnText ++ "(" ++ joinTexts ", " texts ++ ")",
      prettyPrint_application_text i hfn (htexts.imp fun _ _ hx => hx.1), ?_⟩
    simp only [String.data_append, List.reverse_append]
    exact ⟨')', _, rfl, Or.inr rfl⟩

theorem spine_texts {args : List Val} (h : ∀ arg ∈ args, Spine arg) (i : Nat) :
    ∃ texts : List String,
      List.Forall₂ (fun arg t => prettyPrint arg i = .ok (.str t) ∧ RightEnd t.data.reverse)
        args texts :=
  forall₂_of_forall_exists args fun arg harg => spine_total (h arg harg) i

theorem rtext_qualified {outer : Val} {inner t : String} {i : Nat} (ho : Spine outer)
    (h : prettyPrint (qualifiedIdentifier outer (.str inner)) i = .ok (.str t)) :
    ∃ left, prettyPrint outer i = .ok (.str left) ∧
      t.data.reverse = inner.data.reverse ++ ':' :: ':' :: left.data.reverse := by
  obtain ⟨left, hleft, _⟩ := spine_total ho i
  rw [prettyPrint_qualified_text inner i hleft] at h
  simp only [Except.ok.injEq, Val.str.injEq] at h
  subst h
  refine ⟨left, hleft, ?_⟩
  simp only [String.data_append, List.reverse_append]
  simp

theorem rtext_application {fn : Val} {args : List Val} {t : String} {i : Nat}
    (hfn : Spine fn) (hargs : ∀ arg ∈ args, Spine arg)
    (h : prettyPrint (application fn (.arr args)) i = .ok (.str t)) :
    ∃ (fnText : String) (texts : List String),
      prettyPrint fn i = .ok (.str fnText) ∧
      List.Forall₂ (fun arg t => prettyPrint arg i = .ok (.str t) ∧ RightEnd t.data.reverse)
        args.reverse texts ∧
      t.data.reverse =
        ')' :: (headTexts [' ', ','] (texts.map fun t => t.data.reverse) ++
          '(' :: fnText.data.reverse) := by
  obtain ⟨fnText, hfnText, _⟩ := spine_total hfn i
  obtain ⟨texts, htexts⟩ := spine_texts hargs i
  rw [prettyPrint_application_text i hfnText (htexts.imp fun _ _ hx => hx.1)] at h
  simp only [Except.ok.injEq, Val.str.injEq] at h
  subst h
  refine ⟨fnText, texts.reverse, hfnText, List.rel_reverse htexts, ?_⟩
  simp only [String.data_append, List.reverse_append, joinTexts_reverse]
  simp

/-! ## Reading an expression back from its text -/

theorem args_tail_inj {i j : Nat} {ra rb : List Val} {ta tb : List String}
    (hF : List.Forall₂ (fun arg t => prettyPrint arg i = .ok (.str t) ∧
      RightEnd t.data.reverse) ra ta)
    (hG : List.Forall₂ (fun arg t => prettyPrint arg j = .ok (.str t) ∧
      RightEnd t.data.reverse) rb tb)
    (hQ : ∀ a ∈ ra, ReadsBack i j a) (hS : ∀ b ∈ rb, Spine b) {x y : List Char}
    (h : tailTexts [' ', ','] (ta.map fun t => t.data.reverse) ++ '(' :: x =
      tailTexts [' ', ','] (tb.map fun t => t.data.reverse) ++ '(' :: y) :
    ra = rb ∧ x = y := by
  induction hF generalizing rb tb with
  | nil =>
    cases hG with
    | nil => exact ⟨rfl, by simpa [tailTexts] using h⟩
    | cons hb hrest =>
      exfalso
      simp [tailTexts] at h
  | @cons a t ra ta ha hrest ih =>
    cases hG with
    | nil =>
      exfalso
      simp [tailTexts] at h
    | @cons b u rb tb hb hrest2 =>
      simp only [List.map_cons, tailTexts, List.cons_append, List.nil_append,
        List.append_assoc, List.cons.injEq, true_and] at h
      obtain ⟨hab, hl⟩ := hQ a (by simp) b (hS b (by simp)) t u _ _ ha.1 hb.1
        (stop_tailTexts _ _) (stop_tailTexts _ _) h
      obtain ⟨hr, hxy⟩ := ih hrest2 (fun c hc => hQ c (by simp [hc]))
        (fun c hc => hS c (by simp [hc])) hl
      exact ⟨by rw [hab, hr], hxy⟩

theorem args_inj {i j : Nat} {ra rb : List Val} {ta tb : List String}
    (hF : List.Forall₂ (fun arg t => prettyPrint arg i = .ok (.str t) ∧
      RightEnd t.data.reverse) ra ta)
    (hG : List.Forall₂ (fun arg t => prettyPrint arg j = .ok (.str t) ∧
      RightEnd t.data.reverse) rb tb)
    (hQ : ∀ a ∈ ra, ReadsBack i j a) (hS : ∀ b ∈ rb, Spine b) {x y : List Char}
    (h : headTexts [' ', ','] (ta.map fun t => t.data.reverse) ++ '(' :: x =
      headTexts [' ', ','] (tb.map fun t => t.data.reverse) ++ '(' :: y) :
    ra = rb ∧ x = y := by
  cases hF with
  | nil =>
    cases hG with
    | nil => exact ⟨rfl, by simpa [headTexts] using h⟩
    | @cons b u rb tb hb hrest2 =>
      exfalso
      simp only [List.map_nil, headTexts, List.nil_append, List.map_cons,
        List.append_assoc] at h
      obtain ⟨c, rest, hc, hrc⟩ := hb.2
      rw [hc] at h
      exact stop_not_rightEnd (stop_paren x) ⟨c, _, h, hrc⟩
  | @cons a t ra ta ha hrest =>
    cases hG with
    | nil =>
      exfalso
      simp only [List.map_nil, headTexts, List.nil_append, List.map_cons,
        List.append_assoc] at h
      obtain ⟨c, rest, hc, hrc⟩ := ha.2
      rw [hc] at h
      exact stop_not_rightEnd (stop_paren y) ⟨c, _, h.symm, hrc⟩
    | @cons b u rb tb hb hrest2 =>
      simp only [List.map_cons, headTexts, List.append_assoc] at h
      obtain ⟨hab, hl⟩ := hQ a (by simp) b (hS b (by simp)) t u _ _ ha.1 hb.1
        (stop_tailTexts _ _) (stop_tailTexts _ _) h
      obtain ⟨hr, hxy⟩ := args_tail_inj hrest hrest2 (fun c hc => hQ c (by simp [hc]))
        (fun c hc => hS c (by simp [hc])) hl
      exact ⟨by rw [hab, hr], hxy⟩

theorem colon_not_alnum (x : List Char) :
    ∀ c, (':' :: x).head? = some c → c.isAlphanum = false := by
  intro c hc
  simp only [List.head?_cons, Option.some.injEq] at hc
  subst hc
  decide

theorem not_stop_colon (x : List Char) : ¬ Stop (':' :: x) := by
  intro h
  rcases h ':' rfl with h1 | h1 <;> revert h1 <;> decide

theorem word_ne_paren {s : String} (h : isWord s = true) (x y : List Char) :
    s.data.reverse ++ x ≠ ')' :: y := by
  intro heq
  obtain ⟨hne, hall⟩ := isWord_data h
  cases hr : s.data.reverse with
  | nil => exact absurd (List.reverse_eq_nil_iff.mp hr) hne
  | cons c rest =>
    rw [hr] at heq
    simp only [List.cons_append, List.cons.injEq] at heq
    have hc := hall c (List.mem_reverse.mp (by rw [hr]; simp))
    rw [heq.1] at hc
    revert hc
    decide

theorem string_eq_of_reverse {s t : String} (h : s.data.reverse = t.data.reverse) : s = t := by
  have := List.reverse_injective h
  exact String.ext this

theorem spine_readsBack {v : Val} (hv : Spine v) (i j : Nat) : ReadsBack i j v := by
  induction hv with
  | simple name hname =>
    intro w hw t u l k ht hu hl hk h
    rw [prettyPrint_simpleIdentifier] at ht
    simp only [Except.ok.injEq, Val.str.injEq] at ht
    subst ht
    cases hw with
    | simple name2 hname2 =>
      rw [prettyPrint_simpleIdentifier] at hu
      simp only [Except.ok.injEq, Val.str.injEq] at hu
      subst hu
      obtain ⟨h1, h2⟩ := split_at_stop (isWord_reverse hname) (isWord_reverse hname2)
        (stop_not_alnum hl) (stop_not_alnum hk) h
      exact ⟨by rw [string_eq_of_reverse h1], h2⟩
    | qualified outer2 inner2 ho2 hi2 =>
      exfalso
      obtain ⟨left2, _, hu2⟩ := rtext_qualified ho2 hu
      rw [hu2, List.append_assoc] at h
      obtain ⟨_, h2⟩ := split_at_stop (isWord_reverse hname) (isWord_reverse hi2)
        (stop_not_alnum hl) (colon_not_alnum _) h
      rw [h2] at hl
      exact not_stop_colon _ hl
    | applied fn2 args2 hfn2 hargs2 =>
      exfalso
      obtain ⟨_, _, _, _, hu2⟩ := rtext_application hfn2 hargs2 hu
      rw [hu2] at h
      exact word_ne_paren hname _ _ h
  | qualified outer inner ho hi ih =>
    intro w hw t u l k ht hu hl hk h
    obtain ⟨left, hleft, ht2⟩ := rtext_qualified ho ht
    rw [ht2, List.append_assoc] at h
    cases hw with
    | simple name2 hname2 =>
      exfalso
      rw [prettyPrint_simpleIdentifier] at hu
      simp only [Except.ok.injEq, Val.str.injEq] at hu
      subst hu
      obtain ⟨_, h2⟩ := split_at_stop (isWord_reverse hi) (isWord_reverse hname2)
        (colon_not_alnum _) (stop_not_alnum hk) h
      rw [← h2] at hk
      exact not_stop_colon _ hk
    | qualified outer2 inner2 ho2 hi2 =>
      obtain ⟨left2, hleft2, hu2⟩ := rtext_qualified ho2 hu
      rw [hu2, List.append_assoc] at h
      obtain ⟨h1, h2⟩ := split_at_stop (isWord_reverse hi) (isWord_reverse hi2)
        (colon_not_alnum _) (colon_not_alnum _) h
      have h5 : left.data.reverse ++ l = left2.data.reverse ++ k := by simpa using h2
      obtain ⟨h3, h4⟩ := ih outer2 ho2 left left2 l k hleft hleft2 hl hk h5
      exact ⟨by rw [h3, string_eq_of_reverse h1], h4⟩
    | applied fn2 args2 hfn2 hargs2 =>
      exfalso
      obtain ⟨_, _, _, _, hu2⟩ := rtext_application hfn2 hargs2 hu
      rw [hu2] at h
      exact word_ne_paren hi _ _ h
  | applied fn args hfn hargs ihfn ihargs =>
    intro w hw t u l k ht hu hl hk h
    obtain ⟨fnText, texts, hfnText, htexts, ht2⟩ := rtext_application hfn hargs ht
    rw [ht2] at h
    cases hw with
    | simple name2 hname2 =>
      exfalso
      rw [prettyPrint_simpleIdentifier] at hu
      simp only [Except.ok.injEq, Val.str.injEq] at hu
      subst hu
      exact word_ne_paren hname2 _ _ h.symm
    | qualified outer2 inner2 ho2 hi2 =>
      exfalso
      obtain ⟨left2, _, hu2⟩ := rtext_qualified ho2 hu
      rw [hu2, List.append_assoc] at h
      exact word_ne_paren hi2 _ _ h.symm
    | applied fn2 args2 hfn2 hargs2 =>
      obtain ⟨fnText2, texts2, hfnText2, htexts2, hu2⟩ := rtext_application hfn2 hargs2 hu
      rw [hu2] at h
      simp only [List.cons_append, List.append_assoc, List.cons.injEq, true_and] at h
      obtain ⟨h1, h2⟩ := args_inj htexts htexts2
        (fun a ha => ihargs a (List.mem_reverse.mp ha))
        (fun b hb => hargs2 b (List.mem_reverse.mp hb)) h
      obtain ⟨h3, h4⟩ := ihfn fn2 hfn2 fnText fnText2 l k hfnText hfnText2 hl hk h2
      exact ⟨by rw [h3, List.reverse_injective h1], h4⟩

/-- Two trees built of word identifiers by qualification and application that
print the same text are the same tree, at whatever indentations. -/
theorem spine_injective {v w : Val} (hv : Spine v) (hw : Spine w) {i j : Nat} {t : String}
    (h1 : prettyPrint v i = .ok (.str t)) (h2 : prettyPrint w j = .ok (.str t)) : v = w :=
  (spine_readsBack hv i j w hw t t [] [] h1 h2 stop_nil stop_nil rfl).1

/-! ## The printed form of bindings and module literals -/

theorem identifier_chars {v : Val} (h : WordIdentifier v) (i : Nat) :
    ∃ t : String, prettyPrint v i = .ok (.str t) ∧
      ∀ c ∈ t.data, c.isAlphanum = true ∨ c = ':' := by
  induction h with
  | simple name hname =>
    exact ⟨name, prettyPrint_simpleIdentifier _ _,
      fun c hc => Or.inl ((isWord_data hname).2 c hc)⟩
  | qualified outer inner _ hinner ih =>
    obtain ⟨left, hleft, hchars⟩ := ih
    refine ⟨left ++ "::" ++ inner, prettyPrint_qualified_text inner i hleft, ?_⟩
    intro c hc
    simp only [String.data_append, List.mem_append] at hc
    rcases hc with (hc | hc) | hc
    · exact hchars c hc
    · right
      simpa using hc
    · exact Or.inl ((isWord_data hinner).2 c hc)

theorem prettyPrint_moduleBinding_text {module : Val} {t : String} (isPublic : Bool)
    (name : String) (i : Nat) (h : prettyPrint module i = .ok (.str t)) :
    prettyPrint (moduleBinding (.bool isPublic) (.str name) module) i =
      .ok (.str (bindingHead isPublic false ++ name ++ " = " ++ t)) := by
  rw [prettyPrint_moduleBinding, h]
  cases isPublic <;> simp [Val.toStr, Val.truthy, bindingHead]

theorem prettyPrint_typeBinding_text {type : Val} {t : String} (isPublic : Bool)
    (name : String) (i : Nat) (h : prettyPrint type i = .ok (.str t)) :
    prettyPrint (typeBinding (.bool isPublic) (.str name) type) i =
      .ok (.str (bindingHead isPublic true ++ name ++ " = " ++ t)) := by
  rw [prettyPrint_typeBinding, h]
  cases isPublic <;> simp [Val.toStr, Val.truthy, bindingHead]

theorem entry_text {e : Val} (h : WordEntry e) (i : Nat) :
    ∃ (p k : Bool) (n : String) (v : Val) (t : String),
      isWord n = true ∧ Spine v ∧ prettyPrint v i = .ok (.str t) ∧
      (∀ c ∈ t.data, c.isAlphanum = true ∨ c = ':') ∧
      e = (if k then typeBinding (.bool p) (.str n) v
        else moduleBinding (.bool p) (.str n) v) ∧
      prettyPrint e i = .ok (.str (bindingHead p k ++ n ++ " = " ++ t)) := by
  cases h with
  | ofModule isPublic name module hname hmodule =>
    obtain ⟨t, ht, hchars⟩ := identifier_chars hmodule i
    exact ⟨isPublic, false, name, module, t, hname, spine_of_identifier hmodule, ht, hchars,
      by simp, prettyPrint_moduleBinding_text isPublic name i ht⟩
  | ofType isPublic name type hname htype =>
    obtain ⟨t, ht, hchars⟩ := identifier_chars htype i
    exact ⟨isPublic, true, name, type, t, hname, spine_of_identifier htype, ht, hchars,
      by simp, prettyPrint_typeBinding_text isPublic name i ht⟩

theorem bindingHead_inj {p k q m : Bool} {x y : List Char}
    (h : (bindingHead p k).data ++ x = (bindingHead q m).data ++ y) :
    p = q ∧ k = m ∧ x = y := by
  cases p <;> cases k <;> cases q <;> cases m <;>
    simp [bindingHead, String.data_append] at h ⊢ <;> exact h

theorem bindingHead_chars (p k : Bool) :
    ∀ c ∈ (bindingHead p k).data, (c != ';') = true := by
  cases p <;> cases k <;> decide

theorem alnum_not_semicolon {c : Char} (h : c.isAlphanum = true ∨ c = ':') :
    (c != ';') = true := by
  rcases h with h | h
  · simp only [bne_iff_ne, ne_eq]
    intro hc
    rw [hc] at h
    revert h
    decide
  · subst h
    decide

theorem space_not_alnum (x : List Char) :
    ∀ c, (' ' :: x).head? = some c → c.isAlphanum = false := by
  intro c hc
  simp only [List.head?_cons, Option.some.injEq] at hc
  subst hc
  decide

/-- The entries of the fragment print, and their text holds no semicolon. -/
theorem entry_total {e : Val} (h : WordEntry e) (i : Nat) :
    ∃ t : String, prettyPrint e i = .ok (.str t) ∧ ∀ c ∈ t.data, (c != ';') = true := by
  obtain ⟨p, k, n, v, t, hn, _, _, hchars, _, htext⟩ := entry_text h i
  refine ⟨_, htext, ?_⟩
  intro c hc
  simp only [String.data_append, List.mem_append] at hc
  rcases hc with ((hc | hc) | hc) | hc
  · exact bindingHead_chars p k c hc
  · exact alnum_not_semicolon (Or.inl ((isWord_data hn).2 c hc))
  · revert c
    decide
  · exact alnum_not_semicolon (hchars c hc)

/-- Two entries of the fragment that print the same text are the same entry. -/
theorem entry_injective {e f : Val} (he : WordEntry e) (hf : WordEntry f) {i : Nat}
    {s : String} (h1 : prettyPrint e i = .ok (.str s)) (h2 : prettyPrint f i = .ok (.str s)) :
    e = f := by
  obtain ⟨p, k, n, v, t, hn, hv, hvt, _, hform, htext⟩ := entry_text he i
  obtain ⟨q, m, n2, v2, t2, hn2, hv2, hvt2, _, hform2, htext2⟩ := entry_text hf i
  rw [htext] at h1
  rw [htext2] at h2
  simp only [Except.ok.injEq, Val.str.injEq] at h1 h2
  have hd := congrArg String.data (h1.trans h2.symm)
  simp only [String.data_append, List.append_assoc] at hd
  obtain ⟨hp, hk, hrest⟩ := bindingHead_inj hd
  have hrest1 : n.data ++ ' ' :: ('=' :: ' ' :: t.data) =
      n2.data ++ ' ' :: ('=' :: ' ' :: t2.data) := by simpa using hrest
  obtain ⟨hnn, hrest2⟩ := split_at_stop (isWord_data hn).2 (isWord_data hn2).2
    (space_not_alnum _) (space_not_alnum _) hrest1
  have htt : t = t2 := String.ext (by simpa using hrest2)
  subst htt
  have hvv : v = v2 := spine_injective hv hv2 hvt hvt2
  rw [hform, hform2, hp, hk, String.ext hnn, hvv]

theorem prettyPrint_moduleLiteral_empty (i : Nat) :
    prettyPrint (moduleLiteral (.arr [])) i = .ok (.str "\x7b\n\x7d\n") := by
  rw [prettyPrint_moduleLiteral]
  simp

theorem prettyPrint_moduleLiteral_block {entries : List Val} {texts : List String} (i : Nat)
    (hne : entries ≠ [])
    (h : List.Forall₂ (fun entry t => prettyPrint entry (i + 2) = .ok (.str t)) entries texts) :
    prettyPrint (moduleLiteral (.arr entries)) i = .ok (.str (blockText i ";" texts)) := by
  rw [prettyPrint_moduleLiteral]
  cases h with
  | nil => exact absurd rfl hne
  | @cons x t xs ts hx hrest =>
    have hall := mapAll_lines (i + 2) ";\n" (List.Forall₂.cons hx hrest)
    simp only [List.length_cons, Nat.zero_lt_succ, if_true]
    rw [hall, Except.bind_ok_eq, Val.joinWith_strs, Except.bind_ok_eq]
    simp [blockText, String.append_assoc]

theorem restLines_eq (margin closing : List Char) (texts : List String) :
    (texts.map fun u => '\n' :: (margin ++ (u.data ++ [';', '\n']))).flatten ++ closing =
      restLines margin closing texts := by
  induction texts with
  | nil => simp [restLines]
  | cons u rest ih => simp [restLines, ← ih]

theorem blockText_data (i : Nat) (t : String) (rest : List String) :
    (blockText i ";" (t :: rest)).data =
      '\x7b' :: '\n' :: ((spaces (i + 2)).data ++ (t.data ++ ';' :: '\n' ::
        restLines (spaces (i + 2)).data ((spaces i).data ++ ['\x7d', '\n']) rest)) := by
  rw [← restLines_eq]
  simp only [blockText, String.data_append, List.map_cons, joinTexts_cons, List.map_map]
  simp [Function.comp_def]

theorem spaces_succ (n : Nat) : (spaces (n + 1)).data = ' ' :: (spaces n).data := by
  simp [spaces, List.replicate_succ]

theorem closing_ne_newline (i : Nat) (x : List Char) :
    (spaces i).data ++ ['\x7d', '\n'] ≠ '\n' :: x := by
  cases i with
  | zero => simp [spaces]
  | succ n => rw [spaces_succ]; simp

theorem semicolon_stop (x : List Char) :
    ∀ c, (';' :: x).head? = some c → (c != ';') = false := by
  intro c hc
  simp only [List.head?_cons, Option.some.injEq] at hc
  subst hc
  decide

theorem restLines_inj {margin closing : List Char} (hclosing : ∀ x, closing ≠ '\n' :: x)
    {ts us : List String} (hts : ∀ t ∈ ts, ∀ c ∈ t.data, (c != ';') = true)
    (hus : ∀ u ∈ us, ∀ c ∈ u.data, (c != ';') = true)
    (h : restLines margin closing ts = restLines margin closing us) : ts = us := by
  induction ts generalizing us with
  | nil =>
    cases us with
    | nil => rfl
    | cons u us => exact absurd h (hclosing _)
  | cons t ts ih =>
    cases us with
    | nil => exact absurd h.symm (hclosing _)
    | cons u us =>
      simp only [restLines, List.cons.injEq, true_and, List.append_cancel_left_eq] at h
      obtain ⟨h1, h2⟩ := split_at_stop (hts t (by simp)) (hus u (by simp))
        (semicolon_stop _) (semicolon_stop _) h
      simp only [List.cons.injEq, true_and] at h2
      rw [String.ext h1, ih (fun s hs => hts s (by simp [hs]))
        (fun s hs => hus s (by simp [hs])) h2]

theorem blockText_inj {i : Nat} {ts us : List String} (hne : ts ≠ []) (hne2 : us ≠ [])
    (hts : ∀ t ∈ ts, ∀ c ∈ t.data, (c != ';') = true)
    (hus : ∀ u ∈ us, ∀ c ∈ u.data, (c != ';') = true)
    (h : blockText i ";" ts = blockText i ";" us) : ts = us := by
  cases ts with
  | nil => exact absurd rfl hne
  | cons t ts =>
    cases us with
    | nil => exact absurd rfl hne2
    | cons u us =>
      have hd := congrArg String.data h
      rw [blockText_data, blockText_data] at hd
      simp only [List.cons.injEq, true_and, List.append_cancel_left_eq] at hd
      obtain ⟨h1, h2⟩ := split_at_stop (hts t (by simp)) (hus u (by simp))
        (semicolon_stop _) (semicolon_stop _) hd
      simp only [List.cons.injEq, true_and] at h2
      rw [String.ext h1, restLines_inj (closing_ne_newline i)
        (fun s hs => hts s (by simp [hs])) (fun s hs => hus s (by simp [hs])) h2]

theorem blockText_ne_empty (i : Nat) (t : String) (rest : List String) :
    blockText i ";" (t :: rest) ≠ "\x7b\n\x7d\n" := by
  intro h
  have hd := congrArg String.data h
  rw [blockText_data, spaces_succ] at hd
  simp at hd

theorem forall₂_eq_of_injective {R : Val → String → Prop} {P : Val → Prop}
    (hR : ∀ x y t, P x → P y → R x t → R y t → x = y) {xs ys : List Val} {ts : List String}
    (hxs : ∀ x ∈ xs, P x) (hys : ∀ y ∈ ys, P y)
    (h1 : List.Forall₂ R xs ts) (h2 : List.Forall₂ R ys ts) : xs = ys := by
  induction h1 generalizing ys with
  | nil =>
    cases h2
    rfl
  | @cons x t xs ts hx _ ih =>
    cases h2 with
    | @cons y _ ys _ hy hrest =>
      rw [hR x y t (hxs x (by simp)) (hys y (by simp)) hx hy,
        ih (fun z hz => hxs z (by simp [hz])) (fun z hz => hys z (by simp [hz])) hrest]

theorem entries_texts {entries : List Val} (h : ∀ entry ∈ entries, WordEntry entry)
    (i : Nat) :
    ∃ texts : List String,
      List.Forall₂ (fun entry t => prettyPrint entry i = .ok (.str t)) entries texts ∧
      ∀ t ∈ texts, ∀ c ∈ t.data, (c != ';') = true := by
  induction entries with
  | nil => exact ⟨[], List.Forall₂.nil, by simp⟩
  | cons e es ih =>
    obtain ⟨t, ht, hchars⟩ := entry_total (h e (by simp)) i
    obtain ⟨ts, hts, hall⟩ := ih (fun z hz => h z (by simp [hz]))
    refine ⟨t :: ts, List.Forall₂.cons ht hts, ?_⟩
    intro s hs
    simp only [List.mem_cons] at hs
    rcases hs with rfl | hs
    · exact hchars
    · exact hall s hs

/-- The text of a module literal of the fragment, and its last character. -/
theorem literal_total {entries : List Val} (h : ∀ entry ∈ entries, WordEntry entry)
    (i : Nat) :
    ∃ t : String, prettyPrint (moduleLiteral (.arr entries)) i = .ok (.str t) ∧
      ∃ rest, t.data.reverse = '\n' :: rest := by
  obtain ⟨texts, htexts, _⟩ := entries_texts h (i + 2)
  cases htexts with
  | nil => exact ⟨_, prettyPrint_moduleLiteral_empty i, _, rfl⟩
  | @cons e t es ts he hrest =>
    refine ⟨_, prettyPrint_moduleLiteral_block i (by simp) (List.Forall₂.cons he hrest), ?_⟩
    simp [blockText, String.data_append]

/-- Two module literals of the fragment that print the same text at one
indentation have the same entries. -/
theorem literal_injective {es fs : List Val} (hes : ∀ e ∈ es, WordEntry e)
    (hfs : ∀ f ∈ fs, WordEntry f) {i : Nat}
    (h : prettyPrint (moduleLiteral (.arr es)) i = prettyPrint (moduleLiteral (.arr fs)) i) :
    es = fs := by
  obtain ⟨ts, hts, hcs⟩ := entries_texts hes (i + 2)
  obtain ⟨us, hus, hds⟩ := entries_texts hfs (i + 2)
  cases hts with
  | nil =>
    cases hus with
    | nil => rfl
    | @cons f u fs us hf hrest =>
      exfalso
      rw [prettyPrint_moduleLiteral_empty,
        prettyPrint_moduleLiteral_block i (by simp) (List.Forall₂.cons hf hrest)] at h
      simp only [Except.ok.injEq, Val.str.injEq] at h
      exact blockText_ne_empty i u us h.symm
  | @cons e t es ts he hrest =>
    cases hus with
    | nil =>
      exfalso
      rw [prettyPrint_moduleLiteral_empty,
        prettyPrint_moduleLiteral_block i (by simp) (List.Forall₂.cons he hrest)] at h
      simp only [Except.ok.injEq, Val.str.injEq] at h
      exact blockText_ne_empty i t ts h
    | @cons f u fs us hf hrest2 =>
      rw [prettyPrint_moduleLiteral_block i (by simp) (List.Forall₂.cons he hrest),
        prettyPrint_moduleLiteral_block i (by simp) (List.Forall₂.cons hf hrest2)] at h
      simp only [Except.ok.injEq, Val.str.injEq] at h
      have htexts := blockText_inj (by simp) (by simp) hcs hds h
      have h1 : List.Forall₂ (fun x s => prettyPrint x (i + 2) = .ok (.str s))
          (e :: es) (t :: ts) := List.Forall₂.cons he hrest
      have h2 : List.Forall₂ (fun x s => prettyPrint x (i + 2) = .ok (.str s))
          (f :: fs) (t :: ts) := by
        rw [htexts]
        exact List.Forall₂.cons hf hrest2
      exact @forall₂_eq_of_injective (fun x s => prettyPrint x (i + 2) = .ok (.str s))
        WordEntry (fun x y s hx hy k1 k2 => entry_injective hx hy k1 k2) _ _ _ hes hfs h1 h2

/-! ## The fragment consists of valid trees -/

theorem wellFormed_of_wordIdentifier {v : Val} (h : WordIdentifier v) :
    WellFormed .identifier v := by
  induction h with
  | simple name _ => exact WellFormed.simpleIdentifier name
  | qualified outer inner _ _ ih => exact WellFormed.qualifiedIdentifier inner ih

theorem wellFormed_of_wordExpression {v : Val} (h : WordExpression v) :
    WellFormed .expression v := by
  induction h with
  | identifier node hnode =>
    exact WellFormed.expressionIdentifier (wellFormed_of_wordIdentifier hnode)
  | applied fn args _ _ ihfn ihargs => exact WellFormed.application ihfn ihargs

theorem wellFormed_of_wordEntry {v : Val} (h : WordEntry v) : WellFormed .entry v := by
  cases h with
  | ofModule isPublic name module _ hmodule =>
    exact WellFormed.moduleBinding isPublic name
      (WellFormed.moduleIdentifier (wellFormed_of_wordIdentifier hmodule))
  | ofType isPublic name type _ htype =>
    exact WellFormed.typeBinding isPublic name
      (WellFormed.typeIdentifier (wellFormed_of_wordIdentifier htype))

theorem validTree_of_stableTree {v : Val} (h : StableTree v) : ValidTree v := by
  cases h with
  | expression node hnode => exact ⟨.expression, wellFormed_of_wordExpression hnode⟩
  | literal entries hentries =>
    exact ⟨.module, WellFormed.moduleLiteral fun e he => wellFormed_of_wordEntry (hentries e he)⟩

theorem rightEnd_ne_newline {r rest : List Char} (h : RightEnd r) (hr : r = '\n' :: rest) :
    False := by
  obtain ⟨c, tail, hc, hkind⟩ := h
  rw [hc] at hr
  simp only [List.cons.injEq] at hr
  rcases hkind with h1 | h1 <;> rw [hr.1] at h1 <;> revert h1 <;> decide

/-! ## Claim on printing and reading back -/

/-- C19, counterexample: the ADT without summands and the module literal without
entries are two different valid trees, both of the fragment that the claim names,
and both print the text of an empty block. -/
theorem prettyPrint_adt_moduleLiteral_same_text :
    ValidTree (adt (.arr [])) ∧ ValidTree (moduleLiteral (.arr [])) ∧
    adt (.arr []) ≠ moduleLiteral (.arr []) ∧
    prettyPrint (adt (.arr [])) 0 = .ok (.str "\x7b\n\x7d\n") ∧
    prettyPrint (moduleLiteral (.arr [])) 0 = .ok (.str "\x7b\n\x7d\n") := by
  refine ⟨⟨.type, WellFormed.adt (by simp) (by simp)⟩,
    ⟨.module, WellFormed.moduleLiteral (by simp)⟩, ?_, ?_, ?_⟩
  · simp [adt, moduleLiteral]
  · rw [prettyPrint_adt]
    simp
  · rw [prettyPrint_moduleLiteral]
    simp

/-- C19, amended: on the trees of the fragment `StableTree` (simple and qualified
identifiers whose names are non-empty words of letters and digits; applications
of such expressions to such expressions; module literals whose entries are module
bindings and type bindings with a boolean visibility and a word as name that bind
such an identifier) `prettyPrint` is total and, at any one indentation,
injective: every tree of the fragment is a valid tree and prints to a text, and
two trees of the fragment that print the same are the same tree. -/
theorem prettyPrint_injective_on_stable_trees (indentation : Nat) (a b : Val)
    (ha : StableTree a) (hb : StableTree b) :
    ValidTree a ∧
    (∃ text, prettyPrint a indentation = .ok (.str text)) ∧
    (prettyPrint a indentation = prettyPrint b indentation → a = b) := by
  refine ⟨validTree_of_stableTree ha, ?_, ?_⟩
  · cases ha with
    | expression node hnode =>
      obtain ⟨t, ht, _⟩ := spine_total (spine_of_expression hnode) indentation
      exact ⟨t, ht⟩
    | literal entries hentries =>
      obtain ⟨t, ht, _⟩ := literal_total hentries indentation
      exact ⟨t, ht⟩
  · intro h
    cases ha with
    | expression node hnode =>
      obtain ⟨t, ht, hend⟩ := spine_total (spine_of_expression hnode) indentation
      cases hb with
      | expression node2 hnode2 =>
        exact spine_injective (spine_of_expression hnode) (spine_of_expression hnode2) ht
          (by rw [← h]; exact ht)
      | literal entries hentries =>
        exfalso
        obtain ⟨u, hu, rest, hrest⟩ := literal_total hentries indentation
        rw [ht, hu] at h
        simp only [Except.ok.injEq, Val.str.injEq] at h
        rw [h] at hend
        exact rightEnd_ne_newline hend hrest
    | literal entries hentries =>
      cases hb with
      | expression node2 hnode2 =>
        exfalso
        obtain ⟨t, ht, hend⟩ := spine_total (spine_of_expression hnode2) indentation
        obtain ⟨u, hu, rest, hrest⟩ := literal_total hentries indentation
        rw [ht, hu] at h
        simp only [Except.ok.injEq, Val.str.injEq] at h
        rw [← h] at hend
        exact rightEnd_ne_newline hend hrest
      | literal entries2 hentries2 =>
        rw [literal_injective hentries hentries2 h]

/-- Witness for C19: the application `f(m::x)` and the module literal with the
entry `public module m = x`. -/
theorem prettyPrint_injective_on_stable_trees_witness :
    StableTree (application (simpleIdentifier (.str "f"))
      (.arr [qualifiedIdentifier (simpleIdentifier (.str "m")) (.str "x")])) ∧
    StableTree (moduleLiteral (.arr
      [moduleBinding (.bool true) (.str "m") (simpleIdentifier (.str "x"))])) ∧
    (ValidTree (application (simpleIdentifier (.str "f"))
        (.arr [qualifiedIdentifier (simpleIdentifier (.str "m")) (.str "x")])) ∧
      (∃ text, prettyPrint (application (simpleIdentifier (.str "f"))
        (.arr [qualifiedIdentifier (simpleIdentifier (.str "m")) (.str "x")])) 0 =
          .ok (.str text)) ∧
      (prettyPrint (application (simpleIdentifier (.str "f"))
          (.arr [qualifiedIdentifier (simpleIdentifier (.str "m")) (.str "x")])) 0 =
        prettyPrint (moduleLiteral (.arr
          [moduleBinding (.bool true) (.str "m") (simpleIdentifier (.str "x"))])) 0 →
        application (simpleIdentifier (.str "f"))
            (.arr [qualifiedIdentifier (simpleIdentifier (.str "m")) (.str "x")]) =
          moduleLiteral (.arr
            [moduleBinding (.bool true) (.str "m") (simpleIdentifier (.str "x"))]))) :=
  have hf : WordIdentifier (simpleIdentifier (.str "f")) := WordIdentifier.simple "f" (by decide)
  have hx : WordIdentifier (simpleIdentifier (.str "x")) := WordIdentifier.simple "x" (by decide)
  have hm : WordIdentifier (qualifiedIdentifier (simpleIdentifier (.str "m")) (.str "x")) :=
    WordIdentifier.qualified _ "x" (WordIdentifier.simple "m" (by decide)) (by decide)
  have ha : StableTree (application (simpleIdentifier (.str "f"))
      (.arr [qualifiedIdentifier (simpleIdentifier (.str "m")) (.str "x")])) :=
    StableTree.expression _ (WordExpression.applied _ _ (WordExpression.identifier _ hf)
      (by
        intro arg harg
        simp only [List.mem_singleton] at harg
        subst harg
        exact WordExpression.identifier _ hm))
  have hb : StableTree (moduleLiteral (.arr
      [moduleBinding (.bool true) (.str "m") (simpleIdentifier (.str "x"))])) :=
    StableTree.literal _ (by
      intro entry hentry
      simp only [List.mem_singleton] at hentry
      subst hentry
      exact WordEntry.ofModule true "m" _ (by decide) hx)
  ⟨ha, hb, prettyPrint_injective_on_stable_trees 0 _ _ ha hb⟩

/-! ## The validator on the summands of an ADT -/

theorem Step.run_seqAll_of_ok {σ : Type} (steps : List (Step σ))
    (h : ∀ a ∈ steps, ∀ s, a.run s = (s, none)) (s : σ) :
    (Step.seqAll steps).run s = (s, none) := by
  induction steps with
  | nil => rfl
  | cons a rest ih =>
    rw [Step.seqAll, Step.run_seq_of_ok _ (h a (by simp) s)]
    exact ih (fun b hb => h b (by simp [hb]))

/-- The walk of a summand built by the constructor with a text tag: the tag does
not occur in it. -/
theorem walkSummand_summand (tag : String) (products : Val) :
    walkSummand validatorWalker (summand (.str tag) products) =
      (Step.bindE (.ok products.isArray) throwOnFalse).seq
        ((products.forEach fun product _ => walkType validatorWalker product).seq
          Step.skip) := by
  have hpre := walkPre_validatorWalker .summand (summand (.str tag) products)
  have hpost := walkPost_validatorWalker .summand (summand (.str tag) products)
  simp only [Kind.tag] at hpre hpost
  rw [walkSummand, hpre, hpost]
  simp [Kind.shapeCheck, isSummand, hasKind, typeofIs, fieldIsArray, summand, Val.get,
    List.lookup, andE, Val.isStr, Val.typeof]

theorem walkADT_adt (summands : List Val) :
    walkADT validatorWalker (adt (.arr summands)) =
      (Step.seqAll (summands.map (walkSummand validatorWalker))).seq Step.skip := by
  have hpre := walkPre_validatorWalker .adt (adt (.arr summands))
  have hpost := walkPost_validatorWalker .adt (adt (.arr summands))
  simp only [Kind.tag] at hpre hpost
  rw [walkADT, hpre, hpost]
  simp only [adt, Val.get, List.lookup]
  simp [Kind.shapeCheck, isADT, hasKind, fieldIsArray, Val.get, List.lookup, andE,
    Val.isStr, Val.isArray, Step.bindE, throwOnFalse, Val.forEach_arr]
  rfl

/-- The summands of a well-formed ADT carry pairwise different tags. -/
theorem wellFormed_adt_tags_nodup {g : Grammar} {tree : Val} (h : WellFormed g tree) :
    ∀ summands : List Val, tree = adt (.arr summands) →
      (summands.map fun s => s.get "tag").Nodup := by
  induction h with
  | adt _ hnodup _ =>
    intro summands heq
    simp only [adt, Val.obj.injEq, List.cons.injEq, Prod.mk.injEq, Val.arr.injEq,
      true_and, and_true] at heq
    rw [← heq]
    exact hnodup
  | moduleIdentifier _ ih => exact ih
  | typeIdentifier _ ih => exact ih
  | expressionIdentifier _ ih => exact ih
  | _ =>
    intro summands heq
    simp [simpleIdentifier, qualifiedIdentifier, importt, moduleLiteral, moduleBinding,
      typeBinding, adt, summand, fnType, expressionBinding, projection,
      casee, branch, fnLiteral, application] at heq

theorem validateNode_adt (summands : List Val) :
    validateNode (adt (.arr summands)) =
      .ok (((Step.seqAll (summands.map (walkSummand validatorWalker))).run ()).2 == none) := by
  have htag : (adt (.arr summands)).get "node" = .ok (.str Kind.adt.tag) := rfl
  rw [validateNode_of_tag .adt htag]
  simp only [Kind.walk]
  rw [walkADT_adt, Step.run_seq]
  rcases (Step.seqAll (summands.map (walkSummand validatorWalker))).run () with ⟨u, _ | e⟩ <;>
    simp [Step.skip]

/-! ## Claim on the tags of an ADT -/

/-- C21, counterexample: the ADT with the two summands `A` and `A`, which carry
the same tag and so make it no valid tree, is accepted by `validateNode`. -/
theorem validateNode_accepts_duplicate_tags :
    ¬ ValidTree (adt (.arr [summand (.str "A") (.arr []), summand (.str "A") (.arr [])])) ∧
    validateNode (adt (.arr [summand (.str "A") (.arr []), summand (.str "A") (.arr [])])) =
      .ok true := by
  constructor
  · rintro ⟨g, h⟩
    have hnodup := wellFormed_adt_tags_nodup h _ rfl
    simp [summand, Val.get, List.lookup] at hnodup
  · rw [validateNode_adt]
    simp [Step.seqAll, walkSummand_summand, Val.forEach_arr, Step.run_seq, Step.bindE,
      throwOnFalse, Val.isArray, Step.skip]

/-- C21, amended: `validateNode` does not compare the tags of the summands of an
ADT. On an ADT whose summands are built with text tags its result is the same
when every tag is replaced by another text, whatever the replacement, also one
that makes tags equal; and every ADT whose summands have text tags and empty
sequences of products is accepted, whether or not two of the tags are equal. -/
theorem validateNode_adt_ignores_tags (summands : List (String × Val))
    (rename : String → String) (tags : List String) :
    validateNode (adt (.arr (summands.map fun s => summand (.str (rename s.1)) s.2))) =
      validateNode (adt (.arr (summands.map fun s => summand (.str s.1) s.2))) ∧
    validateNode (adt (.arr (tags.map fun tag => summand (.str tag) (.arr [])))) =
      .ok true := by
  constructor
  · rw [validateNode_adt, validateNode_adt]
    simp only [List.map_map, Function.comp_def, walkSummand_summand]
  · rw [validateNode_adt]
    rw [Step.run_seqAll_of_ok]
    · rfl
    · intro a ha s
      simp only [List.map_map, Function.comp_def, List.mem_map] at ha
      obtain ⟨tag, _, rfl⟩ := ha
      rw [walkSummand_summand]
      simp [Val.forEach_arr, Step.seqAll, Step.run_seq, Step.bindE, throwOnFalse,
        Val.isArray, Step.skip]

/-! ## What a passed shape check says -/

theorem andE_eq_true {a b : Except JSError Bool} (h : andE a b = .ok true) :
    a = .ok true ∧ b = .ok true := by
  unfold andE at h
  split at h
  · cases h
  · cases h
  · exact ⟨rfl, h⟩

theorem hasKind_eq_true {node : Val} {kind : String} (h : hasKind node kind = .ok true) :
    node.get "node" = .ok (.str kind) := by
  unfold hasKind at h
  split at h
  · cases h
  · rename_i tag hget
    simp only [Except.ok.injEq] at h
    cases tag <;> simp [Val.isStr] at h
    rw [hget, h]

theorem typeofIs_eq_true {node : Val} {key ty : String} (h : typeofIs node key ty = .ok true) :
    ∃ value, node.get key = .ok value ∧ value.typeof = ty := by
  unfold typeofIs at h
  split at h
  · cases h
  · rename_i value hget
    simp only [Except.ok.injEq] at h
    exact ⟨value, hget, by simpa using h⟩

theorem fieldIsArray_eq_true {node : Val} {key : String} (h : fieldIsArray node key = .ok true) :
    ∃ value, node.get key = .ok value ∧ value.isArray = true := by
  unfold fieldIsArray at h
  split at h
  · cases h
  · rename_i value hget
    simp only [Except.ok.injEq] at h
    exact ⟨value, hget, h⟩

/-- A node that passes the check of a kind carries the tag of that kind. -/
theorem Kind.tag_of_shapeCheck {k : Kind} {node : Val} (h : k.shapeCheck node = .ok true) :
    node.get "node" = .ok (.str k.tag) := by
  cases k <;> simp only [Kind.shapeCheck, Kind.tag] at h ⊢
  case importt => exact hasKind_eq_true h
  all_goals first
    | exact hasKind_eq_true (andE_eq_true (andE_eq_true h).1).1
    | exact hasKind_eq_true (andE_eq_true h).1

/-- A node that passes the check of a kind holds a value of the declared
primitive kind in every checked field of that kind. -/
theorem Kind.fields_of_shapeCheck {k : Kind} {node : Val} (h : k.shapeCheck node = .ok true) :
    ∀ field fieldKind, (field, fieldKind) ∈ k.checkedFields →
      ∃ value, node.get field = .ok value ∧ fieldKind.wrong value = false := by
  intro field fieldKind hmem
  cases k <;> simp only [Kind.shapeCheck] at h <;>
    simp only [Kind.checkedFields, List.mem_cons, List.mem_singleton, Prod.mk.injEq,
      List.not_mem_nil, or_false] at hmem
  case simpleIdentifier =>
    obtain ⟨rfl, rfl⟩ := hmem
    obtain ⟨v, hv, ht⟩ := typeofIs_eq_true (andE_eq_true h).2
    exact ⟨v, hv, by simp [FieldKind.wrong, ht]⟩
  case qualifiedIdentifier =>
    obtain ⟨rfl, rfl⟩ := hmem
    obtain ⟨v, hv, ht⟩ := typeofIs_eq_true (andE_eq_true h).2
    exact ⟨v, hv, by simp [FieldKind.wrong, ht]⟩
  case moduleLiteral =>
    obtain ⟨rfl, rfl⟩ := hmem
    obtain ⟨v, hv, ht⟩ := fieldIsArray_eq_true (andE_eq_true h).2
    exact ⟨v, hv, by simp [FieldKind.wrong, ht]⟩
  case moduleBinding =>
    rcases hmem with ⟨rfl, rfl⟩ | ⟨rfl, rfl⟩
    · obtain ⟨v, hv, ht⟩ := typeofIs_eq_true (andE_eq_true (andE_eq_true h).1).2
      exact ⟨v, hv, by simp [FieldKind.wrong, ht]⟩
    · obtain ⟨v, hv, ht⟩ := typeofIs_eq_true (andE_eq_true h).2
      exact ⟨v, hv, by simp [FieldKind.wrong, ht]⟩
  case typeBinding =>
    rcases hmem with ⟨rfl, rfl⟩ | ⟨rfl, rfl⟩
    · obtain ⟨v, hv, ht⟩ := typeofIs_eq_true (andE_eq_true (andE_eq_true h).1).2
      exact ⟨v, hv, by simp [FieldKind.wrong, ht]⟩
    · obtain ⟨v, hv, ht⟩ := typeofIs_eq_true (andE_eq_true h).2
      exact ⟨v, hv, by simp [FieldKind.wrong, ht]⟩
  case adt =>
    obtain ⟨rfl, rfl⟩ := hmem
    obtain ⟨v, hv, ht⟩ := fieldIsArray_eq_true (andE_eq_true h).2
    exact ⟨v, hv, by simp [FieldKind.wrong, ht]⟩
  case summand =>
    rcases hmem with ⟨rfl, rfl⟩ | ⟨rfl, rfl⟩
    · obtain ⟨v, hv, ht⟩ := typeofIs_eq_true (andE_eq_true (andE_eq_true h).1).2
      exact ⟨v, hv, by simp [FieldKind.wrong, ht]⟩
    · obtain ⟨v, hv, ht⟩ := fieldIsArray_eq_true (andE_eq_true h).2
      exact ⟨v, hv, by simp [FieldKind.wrong, ht]⟩
  case fnType =>
    obtain ⟨rfl, rfl⟩ := hmem
    obtain ⟨v, hv, ht⟩ := fieldIsArray_eq_true (andE_eq_true h).2
    exact ⟨v, hv, by simp [FieldKind.wrong, ht]⟩
  case expressionBinding =>
    rcases hmem with ⟨rfl, rfl⟩ | ⟨rfl, rfl⟩
    · obtain ⟨v, hv, ht⟩ := typeofIs_eq_true (andE_eq_true (andE_eq_true h).1).2
      exact ⟨v, hv, by simp [FieldKind.wrong, ht]⟩
    · obtain ⟨v, hv, ht⟩ := typeofIs_eq_true (andE_eq_true h).2
      exact ⟨v, hv, by simp [FieldKind.wrong, ht]⟩
  case projection =>
    obtain ⟨rfl, rfl⟩ := hmem
    obtain ⟨v, hv, ht⟩ := typeofIs_eq_true (andE_eq_true h).2
    exact ⟨v, hv, by simp [FieldKind.wrong, ht]⟩
  case casee =>
    obtain ⟨rfl, rfl⟩ := hmem
    obtain ⟨v, hv, ht⟩ := fieldIsArray_eq_true (andE_eq_true h).2
    exact ⟨v, hv, by simp [FieldKind.wrong, ht]⟩
  case branch =>
    rcases hmem with ⟨rfl, rfl⟩ | ⟨rfl, rfl⟩
    · obtain ⟨v, hv, ht⟩ := typeofIs_eq_true (andE_eq_true (andE_eq_true h).1).2
      exact ⟨v, hv, by simp [FieldKind.wrong, ht]⟩
    · obtain ⟨v, hv, ht⟩ := fieldIsArray_eq_true (andE_eq_true h).2
      exact ⟨v, hv, by simp [FieldKind.wrong, ht]⟩
  case fnLiteral =>
    obtain ⟨rfl, rfl⟩ := hmem
    obtain ⟨v, hv, ht⟩ := fieldIsArray_eq_true (andE_eq_true h).2
    exact ⟨v, hv, by simp [FieldKind.wrong, ht]⟩
  case application =>
    obtain ⟨rfl, rfl⟩ := hmem
    obtain ⟨v, hv, ht⟩ := fieldIsArray_eq_true (andE_eq_true h).2
    exact ⟨v, hv, by simp [FieldKind.wrong, ht]⟩

/-- A walk of the validator that completes has passed the check of its node. -/
theorem Kind.shapeCheck_of_walk {k : Kind} {node : Val}
    (h : ((k.walk validatorWalker node).run ()).2 = none) : k.shapeCheck node = .ok true := by
  by_contra hcheck
  have hfail : (walkPre k.tag validatorWalker node).Fails () := by
    rw [walkPre_validatorWalker]
    rcases hc : k.shapeCheck node with e | b
    · simp [Step.bindE, Step.Fails, Step.throw]
    · cases b
      · simp [Step.bindE, throwOnFalse, Step.Fails, Step.throw]
      · exact absurd hc hcheck
  exact Kind.walk_fails_of_pre k validatorWalker node () hfail h

/-! ## Soundness of the validator -/

theorem Kind.alwaysFails_of_nodeFields {k : Kind} {field : String}
    (h : field ∈ k.nodeFields) : k.alwaysFails = true := by
  cases k <;> simp [Kind.nodeFields] at h <;> rfl

theorem Kind.alwaysFails_of_childWalks {k : Kind} {field : String} {g : Grammar}
    (h : (field, g) ∈ k.childWalks) : k.alwaysFails = true := by
  cases k <;> simp [Kind.childWalks] at h <;> rfl

theorem exists_kind_of_isNode {node : Val} (h : isNode node = .ok true) :
    ∃ k : Kind, node.get "node" = .ok (.str k.tag) := by
  rcases hget : node.get "node" with e | tag
  · simp [isNode, hasKind, hget, orE] at h
  · by_cases hk : ∃ k : Kind, tag = .str k.tag
    · obtain ⟨k, rfl⟩ := hk
      exact ⟨k, rfl⟩
    · exfalso
      have hunknown : UnknownKind tag := fun k hkk => hk ⟨k, hkk⟩
      rw [isNode_of_unknown hget hunknown] at h
      cases h

/-- When the walk of an ADT by the validator completes, so does the walk of each
of its summands. -/
theorem walkSummand_of_walkADT {tree item : Val} {items : List Val}
    (hget : tree.get "summands" = .ok (.arr items)) (hmem : item ∈ items)
    (h : ((Kind.adt.walk validatorWalker tree).run ()).2 = none) :
    ((Kind.summand.walk validatorWalker item).run ()).2 = none := by
  by_contra hfail
  obtain ⟨i, hi, hitem⟩ := List.getElem_of_mem hmem
  refine walkADT_fails_of_item validatorWalker hget i hi ?_ () h
  intro t
  have hget2 : items.get ⟨i, hi⟩ = item := by simpa using hitem
  rw [hget2]
  exact hfail

/-- Every node contained in a node on which a walk of the validator completes
passes the check of its kind. -/
theorem contains_checked {tree node : Val} (hc : Contains tree node) :
    ∀ k : Kind, ((k.walk validatorWalker tree).run ()).2 = none →
      ∃ kind : Kind, node.get "node" = .ok (.str kind.tag) ∧
        kind.shapeCheck node = .ok true := by
  induction hc with
  | root tree =>
    intro k h
    have hcheck := Kind.shapeCheck_of_walk h
    exact ⟨k, Kind.tag_of_shapeCheck hcheck, hcheck⟩
  | @inChild tree child node kind field htag hfield hget _ _ =>
    intro k h
    exfalso
    have htag2 := Kind.tag_of_shapeCheck (Kind.shapeCheck_of_walk h)
    rw [htag] at htag2
    simp only [Except.ok.injEq, Val.str.injEq] at htag2
    have hk := Kind.tag_injective htag2
    subst hk
    exact Kind.walk_fails kind (Kind.alwaysFails_of_nodeFields hfield) validatorWalker tree () h
  | @inItem tree item node kind field items htag hfield hget hmem _ ih =>
    intro k h
    have htag2 := Kind.tag_of_shapeCheck (Kind.shapeCheck_of_walk h)
    rw [htag] at htag2
    simp only [Except.ok.injEq, Val.str.injEq] at htag2
    have hk := Kind.tag_injective htag2
    subst hk
    have hpos : 0 < items.length := List.length_pos_of_mem hmem
    cases kind <;> simp [Kind.sequenceFields] at hfield <;> subst hfield
    case moduleLiteral =>
      exact absurd h (walkModuleLiteral_fails_of_item validatorWalker hget hpos ())
    case adt => exact ih .summand (walkSummand_of_walkADT hget hmem h)
    case summand =>
      exact absurd h (walkSummand_fails_of_item validatorWalker hget hpos ())
    case fnType =>
      exact absurd h (Kind.walk_fails .fnType rfl validatorWalker tree ())
    case casee =>
      exact absurd h (walkCase_fails_of_item validatorWalker hget hpos ())
    case application =>
      exact absurd h (Kind.walk_fails .application rfl validatorWalker tree ())

/-- Every walk function that a completed walk of the validator runs is run on a
node that passes the check of the kind of that walk function. -/
theorem reaches_checked {k l : Kind} {tree node : Val} (hr : Reaches k tree l node) :
    ((k.walk validatorWalker tree).run ()).2 = none → l.shapeCheck node = .ok true := by
  induction hr with
  | root k tree => exact Kind.shapeCheck_of_walk
  | @viaChild k kc l tree child node field g hfield hget _ _ _ =>
    intro h
    exact absurd h
      (Kind.walk_fails k (Kind.alwaysFails_of_childWalks hfield) validatorWalker tree ())
  | @viaItem k kc l tree item node field g items hfield hget hmem hruns _ ih =>
    intro h
    have hpos : 0 < items.length := List.length_pos_of_mem hmem
    cases k <;> simp [Kind.itemWalks] at hfield
    case moduleLiteral =>
      obtain ⟨rfl, rfl⟩ := hfield
      exact absurd h (walkModuleLiteral_fails_of_item validatorWalker hget hpos ())
    case adt =>
      obtain ⟨rfl, rfl⟩ := hfield
      simp only [Grammar.Runs] at hruns
      subst hruns
      exact ih (walkSummand_of_walkADT hget hmem h)
    case summand =>
      obtain ⟨rfl, rfl⟩ := hfield
      exact absurd h (walkSummand_fails_of_item validatorWalker hget hpos ())
    case fnType =>
      exact absurd h (Kind.walk_fails .fnType rfl validatorWalker tree ())
    case casee =>
      obtain ⟨rfl, rfl⟩ := hfield
      exact absurd h (walkCase_fails_of_item validatorWalker hget hpos ())
    case application =>
      exact absurd h (Kind.walk_fails .application rfl validatorWalker tree ())

/-! ## Claim on the soundness of the validator -/

/-- C22: when `validateNode` returns `true` on a value, the walk of the value
completed without an error; the value carries the tag of a kind `k`, and every
node on which the walk from the walk function of `k` runs the walk function of a
kind passed the check that the `pre` callback of that kind makes: the check is
true, so the node carries the tag of that kind, and each checked field of the
kind holds a value of the declared primitive kind; and the same holds of every
node contained in the value, under the kind whose tag it carries. So
`validateNode` does not return `true` on a tree that contains a node failing its
check. -/
theorem validateNode_sound (tree : Val) (h : validateNode tree = .ok true) :
    ((walkNode validatorWalker tree).run ()).2 = none ∧
    (∃ k : Kind, tree.get "node" = .ok (.str k.tag) ∧
      ∀ l node, Reaches k tree l node →
        l.shapeCheck node = .ok true ∧ node.get "node" = .ok (.str l.tag) ∧
        ∀ field fieldKind, (field, fieldKind) ∈ l.checkedFields →
          ∃ value, node.get field = .ok value ∧ fieldKind.wrong value = false) ∧
    ∀ node, Contains tree node →
      ∃ kind : Kind, node.get "node" = .ok (.str kind.tag) ∧
        kind.shapeCheck node = .ok true ∧
        ∀ field fieldKind, (field, fieldKind) ∈ kind.checkedFields →
          ∃ value, node.get field = .ok value ∧ fieldKind.wrong value = false := by
  have hnode : isNode tree = .ok true := by
    unfold validateNode at h
    split at h
    · cases h
    · cases h
    · assumption
  obtain ⟨k, htag⟩ := exists_kind_of_isNode hnode
  have hwalk : ((k.walk validatorWalker tree).run ()).2 = none := by
    rw [validateNode_of_tag k htag] at h
    simpa using h
  refine ⟨by rw [walkNode_of_tag _ k htag]; exact hwalk, ⟨k, htag, ?_⟩, ?_⟩
  · intro l node hr
    have hcheck := reaches_checked hr hwalk
    exact ⟨hcheck, Kind.tag_of_shapeCheck hcheck, Kind.fields_of_shapeCheck hcheck⟩
  · intro node hc
    obtain ⟨kind, hkind, hcheck⟩ := contains_checked hc k hwalk
    exact ⟨kind, hkind, hcheck, Kind.fields_of_shapeCheck hcheck⟩

/-- Witness for C22: the ADT with the summands `A` and `B`; its second summand is
reached by the walk and contained in it. -/
theorem validateNode_sound_witness :
    validateNode (adt (.arr [summand (.str "A") (.arr []), summand (.str "B") (.arr [])])) =
      .ok true ∧
    Reaches .adt (adt (.arr [summand (.str "A") (.arr []), summand (.str "B") (.arr [])]))
      .summand (summand (.str "B") (.arr [])) ∧
    Contains (adt (.arr [summand (.str "A") (.arr []), summand (.str "B") (.arr [])]))
      (summand (.str "B") (.arr [])) ∧
    ((walkNode validatorWalker
      (adt (.arr [summand (.str "A") (.arr []), summand (.str "B") (.arr [])]))).run ()).2 =
        none ∧
    ∃ kind : Kind, (summand (.str "B") (.arr [])).get "node" = .ok (.str kind.tag) ∧
      kind.shapeCheck (summand (.str "B") (.arr [])) = .ok true ∧
      ∀ field fieldKind, (field, fieldKind) ∈ kind.checkedFields →
        ∃ value, (summand (.str "B") (.arr [])).get field = .ok value ∧
          fieldKind.wrong value = false :=
  have hvalid : validateNode
      (adt (.arr [summand (.str "A") (.arr []), summand (.str "B") (.arr [])])) = .ok true := by
    rw [validateNode_adt]
    simp [Step.seqAll, walkSummand_summand, Val.forEach_arr, Step.run_seq, Step.bindE,
      throwOnFalse, Val.isArray, Step.skip]
  have hreaches : Reaches .adt
      (adt (.arr [summand (.str "A") (.arr []), summand (.str "B") (.arr [])]))
      .summand (summand (.str "B") (.arr [])) :=
    @Reaches.viaItem .adt .summand .summand _ _ _ "summands" .summand _
      (by simp [Kind.itemWalks]) rfl (by simp) rfl (Reaches.root _ _)
  have hcontains : Contains
      (adt (.arr [summand (.str "A") (.arr []), summand (.str "B") (.arr [])]))
      (summand (.str "B") (.arr [])) :=
    @Contains.inItem _ _ _ .adt "summands" _ rfl (by simp [Kind.sequenceFields]) rfl
      (by simp) (Contains.root _)
  ⟨hvalid, hreaches, hcontains, (validateNode_sound _ hvalid).1,
    (validateNode_sound _ hvalid).2.2 _ hcontains⟩

end Tmplng
